import Mathlib

/-!
# Virtual-memory paging (`473_mm.c`): FIFO and Third-Chance fault handlers

A shallow embedding of the two SIGSEGV handlers of `473_mm.c` and of the
linked-list helpers they call, followed by theorems about them.

Modelling conventions.

* C `int` values are mathematical integers (`Int`).  Signed overflow is
  undefined in C, so the model describes the executions in which no `int`
  computation overflows.  The one conversion that C does define, the
  assignment of an `int` expression to `unsigned int phy_addr`, is kept
  explicit (`to_unsigned`, reduction modulo `2^32`).
* Addresses are byte offsets from `VM`: the handler argument `si_addr`
  stands for `sip->si_addr - VM`.  `/` and `%` on C integers truncate
  towards zero (`Int.tdiv`, `Int.tmod`).
* `mprotect` and `mm_logger` are external; a handler returns the list of
  calls it made, in program order (`Event`).
* The FIFO list is a NULL-terminated singly linked list; the model keeps
  the sequence of its nodes from `fifo_head` to `fifo_tail`.
* The Third-Chance list is kept with its pointers: nodes live in a heap
  (`List tc_page`, the address of a node is its index, `malloc` returns
  the next unused index, nothing is ever freed) and `next`, `tc_head`,
  `tc_tail`, `clock_head` are optional addresses (`none` is `NULL`).
* A handler returns an `Outcome`: `ok` with the new state and the calls
  made, `crash` when the C code would dereference `NULL` (or a dangling
  address) or divide by zero, `timeout` when a loop used up the fuel it
  was given.
-/

namespace MM

/-! ## Constants of `<sys/mman.h>` -/

/-- PROT_NONE of sys/mman.h. -/
abbrev PROT_NONE : Int := 0

/-- PROT_READ of sys/mman.h. -/
abbrev PROT_READ : Int := 1

/-- PROT_WRITE of sys/mman.h. -/
abbrev PROT_WRITE : Int := 2

/-- The value of the C expression `PROT_READ | PROT_WRITE`. -/
abbrev PROT_READ_WRITE : Int := 3

/-! ## Shared types -/

/-- The globals `VM_SIZE`, `N_FRAMES`, `PAGE_SIZE`, `POLICY` bound by `mm_init`
(`VM` itself is the origin of the addresses of the model). -/
structure Config where
  VM_SIZE : Int
  N_FRAMES : Int
  PAGE_SIZE : Int
  POLICY : Int
deriving DecidableEq

/-- A call made by a handler to one of its two external collaborators.
`mprotect addr len prot` is `mprotect(VM + addr, len, prot)`;
`mm_logger` carries its five arguments in the order of the C call. -/
inductive Event where
  | mprotect (addr len prot : Int)
  | mm_logger (virt_page cause evicted_page write_back phy_addr : Int)
deriving DecidableEq

/-- Result of running a handler (or one of its loops). -/
inductive Outcome (α : Type) where
  | ok (a : α)
  | crash
  | timeout
deriving DecidableEq

/-- Conversion of an `int` value to `unsigned int` (32 bits). -/
def to_unsigned (x : Int) : Int := x % 4294967296

/-! ## FIFO -/

/-- The struct `mm_fifo` without its `next` pointer. -/
structure fifo_page where
  page_number : Int
  place_in_pm : Int
  flag : Int
deriving DecidableEq

/-- The FIFO globals: the list from `fifo_head` to `fifo_tail` and the counter. -/
structure FifoState where
  queue : List fifo_page
  pages_in_queue_fifo : Int
deriving DecidableEq

/-- The FIFO globals after `mm_init` with policy 1. -/
def fifo_init : FifoState := { queue := [], pages_in_queue_fifo := 0 }

/-- C function `create_fifo_page`. -/
def create_fifo_page (page_number place_in_pm flag : Int) : fifo_page :=
  { page_number := page_number, place_in_pm := place_in_pm, flag := flag }

/-- C function `new_fifo_page`: link a new node after `fifo_tail`. -/
def new_fifo_page (queue : List fifo_page) (page_number place_in_pm flag : Int) :
    List fifo_page :=
  queue ++ [create_fifo_page page_number place_in_pm flag]

/-- C function `remove_oldest_fifo`: unlink and free the head node. -/
def remove_oldest_fifo (queue : List fifo_page) : List fifo_page :=
  queue.tail

/-- The `while (iter)` loop of `fifo_handler` (lines 114-130).  `none` when the
loop ends with `found == false`; otherwise the list with the flag of the first
matching node set, and the two calls made. -/
def fifo_lookup (cfg : Config) (virt_page offset : Int) :
    List fifo_page → Option (List fifo_page × List Event)
  | [] => none
  | iter :: rest =>
    if iter.page_number = virt_page then
      some ({ iter with flag := PROT_READ_WRITE } :: rest,
        [Event.mprotect (cfg.PAGE_SIZE * virt_page) cfg.PAGE_SIZE PROT_READ_WRITE,
         Event.mm_logger virt_page 1 (-1) 0
           (to_unsigned (iter.place_in_pm * cfg.PAGE_SIZE + offset))])
    else
      match fifo_lookup cfg virt_page offset rest with
      | none => none
      | some (rest1, evs) => some (iter :: rest1, evs)

/-- The `if (!found)` block of `fifo_handler` (lines 132-185). -/
def fifo_miss (cfg : Config) (s : FifoState) (virt_page offset : Int) :
    Outcome (FifoState × List Event) :=
  -- lines 134-154: (evicted_virt_page, p_old_page, write_back, globals, calls)
  let phase1 : Outcome (Int × Int × Int × FifoState × List Event) :=
    if s.pages_in_queue_fifo < cfg.N_FRAMES then
      Outcome.ok (-1, 0, 0,
        { s with pages_in_queue_fifo := s.pages_in_queue_fifo + 1 }, [])
    else
      match s.queue with
      | [] => Outcome.crash
      | fifo_head :: _ =>
        Outcome.ok (fifo_head.page_number, fifo_head.place_in_pm,
          (if fifo_head.flag = PROT_READ_WRITE then 1 else 0),
          { s with queue := remove_oldest_fifo s.queue },
          [Event.mprotect (cfg.PAGE_SIZE * fifo_head.page_number) cfg.PAGE_SIZE PROT_NONE])
  match phase1 with
  | Outcome.crash => Outcome.crash
  | Outcome.timeout => Outcome.timeout
  | Outcome.ok (evicted_virt_page, p_old_page, write_back, s1, evs1) =>
    -- lines 156-167
    let queue2 : List fifo_page :=
      match s1.queue with
      | [] => [create_fifo_page virt_page 0 PROT_READ]
      | _ :: _ =>
        if evicted_virt_page = -1 then
          new_fifo_page s1.queue virt_page (s1.pages_in_queue_fifo - 1) PROT_READ
        else
          new_fifo_page s1.queue virt_page p_old_page PROT_READ
    -- lines 170-184
    let logged : Event :=
      if evicted_virt_page = -1 then
        Event.mm_logger virt_page 0 (-1) 0
          (to_unsigned ((s1.pages_in_queue_fifo - 1) * cfg.PAGE_SIZE + offset))
      else
        Event.mm_logger virt_page 0 evicted_virt_page write_back
          (to_unsigned (p_old_page * cfg.PAGE_SIZE + offset))
    Outcome.ok ({ s1 with queue := queue2 },
      evs1 ++ [Event.mprotect (cfg.PAGE_SIZE * virt_page) cfg.PAGE_SIZE PROT_READ, logged])

/-- C function `fifo_handler`; `si_addr` is `sip->si_addr - VM`. -/
def fifo_handler (cfg : Config) (s : FifoState) (si_addr : Int) :
    Outcome (FifoState × List Event) :=
  if cfg.PAGE_SIZE = 0 then Outcome.crash
  else
    let virt_page := Int.tdiv si_addr cfg.PAGE_SIZE
    let offset := Int.tmod si_addr cfg.PAGE_SIZE
    match fifo_lookup cfg virt_page offset s.queue with
    | some (queue1, evs) => Outcome.ok ({ s with queue := queue1 }, evs)
    | none => fifo_miss cfg s virt_page offset

/-- A run of `fifo_handler` over a sequence of faults, collecting the calls made. -/
def fifo_run (cfg : Config) : FifoState → List Int → Outcome (FifoState × List Event)
  | s, [] => Outcome.ok (s, [])
  | s, d :: ds =>
    match fifo_handler cfg s d with
    | Outcome.ok (s1, evs1) =>
      match fifo_run cfg s1 ds with
      | Outcome.ok (s2, evs2) => Outcome.ok (s2, evs1 ++ evs2)
      | Outcome.crash => Outcome.crash
      | Outcome.timeout => Outcome.timeout
    | Outcome.crash => Outcome.crash
    | Outcome.timeout => Outcome.timeout

/-! ## Third-Chance -/

/-- The struct `mm_tc`; `next` is the address (heap index) of the next node. -/
structure tc_page where
  page_number : Int
  place_in_pm : Int
  flag : Int
  r : Int
  m : Int
  next : Option Nat
deriving DecidableEq

/-- The Third-Chance globals together with the heap their pointers refer to. -/
structure TcState where
  heap : List tc_page
  tc_head : Option Nat
  tc_tail : Option Nat
  clock_head : Option Nat
  pages_in_queue_tc : Int
deriving DecidableEq

/-- The Third-Chance globals after `mm_init` with policy 2. -/
def tc_init : TcState :=
  { heap := [], tc_head := none, tc_tail := none, clock_head := none,
    pages_in_queue_tc := 0 }

/-- C function `create_tc_page`: the node it fills in (its `next` is `NULL`). -/
def create_tc_page (page_number place_in_pm flag r m : Int) : tc_page :=
  { page_number := page_number, place_in_pm := place_in_pm, flag := flag,
    r := r, m := m, next := none }

/-- C function `new_tc_page`: allocate a node, link it after `tc_tail`, close the
circle on `tc_head`, and make it the tail. -/
def new_tc_page (s : TcState) (page_number place_in_pm flag r m : Int) :
    Outcome TcState :=
  match s.tc_tail with
  | none => Outcome.crash
  | some t =>
    match s.heap[t]? with
    | none => Outcome.crash
    | some tail_node =>
      let new_page := s.heap.length
      Outcome.ok
        { s with
          heap := s.heap.set t { tail_node with next := some new_page } ++
            [{ create_tc_page page_number place_in_pm flag r m with next := s.tc_head }],
          tc_tail := some new_page }

/-- C function `replace_tc_page`: walk from `tmp` (initially `tc_head`) to the first
node whose page number is `evicted_virt_page` and overwrite it. -/
def replace_tc_page (evicted_virt_page virt_page : Int) :
    Nat → List tc_page → Option Nat → Outcome (List tc_page)
  | 0, _, _ => Outcome.timeout
  | _ + 1, _, none => Outcome.crash
  | fuel + 1, heap, some a =>
    match heap[a]? with
    | none => Outcome.crash
    | some tmp =>
      if tmp.page_number ≠ evicted_virt_page then
        replace_tc_page evicted_virt_page virt_page fuel heap tmp.next
      else
        Outcome.ok
          (heap.set a { tmp with page_number := virt_page, flag := PROT_READ, r := 1, m := 0 })

/-- The body run by `tc_handler` on the node `iter` at address `a` whose page number
is the faulting page (lines 206-245): the heap after the update and the calls made. -/
def tc_hit (cfg : Config) (virt_page offset : Int) (heap : List tc_page) (a : Nat)
    (iter : tc_page) : List tc_page × List Event :=
  if iter.flag = PROT_NONE then
    (heap.set a { iter with r := 1, flag := PROT_READ },
     [Event.mprotect (cfg.PAGE_SIZE * virt_page) cfg.PAGE_SIZE PROT_READ,
      Event.mm_logger virt_page 2 (-1) 0
        (to_unsigned (iter.place_in_pm * cfg.PAGE_SIZE + offset))])
  else
    (heap.set a { iter with r := 1, m := 1, flag := PROT_READ_WRITE },
     Event.mprotect (cfg.PAGE_SIZE * virt_page) cfg.PAGE_SIZE PROT_READ_WRITE ::
       (if iter.m = 0 then
         [Event.mm_logger virt_page 1 (-1) 0
           (to_unsigned (iter.place_in_pm * cfg.PAGE_SIZE + offset))]
        else []))

/-- The `while (iter)` loop of `tc_handler` (lines 204-250), started at `iter`.
`ok none` when the loop ends with `found == false`; otherwise the heap after the
update of the matching node, and the calls made. -/
def tc_lookup (cfg : Config) (tc_tail : Option Nat) (virt_page offset : Int) :
    Nat → List tc_page → Option Nat → Outcome (Option (List tc_page × List Event))
  | _, _, none => Outcome.ok none
  | 0, _, some _ => Outcome.timeout
  | fuel + 1, heap, some a =>
    match heap[a]? with
    | none => Outcome.crash
    | some iter =>
      if iter.page_number = virt_page then
        Outcome.ok (some (tc_hit cfg virt_page offset heap a iter))
      else if some a = tc_tail then Outcome.ok none
      else tc_lookup cfg tc_tail virt_page offset fuel heap iter.next

/-- Result of the clock scan: the heap, the hand, `write_back`, the `mprotect` calls
made, and (for the proofs only) the addresses the hand advanced over, in order. -/
structure ScanResult where
  heap : List tc_page
  clock_head : Option Nat
  write_back : Int
  events : List Event
  visited : List Nat
deriving DecidableEq

/-- The `while (!page_found)` loop of `tc_handler` (lines 276-308). -/
def tc_clock_scan (cfg : Config) : Nat → List tc_page → Option Nat → Outcome ScanResult
  | 0, _, _ => Outcome.timeout
  | _ + 1, _, none => Outcome.crash
  | fuel + 1, heap, some c =>
    match heap[c]? with
    | none => Outcome.crash
    | some node =>
      if node.r = 0 ∧ node.m = 0 then
        Outcome.ok { heap := heap, clock_head := some c, write_back := 0,
                     events := [], visited := [] }
      else if node.r = -1 ∧ node.m = 1 then
        Outcome.ok { heap := heap, clock_head := some c, write_back := 1,
                     events := [], visited := [] }
      else
        let step : List tc_page × List Event :=
          if node.r = 1 ∧ node.m = 0 then
            (heap.set c { node with r := 0, flag := PROT_NONE },
             [Event.mprotect (cfg.PAGE_SIZE * node.page_number) cfg.PAGE_SIZE PROT_NONE])
          else if node.r = 1 ∧ node.m = 1 then
            (heap.set c { node with r := 0, flag := PROT_NONE },
             [Event.mprotect (cfg.PAGE_SIZE * node.page_number) cfg.PAGE_SIZE PROT_NONE])
          else if node.r = 0 ∧ node.m = 1 then
            (heap.set c { node with r := -1 }, [])
          else (heap, [])
        match tc_clock_scan cfg fuel step.1 node.next with
        | Outcome.ok res =>
          Outcome.ok { res with events := step.2 ++ res.events, visited := c :: res.visited }
        | Outcome.crash => Outcome.crash
        | Outcome.timeout => Outcome.timeout

/-- The `if (!found)` block of `tc_handler` (lines 252-324). -/
def tc_miss (cfg : Config) (fuel : Nat) (s : TcState) (virt_page offset : Int) :
    Outcome (TcState × List Event) :=
  let granted := Event.mprotect (cfg.PAGE_SIZE * virt_page) cfg.PAGE_SIZE PROT_READ
  if s.pages_in_queue_tc < cfg.N_FRAMES then
    let logged := Event.mm_logger virt_page 0 (-1) 0
      (to_unsigned (s.pages_in_queue_tc * cfg.PAGE_SIZE + offset))
    match s.tc_head with
    | none =>
      let a := s.heap.length
      Outcome.ok
        ({ heap := s.heap ++ [create_tc_page virt_page 0 PROT_READ 1 0],
           tc_head := some a, tc_tail := some a, clock_head := some a,
           pages_in_queue_tc := s.pages_in_queue_tc + 1 },
         [granted, logged])
    | some _ =>
      match new_tc_page s virt_page s.pages_in_queue_tc PROT_READ 1 0 with
      | Outcome.ok s1 =>
        Outcome.ok ({ s1 with pages_in_queue_tc := s1.pages_in_queue_tc + 1 },
          [granted, logged])
      | Outcome.crash => Outcome.crash
      | Outcome.timeout => Outcome.timeout
  else
    match tc_clock_scan cfg fuel s.heap s.clock_head with
    | Outcome.crash => Outcome.crash
    | Outcome.timeout => Outcome.timeout
    | Outcome.ok res =>
      match res.clock_head with
      | none => Outcome.crash
      | some e =>
        match res.heap[e]? with
        | none => Outcome.crash
        | some evict =>
          let evicted_virt_page := evict.page_number
          let place := evict.place_in_pm
          match replace_tc_page evicted_virt_page virt_page fuel res.heap s.tc_head with
          | Outcome.crash => Outcome.crash
          | Outcome.timeout => Outcome.timeout
          | Outcome.ok heap2 =>
            Outcome.ok
              ({ s with heap := heap2, clock_head := evict.next },
               granted :: res.events ++
                 [Event.mprotect (cfg.PAGE_SIZE * evicted_virt_page) cfg.PAGE_SIZE PROT_NONE,
                  Event.mm_logger virt_page 0 evicted_virt_page res.write_back
                    (to_unsigned (place * cfg.PAGE_SIZE + offset))])

/-- C function `tc_handler`; `si_addr` is `sip->si_addr - VM`, `fuel` bounds the
number of iterations of each of its loops. -/
def tc_handler (cfg : Config) (fuel : Nat) (s : TcState) (si_addr : Int) :
    Outcome (TcState × List Event) :=
  if cfg.PAGE_SIZE = 0 then Outcome.crash
  else
    let virt_page := Int.tdiv si_addr cfg.PAGE_SIZE
    let offset := Int.tmod si_addr cfg.PAGE_SIZE
    match tc_lookup cfg s.tc_tail virt_page offset fuel s.heap s.tc_head with
    | Outcome.crash => Outcome.crash
    | Outcome.timeout => Outcome.timeout
    | Outcome.ok (some (heap1, evs)) => Outcome.ok ({ s with heap := heap1 }, evs)
    | Outcome.ok none => tc_miss cfg fuel s virt_page offset

/-- A run of `tc_handler` over a sequence of faults, collecting the calls made. -/
def tc_run (cfg : Config) (fuel : Nat) :
    TcState → List Int → Outcome (TcState × List Event)
  | s, [] => Outcome.ok (s, [])
  | s, d :: ds =>
    match tc_handler cfg fuel s d with
    | Outcome.ok (s1, evs1) =>
      match tc_run cfg fuel s1 ds with
      | Outcome.ok (s2, evs2) => Outcome.ok (s2, evs1 ++ evs2)
      | Outcome.crash => Outcome.crash
      | Outcome.timeout => Outcome.timeout
    | Outcome.crash => Outcome.crash
    | Outcome.timeout => Outcome.timeout

/-! ## Predicates used to state the properties -/

/-- Well-formed FIFO globals for a configuration: the counter mirrors the list,
page numbers are those of addresses at or above `VM`, frame indices are indices
of frames. -/
def FifoTable (cfg : Config) (s : FifoState) : Prop :=
  s.pages_in_queue_fifo = (s.queue.length : Int) ∧
  (∀ p ∈ s.queue, 0 ≤ p.page_number) ∧
  (∀ p ∈ s.queue, 0 ≤ p.place_in_pm ∧ p.place_in_pm < cfg.N_FRAMES)

/-- Whether a call is a log record with cause 1 (first write) for page `p`. -/
def is_first_write (p : Int) : Event → Bool
  | Event.mm_logger virt_page cause _ _ _ => decide (virt_page = p ∧ cause = 1)
  | Event.mprotect _ _ _ => false

/-- Whether a call is a log record with cause 0 (miss) for page `p`: an admission of `p`. -/
def is_admission (p : Int) : Event → Bool
  | Event.mm_logger virt_page cause _ _ _ => decide (virt_page = p ∧ cause = 0)
  | Event.mprotect _ _ _ => false

/-- Whether a call is a call of `mm_logger`. -/
def is_record : Event → Bool
  | Event.mm_logger _ _ _ _ _ => true
  | Event.mprotect _ _ _ => false

/-- The log records among the calls made, in order. -/
def logged_records (evs : List Event) : List Event := evs.filter is_record

/-- The pages admitted by a sequence of calls: the virtual page of every record
with cause 0, in order. -/
def admitted_pages : List Event → List Int
  | [] => []
  | Event.mm_logger virt_page cause _ _ _ :: evs =>
    if cause = 0 then virt_page :: admitted_pages evs else admitted_pages evs
  | Event.mprotect _ _ _ :: evs => admitted_pages evs

/-- The pages evicted by a sequence of calls: the evicted page of every record
with cause 0 that names one (it is not the sentinel -1), in order. -/
def evicted_pages : List Event → List Int
  | [] => []
  | Event.mm_logger _ cause evicted_page _ _ :: evs =>
    if cause = 0 ∧ evicted_page ≠ -1 then evicted_page :: evicted_pages evs
    else evicted_pages evs
  | Event.mprotect _ _ _ :: evs => evicted_pages evs

/-- In the call sequence `log`, a record with cause 1 for page `p` occurs after the
most recent admission of `p` (no record with cause 0 for `p` follows it). -/
def WrittenSinceAdmission (p : Int) (log : List Event) : Prop :=
  ∃ pre w post, log = pre ++ w :: post ∧ is_first_write p w = true ∧
    ∀ e ∈ post, is_admission p e = false

/-- Every record of `log` that evicts a page `p` carries `write_back = 1` if and
only if `p` was written since its most recent admission, and `write_back = 0`
otherwise. -/
def WriteBackCorrect (log : List Event) : Prop :=
  ∀ pre post virt_page cause p write_back phy_addr,
    log = pre ++ Event.mm_logger virt_page cause p write_back phy_addr :: post → p ≠ -1 →
    ((write_back = 1 ↔ WrittenSinceAdmission p pre) ∧ (write_back = 0 ∨ write_back = 1))

/-- Invariant of the FIFO globals `s` reached after the calls `log`. -/
def FifoInv (cfg : Config) (s : FifoState) (log : List Event) : Prop :=
  FifoTable cfg s ∧
  (s.queue.length : Int) ≤ cfg.N_FRAMES ∧
  (s.queue.map fifo_page.page_number).Nodup ∧
  (∀ p ∈ s.queue, (p.flag = PROT_READ_WRITE ↔ WrittenSinceAdmission p.page_number log)) ∧
  admitted_pages log = evicted_pages log ++ s.queue.map fifo_page.page_number ∧
  WriteBackCorrect log

/-- A record is in one of the five (reference, modified) states of the transition
table of the clock scan. -/
def five_state (node : tc_page) : Prop :=
  (node.r = 0 ∧ node.m = 0) ∨ (node.r = 1 ∧ node.m = 0) ∨ (node.r = 1 ∧ node.m = 1) ∨
    (node.r = 0 ∧ node.m = 1) ∨ (node.r = -1 ∧ node.m = 1)

/-- The `next` pointers of a Third-Chance heap as the code builds them: a single
node points nowhere (`create_tc_page`), two or more nodes form a circle in address
order (`new_tc_page`). -/
def tc_linked (heap : List tc_page) : Prop :=
  ∀ i node, heap[i]? = some node →
    node.next = if heap.length = 1 then none else some ((i + 1) % heap.length)

/-- A (non-empty) Third-Chance table: the counter mirrors the heap, `tc_head` is the
first node, `tc_tail` the last, the clock hand is one of the nodes, the nodes are
linked as above, and no two nodes hold the same page. -/
def TcTable (s : TcState) : Prop :=
  0 < s.heap.length ∧
  s.pages_in_queue_tc = (s.heap.length : Int) ∧
  s.tc_head = some 0 ∧
  s.tc_tail = some (s.heap.length - 1) ∧
  (∃ c, c < s.heap.length ∧ s.clock_head = some c) ∧
  tc_linked s.heap ∧
  (s.heap.map tc_page.page_number).Nodup

/-- The number of times the clock hand has to pass over a record before the record
is evictable: 2 for (1,1), 1 for (1,0) and (0,1), 0 for (0,0) and (-1,1). -/
def chances (node : tc_page) : Nat :=
  if node.r = 1 ∧ node.m = 1 then 2
  else if (node.r = 1 ∧ node.m = 0) ∨ (node.r = 0 ∧ node.m = 1) then 1
  else 0

/-- The clock scan as the specification words it (transition table of section 4.4),
on the table `t` seen as a circular sequence with the cursor at position `c`:
`SpecClockScan t c t1 e write_back` when the scan started at `c` ends on position
`e` of the table `t1`.  A record in (0,0) is evictable with `write_back = 0`; one in
(-1,1) is evictable with `write_back = 1`; (1,0) and (1,1) get reference 0 and
permission NONE and the cursor advances; (0,1) gets reference -1 and the cursor
advances. -/
inductive SpecClockScan : List tc_page → Nat → List tc_page → Nat → Int → Prop where
  | evict_clean (t : List tc_page) (c : Nat) (node : tc_page) :
      t[c]? = some node → node.r = 0 → node.m = 0 → SpecClockScan t c t c 0
  | evict_dirty (t : List tc_page) (c : Nat) (node : tc_page) :
      t[c]? = some node → node.r = -1 → node.m = 1 → SpecClockScan t c t c 1
  | demote_clean (t : List tc_page) (c : Nat) (node : tc_page) (t1 : List tc_page)
      (e : Nat) (write_back : Int) :
      t[c]? = some node → node.r = 1 → node.m = 0 →
      SpecClockScan (t.set c { node with r := 0, flag := PROT_NONE })
        ((c + 1) % t.length) t1 e write_back →
      SpecClockScan t c t1 e write_back
  | demote_dirty (t : List tc_page) (c : Nat) (node : tc_page) (t1 : List tc_page)
      (e : Nat) (write_back : Int) :
      t[c]? = some node → node.r = 1 → node.m = 1 →
      SpecClockScan (t.set c { node with r := 0, flag := PROT_NONE })
        ((c + 1) % t.length) t1 e write_back →
      SpecClockScan t c t1 e write_back
  | second_chance (t : List tc_page) (c : Nat) (node : tc_page) (t1 : List tc_page)
      (e : Nat) (write_back : Int) :
      t[c]? = some node → node.r = 0 → node.m = 1 →
      SpecClockScan (t.set c { node with r := -1 }) ((c + 1) % t.length) t1 e write_back →
      SpecClockScan t c t1 e write_back

/-- What the invariant says of one record after the calls `log`: it is in one of the
five states, its page is a page of the range, and its modified bit is set exactly
when the page was written since its admission. -/
def NodeOK (log : List Event) (node : tc_page) : Prop :=
  five_state node ∧ 0 ≤ node.page_number ∧
    (node.m = 1 ↔ WrittenSinceAdmission node.page_number log)

/-- Invariant of the Third-Chance globals `s` reached after the calls `log`. -/
def TcInv (cfg : Config) (s : TcState) (log : List Event) : Prop :=
  (s.heap.length : Int) ≤ cfg.N_FRAMES ∧
  (s.heap = [] → s = tc_init) ∧
  (s.heap ≠ [] → TcTable s) ∧
  (∀ node ∈ s.heap, NodeOK log node) ∧
  WriteBackCorrect log

/-- A record the clock scan stops on: (0,0) or (-1,1). -/
def evictable (node : tc_page) : Prop :=
  (node.r = 0 ∧ node.m = 0) ∨ (node.r = -1 ∧ node.m = 1)

/-- The update made by the clock scan of `tc_handler` to a record in state (1,0),
(1,1) or (0,1) before the hand moves on (lines 289-304). -/
def demote (node : tc_page) : tc_page :=
  if node.r = 1 then { node with r := 0, flag := PROT_NONE } else { node with r := -1 }

/-- The fields of a record that the clock scan never writes. -/
def page_identity (node : tc_page) : Int × Int × Int × Option Nat :=
  (node.page_number, node.place_in_pm, node.m, node.next)

/-- The value of `chances` for the record at address `i` (0 when there is none). -/
def chances_at (heap : List tc_page) (i : Nat) : Nat :=
  match heap[i]? with
  | some node => chances node
  | none => 0

/-- The number of steps the clock hand at `c` needs to reach position `j` of a
circular table of `n` records. -/
def hand_distance (n c j : Nat) : Nat := if c ≤ j then j - c else j + n - c

/-- A call of `mm_logger` for the faulting page `virt_page`: its first argument is
the page, its second a cause code, its third an evicted page or the sentinel -1,
its fourth a boolean. -/
def FaultRecordFor (virt_page : Int) (e : Event) : Prop :=
  ∃ cause evicted_page write_back phy_addr,
    e = Event.mm_logger virt_page cause evicted_page write_back phy_addr ∧
    (cause = 0 ∨ cause = 1 ∨ cause = 2) ∧ -1 ≤ evicted_page ∧
    (write_back = 0 ∨ write_back = 1)

/-- The faulting page is held by a record whose permission is not NONE and whose
modified bit is already set: the case in which `tc_handler` logs nothing. -/
def AlreadyReported (s : TcState) (virt_page : Int) : Prop :=
  ∃ node ∈ s.heap, node.page_number = virt_page ∧ node.flag ≠ PROT_NONE ∧ node.m = 1

/-! ## Initialization -/

/-- The value of `mm_handle.sa_sigaction` that `mm_init` passes to `sigaction`: the
field is assigned only when the policy is 1 or 2. -/
inductive Handler where
  | fifo_handler
  | tc_handler
  | unset
deriving DecidableEq

/-- All the globals of `473_mm.c`. -/
structure Globals where
  cfg : Config
  fifo : FifoState
  tc : TcState
deriving DecidableEq

/-- The globals of a freshly loaded program (zero-initialised by C). -/
def globals_zero : Globals :=
  { cfg := { VM_SIZE := 0, N_FRAMES := 0, PAGE_SIZE := 0, POLICY := 0 },
    fifo := fifo_init, tc := tc_init }

/-- C function `mm_init`: the globals it leaves, the handler it installs and the
call of `mprotect` it makes.  There is no test of the arguments and no failure path;
the return values of `mprotect` and `sigaction` are not looked at. -/
def mm_init (g : Globals) (vm_size n_frames page_size policy : Int) :
    Globals × Handler × List Event :=
  let cfg : Config :=
    { VM_SIZE := vm_size, N_FRAMES := n_frames, PAGE_SIZE := page_size, POLICY := policy }
  let calls := [Event.mprotect 0 vm_size PROT_NONE]
  if policy = 1 then
    ({ cfg := cfg, fifo := { queue := [], pages_in_queue_fifo := 0 }, tc := g.tc },
     Handler.fifo_handler, calls)
  else if policy = 2 then
    ({ cfg := cfg, fifo := g.fifo,
       tc := { g.tc with tc_head := none, tc_tail := none, clock_head := none,
                         pages_in_queue_tc := 0 } },
     Handler.tc_handler, calls)
  else
    ({ cfg := cfg, fifo := g.fifo, tc := g.tc }, Handler.unset, calls)

/-! ## Protection levels -/

/-- Model of the effect of one call on the protection levels, a map from page numbers
to levels: the system call `mprotect` sets the level of every page whose region lies
within `[addr, addr + len)`; `mm_logger` changes nothing.  The length parameter of
`mprotect` is a `size_t`: a negative `int` passed for it is a length that reaches
past the end of the address space, so the call fails and changes no level (the
program never looks at the return value). -/
def protect (cfg : Config) (prot : Int → Int) : Event → Int → Int
  | Event.mprotect addr len level => fun p =>
    if 0 ≤ len ∧ addr ≤ cfg.PAGE_SIZE * p ∧
        cfg.PAGE_SIZE * p + cfg.PAGE_SIZE ≤ addr + len then level
    else prot p
  | Event.mm_logger _ _ _ _ _ => prot

/-- The protection levels after a sequence of calls. -/
def protection_after (cfg : Config) (prot : Int → Int) (evs : List Event) : Int → Int :=
  evs.foldl (protect cfg) prot

/-- Whether an access (a read, or a write when `is_write`) to a page at protection
`level` traps: a read traps unless the level is READ or READ_WRITE, a write traps
unless the level is READ_WRITE. -/
def traps (level : Int) (is_write : Bool) : Bool :=
  if is_write then decide (level ≠ PROT_READ_WRITE)
  else decide (level ≠ PROT_READ ∧ level ≠ PROT_READ_WRITE)

/-- The page's region lies in the range `[VM, VM + VM_SIZE)`. -/
def page_in_range (cfg : Config) (p : Int) : Prop :=
  0 ≤ cfg.PAGE_SIZE * p ∧ cfg.PAGE_SIZE * p + cfg.PAGE_SIZE ≤ cfg.VM_SIZE

/-- One access to the address `si_addr` under FIFO: `fifo_handler` runs when the
access traps, and nothing happens otherwise. -/
def fifo_access (cfg : Config) (s : FifoState) (prot : Int → Int) (si_addr : Int)
    (is_write : Bool) : Outcome (FifoState × List Event) :=
  if traps (prot (Int.tdiv si_addr cfg.PAGE_SIZE)) is_write = true then
    fifo_handler cfg s si_addr
  else Outcome.ok (s, [])

/-- One access to the address `si_addr` under Third-Chance: `tc_handler` runs when
the access traps, and nothing happens otherwise. -/
def tc_access (cfg : Config) (fuel : Nat) (s : TcState) (prot : Int → Int)
    (si_addr : Int) (is_write : Bool) : Outcome (TcState × List Event) :=
  if traps (prot (Int.tdiv si_addr cfg.PAGE_SIZE)) is_write = true then
    tc_handler cfg fuel s si_addr
  else Outcome.ok (s, [])

/-! ## Further invariants -/

/-- Frame indices of the FIFO table: each is below the length of the table and no
two are equal. -/
def FifoFrames (s : FifoState) : Prop :=
  (∀ p ∈ s.queue, p.place_in_pm < (s.queue.length : Int)) ∧
  (s.queue.map fifo_page.place_in_pm).Nodup

/-- The protection levels `prot` mirror the FIFO table: a page with a record is at
the level of the record's flag, and a page without a record that was at NONE in
`base` is at NONE. -/
def FifoProt (base prot : Int → Int) (s : FifoState) : Prop :=
  (∀ p ∈ s.queue, prot p.page_number = p.flag) ∧
  (∀ pg, base pg = PROT_NONE → (∀ p ∈ s.queue, p.page_number ≠ pg) → prot pg = PROT_NONE)

/-- Coupling of the permission of a Third-Chance record with its bits: the
permission is NONE exactly when the reference is not 1, and READ_WRITE only when the
record is modified. -/
def coupled (node : tc_page) : Prop :=
  (node.flag = PROT_NONE ↔ node.r ≠ 1) ∧ (node.flag = PROT_READ_WRITE → node.m = 1)

/-- Frame indices of the Third-Chance table: the record at ring position `i` (its
address) has frame index `i`. -/
def TcFrames (s : TcState) : Prop :=
  ∀ (i : Nat) (node : tc_page), s.heap[i]? = some node → node.place_in_pm = (i : Int)

/-- The protection levels `prot` mirror the Third-Chance table. -/
def TcProt (base prot : Int → Int) (s : TcState) : Prop :=
  (∀ node ∈ s.heap, prot node.page_number = node.flag) ∧
  (∀ pg, base pg = PROT_NONE → (∀ node ∈ s.heap, node.page_number ≠ pg) →
    prot pg = PROT_NONE)

/-- The addresses the clock hand advances over while `tc_handler` serves the fault
at `si_addr` (none when the fault starts no clock scan). -/
def tc_hand_passes (cfg : Config) (fuel : Nat) (s : TcState) (si_addr : Int) : List Nat :=
  if cfg.PAGE_SIZE = 0 then []
  else
    match tc_lookup cfg s.tc_tail (Int.tdiv si_addr cfg.PAGE_SIZE)
        (Int.tmod si_addr cfg.PAGE_SIZE) fuel s.heap s.tc_head with
    | Outcome.ok none =>
      if s.pages_in_queue_tc < cfg.N_FRAMES then []
      else
        match tc_clock_scan cfg fuel s.heap s.clock_head with
        | Outcome.ok res => res.visited
        | Outcome.crash => []
        | Outcome.timeout => []
    | Outcome.ok (some _) => []
    | Outcome.crash => []
    | Outcome.timeout => []

/-- The number of times the clock hand advances over the address `i` during a run. -/
def tc_passes_run (cfg : Config) (fuel : Nat) (i : Nat) : TcState → List Int → Nat
  | _, [] => 0
  | s, d :: ds =>
    (tc_hand_passes cfg fuel s d).count i +
      match tc_handler cfg fuel s d with
      | Outcome.ok (s1, _) => tc_passes_run cfg fuel i s1 ds
      | Outcome.crash => 0
      | Outcome.timeout => 0

/-- No log record of `evs` is about page `p`, as faulting page or as evicted page. -/
def NoRecordAbout (p : Int) (evs : List Event) : Prop :=
  ∀ virt_page cause evicted_page write_back phy_addr,
    Event.mm_logger virt_page cause evicted_page write_back phy_addr ∈ evs →
    virt_page ≠ p ∧ evicted_page ≠ p

/-- Every record logged by `fifo_handler` while serving the fault at `si_addr` is for
the faulting page, and the table `s1` it leaves holds a record for that page whose
frame index gives the physical address and whose permission is READ after cause 0 or
2 and READ_WRITE after cause 1. -/
def FifoServed (cfg : Config) (s1 : FifoState) (si_addr : Int) (evs : List Event) : Prop :=
  ∀ virt_page cause evicted_page write_back phy_addr,
    Event.mm_logger virt_page cause evicted_page write_back phy_addr ∈ evs →
    virt_page = Int.tdiv si_addr cfg.PAGE_SIZE ∧ (cause = 0 ∨ cause = 1 ∨ cause = 2) ∧
    ∃ record ∈ s1.queue, record.page_number = virt_page ∧
      phy_addr = to_unsigned (record.place_in_pm * cfg.PAGE_SIZE +
        Int.tmod si_addr cfg.PAGE_SIZE) ∧
      ((cause = 0 ∨ cause = 2) → record.flag = PROT_READ) ∧
      (cause = 1 → record.flag = PROT_READ_WRITE)

/-- The same for `tc_handler`. -/
def TcServed (cfg : Config) (s1 : TcState) (si_addr : Int) (evs : List Event) : Prop :=
  ∀ virt_page cause evicted_page write_back phy_addr,
    Event.mm_logger virt_page cause evicted_page write_back phy_addr ∈ evs →
    virt_page = Int.tdiv si_addr cfg.PAGE_SIZE ∧ (cause = 0 ∨ cause = 1 ∨ cause = 2) ∧
    ∃ record ∈ s1.heap, record.page_number = virt_page ∧
      phy_addr = to_unsigned (record.place_in_pm * cfg.PAGE_SIZE +
        Int.tmod si_addr cfg.PAGE_SIZE) ∧
      ((cause = 0 ∨ cause = 2) → record.flag = PROT_READ) ∧
      (cause = 1 → record.flag = PROT_READ_WRITE)

/-- The fields of a Third-Chance record other than its `next` pointer: page number,
frame index, permission, reference and modified bits. -/
def record_fields (node : tc_page) : Int × Int × Int × Int × Int :=
  (node.page_number, node.place_in_pm, node.flag, node.r, node.m)

theorem fifo_lookup_eq_none (cfg : Config) (virt_page offset : Int) (q : List fifo_page)
    (h : ∀ p ∈ q, p.page_number ≠ virt_page) :
    fifo_lookup cfg virt_page offset q = none := by
  induction q with
  | nil => rfl
  | cons a q ih =>
    have ha : a.page_number ≠ virt_page := h a (List.mem_cons_self a q)
    have hq : ∀ p ∈ q, p.page_number ≠ virt_page :=
      fun p hp => h p (List.mem_cons_of_mem a hp)
    simp [fifo_lookup, ha, ih hq]

theorem to_unsigned_of_fits (x : Int) (h0 : 0 ≤ x) (h1 : x < 4294967296) :
    to_unsigned x = x := by
  unfold to_unsigned
  exact Int.emod_eq_of_lt h0 h1

/-- C1. FIFO miss at capacity: on a well-formed table holding exactly `N_FRAMES`
records, a fault on a page that is not in the table removes the head record,
appends a record for the faulting page with permission READ and the frame index
of the evicted record, keeps the other records in order, and logs exactly one
record `(virtual_page, 0, evicted page, write_back, frame * page_size + offset)`
with `write_back = 1` exactly when the evicted record was READ_WRITE. -/
theorem fifo_miss_at_capacity (cfg : Config) (head : fifo_page) (rest : List fifo_page)
    (count si_addr : Int)
    (hP : cfg.PAGE_SIZE ≠ 0)
    (htable : FifoTable cfg { queue := head :: rest, pages_in_queue_fifo := count })
    (hfull : ((head :: rest).length : Int) = cfg.N_FRAMES)
    (hmiss : ∀ p ∈ head :: rest, p.page_number ≠ Int.tdiv si_addr cfg.PAGE_SIZE)
    (hfit0 : 0 ≤ head.place_in_pm * cfg.PAGE_SIZE + Int.tmod si_addr cfg.PAGE_SIZE)
    (hfit1 : head.place_in_pm * cfg.PAGE_SIZE + Int.tmod si_addr cfg.PAGE_SIZE < 4294967296) :
    fifo_handler cfg { queue := head :: rest, pages_in_queue_fifo := count } si_addr =
      Outcome.ok
        ({ queue := rest ++
             [{ page_number := Int.tdiv si_addr cfg.PAGE_SIZE,
                place_in_pm := head.place_in_pm, flag := PROT_READ }],
           pages_in_queue_fifo := count },
         [Event.mprotect (cfg.PAGE_SIZE * head.page_number) cfg.PAGE_SIZE PROT_NONE,
          Event.mprotect (cfg.PAGE_SIZE * Int.tdiv si_addr cfg.PAGE_SIZE) cfg.PAGE_SIZE
            PROT_READ,
          Event.mm_logger (Int.tdiv si_addr cfg.PAGE_SIZE) 0 head.page_number
            (if head.flag = PROT_READ_WRITE then 1 else 0)
            (head.place_in_pm * cfg.PAGE_SIZE + Int.tmod si_addr cfg.PAGE_SIZE)]) := by
  obtain ⟨hcount, hpages, hframes⟩ := htable
  simp only at hcount hpages hframes
  have hhead : head.page_number ≠ -1 := by
    have := hpages head (List.mem_cons_self head rest)
    omega
  have hge : ¬ count < cfg.N_FRAMES := by
    rw [hcount, hfull]; exact lt_irrefl _
  have hfr := hframes head (List.mem_cons_self head rest)
  unfold fifo_handler
  rw [if_neg hP]
  simp only [fifo_lookup_eq_none cfg _ _ _ hmiss, fifo_miss, if_neg hge, remove_oldest_fifo,
    List.tail_cons, if_neg hhead, to_unsigned_of_fits _ hfit0 hfit1]
  cases rest with
  | nil =>
    have h1 : cfg.N_FRAMES = 1 := by simpa using hfull.symm
    have h0 : head.place_in_pm = 0 := by omega
    simp [create_fifo_page, h0]
  | cons b rest1 =>
    simp [new_fifo_page, create_fifo_page]

/-- Witness for C1 (the scenario of the claim): N = 2, page size 4096, table
[page 0 READ_WRITE, page 1 READ], fault on page 2. -/
theorem fifo_miss_at_capacity_witness :
    fifo_handler { VM_SIZE := 32768, N_FRAMES := 2, PAGE_SIZE := 4096, POLICY := 1 }
        { queue := [{ page_number := 0, place_in_pm := 0, flag := PROT_READ_WRITE },
                    { page_number := 1, place_in_pm := 1, flag := PROT_READ }],
          pages_in_queue_fifo := 2 } 8192 =
      Outcome.ok
        ({ queue := [{ page_number := 1, place_in_pm := 1, flag := PROT_READ },
                     { page_number := 2, place_in_pm := 0, flag := PROT_READ }],
           pages_in_queue_fifo := 2 },
         [Event.mprotect 0 4096 PROT_NONE, Event.mprotect 8192 4096 PROT_READ,
          Event.mm_logger 2 0 0 1 0]) :=
  fifo_miss_at_capacity
    { VM_SIZE := 32768, N_FRAMES := 2, PAGE_SIZE := 4096, POLICY := 1 }
    { page_number := 0, place_in_pm := 0, flag := PROT_READ_WRITE }
    [{ page_number := 1, place_in_pm := 1, flag := PROT_READ }] 2 8192
    (by decide) (by simp [FifoTable]) (by decide) (by decide) (by decide) (by decide)

/-! ### Call sequences -/

theorem admitted_pages_append (l1 l2 : List Event) :
    admitted_pages (l1 ++ l2) = admitted_pages l1 ++ admitted_pages l2 := by
  induction l1 with
  | nil => rfl
  | cons e l1 ih =>
    cases e with
    | mprotect a b c => simpa [admitted_pages] using ih
    | mm_logger vp c ev wb pa =>
      by_cases hc : c = 0 <;> simp [admitted_pages, hc, ih]

theorem evicted_pages_append (l1 l2 : List Event) :
    evicted_pages (l1 ++ l2) = evicted_pages l1 ++ evicted_pages l2 := by
  induction l1 with
  | nil => rfl
  | cons e l1 ih =>
    cases e with
    | mprotect a b c => simpa [evicted_pages] using ih
    | mm_logger vp c ev wb pa =>
      by_cases hc : c = 0 ∧ ev ≠ -1 <;> simp [evicted_pages, hc, ih]

theorem not_written_nil (p : Int) : ¬ WrittenSinceAdmission p [] := by
  rintro ⟨pre, w, post, h, _⟩
  simp at h

theorem written_append (p : Int) (log evs : List Event) :
    WrittenSinceAdmission p (log ++ evs) ↔
      WrittenSinceAdmission p evs ∨
        (WrittenSinceAdmission p log ∧ ∀ e ∈ evs, is_admission p e = false) := by
  constructor
  · rintro ⟨pre, w, post, h, hw, hpost⟩
    rcases List.append_eq_append_iff.mp h with ⟨a, hpre, hevs⟩ | ⟨c, hlog, hc⟩
    · exact Or.inl ⟨a, w, post, hevs, hw, hpost⟩
    · cases c with
      | nil =>
        simp only [List.nil_append] at hc
        exact Or.inl ⟨[], w, post, by simpa using hc.symm, hw, hpost⟩
      | cons x c =>
        simp only [List.cons_append, List.cons.injEq] at hc
        obtain ⟨hx, hc⟩ := hc
        subst hx
        refine Or.inr ⟨⟨pre, w, c, hlog, hw, ?_⟩, ?_⟩
        · intro e he
          exact hpost e (by rw [hc]; exact List.mem_append_left _ he)
        · intro e he
          exact hpost e (by rw [hc]; exact List.mem_append_right _ he)
  · rintro (⟨pre, w, post, h, hw, hpost⟩ | ⟨⟨pre, w, post, h, hw, hpost⟩, hq⟩)
    · exact ⟨log ++ pre, w, post, by simp [h], hw, hpost⟩
    · refine ⟨pre, w, post ++ evs, by simp [h], hw, ?_⟩
      intro e he
      rcases List.mem_append.mp he with he | he
      · exact hpost e he
      · exact hq e he

theorem write_back_correct_nil : WriteBackCorrect [] := by
  intro pre post vp c p wb pa h
  simp at h

theorem write_back_correct_append (log evs : List Event) (hlog : WriteBackCorrect log)
    (hevs : ∀ pre post virt_page cause p write_back phy_addr,
      evs = pre ++ Event.mm_logger virt_page cause p write_back phy_addr :: post → p ≠ -1 →
      ((write_back = 1 ↔ WrittenSinceAdmission p (log ++ pre)) ∧
        (write_back = 0 ∨ write_back = 1))) :
    WriteBackCorrect (log ++ evs) := by
  intro pre post vp cause p wb pa h hp
  rcases List.append_eq_append_iff.mp h with ⟨a, hpre, hev⟩ | ⟨c, hl, hc⟩
  · subst hpre
    exact hevs a post vp cause p wb pa hev hp
  · cases c with
    | nil =>
      simp only [List.nil_append] at hc
      simp only [List.append_nil] at hl
      subst hl
      have := hevs [] post vp cause p wb pa (by simpa using hc.symm) hp
      simpa using this
    | cons x c =>
      simp only [List.cons_append, List.cons.injEq] at hc
      obtain ⟨hx, _⟩ := hc
      subst hx
      exact hlog pre c vp cause p wb pa hl hp

/-! ### FIFO: one step -/

theorem fifo_lookup_some (cfg : Config) (virt_page offset : Int) (q : List fifo_page)
    (h : ∃ p ∈ q, p.page_number = virt_page) :
    ∃ l1 x l2, q = l1 ++ x :: l2 ∧ x.page_number = virt_page ∧
      (∀ y ∈ l1, y.page_number ≠ virt_page) ∧
      fifo_lookup cfg virt_page offset q =
        some (l1 ++ { x with flag := PROT_READ_WRITE } :: l2,
          [Event.mprotect (cfg.PAGE_SIZE * virt_page) cfg.PAGE_SIZE PROT_READ_WRITE,
           Event.mm_logger virt_page 1 (-1) 0
             (to_unsigned (x.place_in_pm * cfg.PAGE_SIZE + offset))]) := by
  induction q with
  | nil => obtain ⟨p, hp, _⟩ := h; simp at hp
  | cons a q ih =>
    by_cases ha : a.page_number = virt_page
    · exact ⟨[], a, q, rfl, ha, by simp, by simp [fifo_lookup, ha]⟩
    · have hq : ∃ p ∈ q, p.page_number = virt_page := by
        obtain ⟨p, hp, hpv⟩ := h
        rcases List.mem_cons.mp hp with hpa | hpq
        · subst hpa; exact absurd hpv ha
        · exact ⟨p, hpq, hpv⟩
      obtain ⟨l1, x, l2, hq1, hx, hl1, hlook⟩ := ih hq
      refine ⟨a :: l1, x, l2, by simp [hq1], hx, ?_, ?_⟩
      · intro y hy
        rcases List.mem_cons.mp hy with hya | hyl
        · subst hya; exact ha
        · exact hl1 y hyl
      · simp [fifo_lookup, ha, hlook]

theorem fifo_step_found (cfg : Config) (s : FifoState) (log : List Event) (si_addr : Int)
    (hP : cfg.PAGE_SIZE ≠ 0) (hinv : FifoInv cfg s log)
    (hmem : ∃ p ∈ s.queue, p.page_number = Int.tdiv si_addr cfg.PAGE_SIZE) :
    ∃ s1 pa, fifo_handler cfg s si_addr =
        Outcome.ok (s1,
          [Event.mprotect (cfg.PAGE_SIZE * Int.tdiv si_addr cfg.PAGE_SIZE) cfg.PAGE_SIZE
             PROT_READ_WRITE,
           Event.mm_logger (Int.tdiv si_addr cfg.PAGE_SIZE) 1 (-1) 0 pa]) ∧
      s1.queue.map fifo_page.page_number = s.queue.map fifo_page.page_number ∧
      FifoInv cfg s1
        (log ++ [Event.mprotect (cfg.PAGE_SIZE * Int.tdiv si_addr cfg.PAGE_SIZE) cfg.PAGE_SIZE
             PROT_READ_WRITE,
           Event.mm_logger (Int.tdiv si_addr cfg.PAGE_SIZE) 1 (-1) 0 pa]) := by
  obtain ⟨⟨hcount, hpages, hframes⟩, hlen, hnodup, hflags, hadm, hwbc⟩ := hinv
  obtain ⟨l1, x, l2, hq, hx, hl1, hlook⟩ :=
    fifo_lookup_some cfg (Int.tdiv si_addr cfg.PAGE_SIZE) (Int.tmod si_addr cfg.PAGE_SIZE)
      s.queue hmem
  have hnd : ∀ y ∈ l1 ++ l2, y.page_number ≠ Int.tdiv si_addr cfg.PAGE_SIZE := by
    intro y hy
    rw [hq] at hnodup
    simp only [List.map_append, List.map_cons] at hnodup
    have h1 := (List.nodup_append.mp hnodup).2.1
    have h2 := (List.nodup_cons.mp h1).1
    have h3 := (List.nodup_append.mp hnodup).2.2
    rcases List.mem_append.mp hy with hy1 | hy2
    · exact hl1 y hy1
    · intro hyx
      apply h2
      rw [hx, ← hyx]
      exact List.mem_map_of_mem _ hy2
  refine ⟨{ s with queue := l1 ++ { x with flag := PROT_READ_WRITE } :: l2 },
    to_unsigned (x.place_in_pm * cfg.PAGE_SIZE + Int.tmod si_addr cfg.PAGE_SIZE), ?_, ?_, ?_⟩
  · unfold fifo_handler
    rw [if_neg hP]
    simp only [hlook]
  · simp [hq]
  · have hmem1 : ∀ y, y ∈ l1 ++ { x with flag := PROT_READ_WRITE } :: l2 →
        (y ∈ l1 ++ l2 ∧ y ∈ s.queue) ∨ y = { x with flag := PROT_READ_WRITE } := by
      intro y hy
      rw [hq]
      simp only [List.mem_append, List.mem_cons] at hy ⊢
      tauto
    have hxq : x ∈ s.queue := by rw [hq]; simp
    have hw : ∀ pg : Int, WrittenSinceAdmission pg
        (log ++ [Event.mprotect (cfg.PAGE_SIZE * Int.tdiv si_addr cfg.PAGE_SIZE) cfg.PAGE_SIZE
             PROT_READ_WRITE,
           Event.mm_logger (Int.tdiv si_addr cfg.PAGE_SIZE) 1 (-1) 0
             (to_unsigned (x.place_in_pm * cfg.PAGE_SIZE + Int.tmod si_addr cfg.PAGE_SIZE))]) ↔
        (pg = Int.tdiv si_addr cfg.PAGE_SIZE ∨ WrittenSinceAdmission pg log) := by
      intro pg
      rw [written_append]
      constructor
      · rintro (⟨pre, w, post, h, hw, _⟩ | ⟨h, _⟩)
        · left
          rcases pre with _ | ⟨a, _ | ⟨b, pre⟩⟩
          · simp at h; rw [← h.1] at hw; simp [is_first_write] at hw
          · simp at h; rw [← h.2.1] at hw; simp [is_first_write] at hw; exact hw.symm
          · simp at h
        · exact Or.inr h
      · rintro (h | h)
        · left
          exact ⟨[_], _, [], rfl, by simp [is_first_write, h], by simp⟩
        · right
          exact ⟨h, by simp [is_admission]⟩
    refine ⟨⟨?_, ?_, ?_⟩, ?_, ?_, ?_, ?_, ?_⟩
    · simp only [hcount, hq, List.length_append, List.length_cons]
    · intro y hy
      rcases hmem1 y hy with ⟨_, h⟩ | h
      · exact hpages y h
      · subst h; exact hpages x hxq
    · intro y hy
      rcases hmem1 y hy with ⟨_, h⟩ | h
      · exact hframes y h
      · subst h; exact hframes x hxq
    · simpa [hq] using hlen
    · simpa [hq] using hnodup
    · intro y hy
      rw [hw]
      rcases hmem1 y hy with ⟨h1, h2⟩ | h
      · rw [hflags y h2]
        constructor
        · exact fun h => Or.inr h
        · rintro (h | h)
          · exact absurd h (hnd y h1)
          · exact h
      · subst h
        simp [hx]
    · rw [admitted_pages_append, evicted_pages_append]
      simp [admitted_pages, evicted_pages, hadm, hq]
    · apply write_back_correct_append _ _ hwbc
      intro pre post vp c p wb pa h hp
      rcases pre with _ | ⟨a, _ | ⟨b, pre⟩⟩ <;> simp at h
      exact absurd h.2.1.2.2.1.symm hp

theorem fifo_miss_below (cfg : Config) (s : FifoState) (virt_page offset : Int)
    (hcount : s.pages_in_queue_fifo = (s.queue.length : Int))
    (hlt : s.pages_in_queue_fifo < cfg.N_FRAMES) :
    fifo_miss cfg s virt_page offset =
      Outcome.ok
        ({ queue := s.queue ++
             [{ page_number := virt_page, place_in_pm := s.pages_in_queue_fifo,
                flag := PROT_READ }],
           pages_in_queue_fifo := s.pages_in_queue_fifo + 1 },
         [Event.mprotect (cfg.PAGE_SIZE * virt_page) cfg.PAGE_SIZE PROT_READ,
          Event.mm_logger virt_page 0 (-1) 0
            (to_unsigned (s.pages_in_queue_fifo * cfg.PAGE_SIZE + offset))]) := by
  obtain ⟨q, n⟩ := s
  simp only at hcount hlt
  cases q with
  | nil =>
    have h0 : n = 0 := by simpa using hcount
    subst h0
    simp [fifo_miss, hlt, create_fifo_page]
  | cons a q => simp [fifo_miss, hlt, new_fifo_page, create_fifo_page]

theorem fifo_miss_full (cfg : Config) (s : FifoState) (virt_page offset : Int)
    (head : fifo_page) (rest : List fifo_page) (hq : s.queue = head :: rest)
    (hge : ¬ s.pages_in_queue_fifo < cfg.N_FRAMES) (hhead : head.page_number ≠ -1) :
    fifo_miss cfg s virt_page offset =
      Outcome.ok
        ({ queue := rest ++
             [{ page_number := virt_page,
                place_in_pm := if rest = [] then 0 else head.place_in_pm,
                flag := PROT_READ }],
           pages_in_queue_fifo := s.pages_in_queue_fifo },
         [Event.mprotect (cfg.PAGE_SIZE * head.page_number) cfg.PAGE_SIZE PROT_NONE,
          Event.mprotect (cfg.PAGE_SIZE * virt_page) cfg.PAGE_SIZE PROT_READ,
          Event.mm_logger virt_page 0 head.page_number
            (if head.flag = PROT_READ_WRITE then 1 else 0)
            (to_unsigned (head.place_in_pm * cfg.PAGE_SIZE + offset))]) := by
  obtain ⟨q, n⟩ := s
  simp only at hq hge
  subst hq
  cases rest with
  | nil => simp [fifo_miss, hge, remove_oldest_fifo, hhead, create_fifo_page]
  | cons b rest =>
    simp [fifo_miss, hge, remove_oldest_fifo, hhead, new_fifo_page, create_fifo_page]

theorem fifo_step_miss (cfg : Config) (s : FifoState) (log : List Event) (si_addr : Int)
    (hN : 1 ≤ cfg.N_FRAMES) (hP : cfg.PAGE_SIZE ≠ 0)
    (hvp : 0 ≤ Int.tdiv si_addr cfg.PAGE_SIZE) (hinv : FifoInv cfg s log)
    (hmiss : ∀ p ∈ s.queue, p.page_number ≠ Int.tdiv si_addr cfg.PAGE_SIZE) :
    ∃ s1 pre ev wb pa, fifo_handler cfg s si_addr =
        Outcome.ok (s1, pre ++ [Event.mm_logger (Int.tdiv si_addr cfg.PAGE_SIZE) 0 ev wb pa]) ∧
      logged_records pre = [] ∧
      FifoInv cfg s1
        (log ++ (pre ++ [Event.mm_logger (Int.tdiv si_addr cfg.PAGE_SIZE) 0 ev wb pa])) ∧
      -1 ≤ ev ∧ (wb = 0 ∨ wb = 1) := by
  obtain ⟨⟨hcount, hpages, hframes⟩, hlen, hnodup, hflags, hadm, hwbc⟩ := hinv
  have hhandler : fifo_handler cfg s si_addr =
      fifo_miss cfg s (Int.tdiv si_addr cfg.PAGE_SIZE) (Int.tmod si_addr cfg.PAGE_SIZE) := by
    unfold fifo_handler
    rw [if_neg hP]
    simp only [fifo_lookup_eq_none cfg _ _ _ hmiss]
  have hvpmem : Int.tdiv si_addr cfg.PAGE_SIZE ∉ s.queue.map fifo_page.page_number := by
    intro h
    obtain ⟨p, hp, hpv⟩ := List.mem_map.mp h
    exact hmiss p hp hpv
  by_cases hlt : s.pages_in_queue_fifo < cfg.N_FRAMES
  · refine ⟨{ queue := s.queue ++
                  [{ page_number := Int.tdiv si_addr cfg.PAGE_SIZE,
                     place_in_pm := s.pages_in_queue_fifo, flag := PROT_READ }],
                pages_in_queue_fifo := s.pages_in_queue_fifo + 1 },
      [Event.mprotect (cfg.PAGE_SIZE * Int.tdiv si_addr cfg.PAGE_SIZE) cfg.PAGE_SIZE
        PROT_READ], -1, 0,
      to_unsigned (s.pages_in_queue_fifo * cfg.PAGE_SIZE + Int.tmod si_addr cfg.PAGE_SIZE),
      ?_, by simp [logged_records, is_record], ?_, le_refl _, Or.inl rfl⟩
    · rw [hhandler, fifo_miss_below cfg s _ _ hcount hlt]
      rfl
    · have hw : ∀ pg : Int, WrittenSinceAdmission pg
          (log ++ ([Event.mprotect (cfg.PAGE_SIZE * Int.tdiv si_addr cfg.PAGE_SIZE)
              cfg.PAGE_SIZE PROT_READ] ++
            [Event.mm_logger (Int.tdiv si_addr cfg.PAGE_SIZE) 0 (-1) 0
              (to_unsigned (s.pages_in_queue_fifo * cfg.PAGE_SIZE +
                Int.tmod si_addr cfg.PAGE_SIZE))])) ↔
          (pg ≠ Int.tdiv si_addr cfg.PAGE_SIZE ∧ WrittenSinceAdmission pg log) := by
        intro pg
        rw [written_append]
        constructor
        · rintro (⟨pre, w, post, h, hw, _⟩ | ⟨h, hq⟩)
          · rcases pre with _ | ⟨a, _ | ⟨b, pre⟩⟩
            · simp at h; rw [← h.1] at hw; simp [is_first_write] at hw
            · simp at h; rw [← h.2.1] at hw; simp [is_first_write] at hw
            · simp at h
          · refine ⟨?_, h⟩
            have := hq (Event.mm_logger (Int.tdiv si_addr cfg.PAGE_SIZE) 0 (-1) 0
              (to_unsigned (s.pages_in_queue_fifo * cfg.PAGE_SIZE +
                Int.tmod si_addr cfg.PAGE_SIZE))) (by simp)
            simpa [is_admission, eq_comm] using this
        · rintro ⟨hne, h⟩
          right
          refine ⟨h, ?_⟩
          intro e he
          simp only [List.singleton_append, List.mem_cons, List.mem_singleton,
            List.not_mem_nil, or_false] at he
          rcases he with he | he <;> subst he <;> simp [is_admission]
          exact fun h => absurd h.symm hne
      refine ⟨⟨?_, ?_, ?_⟩, ?_, ?_, ?_, ?_, ?_⟩
      · simp only [List.length_append, List.length_singleton, hcount]
        push_cast; ring
      · intro y hy
        rcases List.mem_append.mp hy with h | h
        · exact hpages y h
        · simp only [List.mem_singleton] at h; subst h; exact hvp
      · intro y hy
        rcases List.mem_append.mp hy with h | h
        · exact hframes y h
        · simp only [List.mem_singleton] at h; subst h
          simp only
          exact ⟨by rw [hcount]; exact Int.natCast_nonneg _, hlt⟩
      · simp only [List.length_append, List.length_singleton]
        push_cast
        rw [← hcount]; omega
      · simp only [List.map_append, List.map_cons, List.map_nil]
        rw [List.nodup_append]
        refine ⟨hnodup, by simp, ?_⟩
        intro a ha hb
        simp only [List.mem_singleton] at hb
        subst hb
        exact hvpmem ha
      · intro y hy
        rw [hw]
        rcases List.mem_append.mp hy with h | h
        · rw [hflags y h]
          exact ⟨fun h1 => ⟨hmiss y h, h1⟩, fun h1 => h1.2⟩
        · simp only [List.mem_singleton] at h; subst h
          simp
      · rw [admitted_pages_append, evicted_pages_append]
        simp [admitted_pages, evicted_pages, hadm]
      · apply write_back_correct_append _ _ hwbc
        intro pre post vp c p wb pa h hp
        rcases pre with _ | ⟨a, _ | ⟨b, pre⟩⟩ <;> simp at h
        exact absurd h.2.1.2.2.1.symm hp
  · have hne : s.queue ≠ [] := by
      intro h
      rw [hcount, h] at hlt
      simp at hlt
      omega
    obtain ⟨head, rest, hq⟩ := List.exists_cons_of_ne_nil hne
    have hheadmem : head ∈ s.queue := by rw [hq]; simp
    have hhead : head.page_number ≠ -1 := by
      have := hpages head hheadmem
      omega
    have hrest : ∀ y ∈ rest, y ∈ s.queue := by
      intro y hy; rw [hq]; exact List.mem_cons_of_mem _ hy
    have hnd2 := hnodup
    rw [hq] at hnd2
    simp only [List.map_cons] at hnd2
    have hheadrest : ∀ y ∈ rest, y.page_number ≠ head.page_number := by
      intro y hy h
      exact (List.nodup_cons.mp hnd2).1 (h ▸ List.mem_map_of_mem _ hy)
    refine ⟨{ queue := rest ++
                [{ page_number := Int.tdiv si_addr cfg.PAGE_SIZE,
                   place_in_pm := if rest = [] then 0 else head.place_in_pm,
                   flag := PROT_READ }],
              pages_in_queue_fifo := s.pages_in_queue_fifo },
      [Event.mprotect (cfg.PAGE_SIZE * head.page_number) cfg.PAGE_SIZE PROT_NONE,
        Event.mprotect (cfg.PAGE_SIZE * Int.tdiv si_addr cfg.PAGE_SIZE) cfg.PAGE_SIZE
        PROT_READ], head.page_number, (if head.flag = PROT_READ_WRITE then 1 else 0),
      to_unsigned (head.place_in_pm * cfg.PAGE_SIZE + Int.tmod si_addr cfg.PAGE_SIZE),
      ?_, by simp [logged_records, is_record], ?_,
      by have := hpages head hheadmem; omega,
      by split <;> simp⟩
    · rw [hhandler, fifo_miss_full cfg s _ _ head rest hq hlt hhead]
      rfl
    · have hquiet : ∀ pg : Int, WrittenSinceAdmission pg
          (log ++ [Event.mprotect (cfg.PAGE_SIZE * head.page_number) cfg.PAGE_SIZE PROT_NONE,
            Event.mprotect (cfg.PAGE_SIZE * Int.tdiv si_addr cfg.PAGE_SIZE) cfg.PAGE_SIZE
              PROT_READ]) ↔ WrittenSinceAdmission pg log := by
        intro pg
        rw [written_append]
        constructor
        · rintro (⟨pre, w, post, h, hw, _⟩ | ⟨h, _⟩)
          · rcases pre with _ | ⟨a, _ | ⟨b, pre⟩⟩
            · simp at h; rw [← h.1] at hw; simp [is_first_write] at hw
            · simp at h; rw [← h.2.1] at hw; simp [is_first_write] at hw
            · simp at h
          · exact h
        · intro h
          exact Or.inr ⟨h, by simp [is_admission]⟩
      have hw : ∀ pg : Int, WrittenSinceAdmission pg
          (log ++ ([Event.mprotect (cfg.PAGE_SIZE * head.page_number) cfg.PAGE_SIZE PROT_NONE,
            Event.mprotect (cfg.PAGE_SIZE * Int.tdiv si_addr cfg.PAGE_SIZE) cfg.PAGE_SIZE
              PROT_READ] ++
            [Event.mm_logger (Int.tdiv si_addr cfg.PAGE_SIZE) 0 head.page_number
              (if head.flag = PROT_READ_WRITE then 1 else 0)
              (to_unsigned (head.place_in_pm * cfg.PAGE_SIZE +
                Int.tmod si_addr cfg.PAGE_SIZE))])) ↔
          (pg ≠ Int.tdiv si_addr cfg.PAGE_SIZE ∧ WrittenSinceAdmission pg log) := by
        intro pg
        rw [← List.append_assoc, written_append, hquiet]
        constructor
        · rintro (⟨pre, w, post, h, hw, _⟩ | ⟨h, hq⟩)
          · rcases pre with _ | ⟨a, pre⟩
            · simp at h; rw [← h.1] at hw; simp [is_first_write] at hw
            · simp at h
          · refine ⟨?_, h⟩
            have := hq _ (List.mem_singleton_self _)
            simpa [is_admission, eq_comm] using this
        · rintro ⟨hne, h⟩
          right
          refine ⟨h, ?_⟩
          intro e he
          simp only [List.mem_singleton] at he
          subst he
          simp [is_admission]
          exact fun h => absurd h.symm hne
      have hlen1 : (s.queue.length : Int) = (rest.length : Int) + 1 := by
        rw [hq]; simp
      refine ⟨⟨?_, ?_, ?_⟩, ?_, ?_, ?_, ?_, ?_⟩
      · simp only [List.length_append, List.length_singleton, hcount, hlen1]
        push_cast; ring
      · intro y hy
        rcases List.mem_append.mp hy with h | h
        · exact hpages y (hrest y h)
        · simp only [List.mem_singleton] at h; subst h; exact hvp
      · intro y hy
        rcases List.mem_append.mp hy with h | h
        · exact hframes y (hrest y h)
        · simp only [List.mem_singleton] at h; subst h
          simp only
          split
          · exact ⟨le_refl _, by omega⟩
          · exact hframes head hheadmem
      · simp only [List.length_append, List.length_singleton]
        push_cast
        rw [← hlen1]; exact hlen
      · simp only [List.map_append, List.map_cons, List.map_nil]
        rw [List.nodup_append]
        refine ⟨(List.nodup_cons.mp hnd2).2, by simp, ?_⟩
        intro a ha hb
        simp only [List.mem_singleton] at hb
        subst hb
        apply hvpmem
        rw [hq, List.map_cons]
        exact List.mem_cons_of_mem _ ha
      · intro y hy
        rw [hw]
        rcases List.mem_append.mp hy with h | h
        · rw [hflags y (hrest y h)]
          exact ⟨fun h1 => ⟨hmiss y (hrest y h), h1⟩, fun h1 => h1.2⟩
        · simp only [List.mem_singleton] at h; subst h
          simp
      · rw [admitted_pages_append, evicted_pages_append]
        simp [admitted_pages, evicted_pages, hadm, hq, hhead]
      · apply write_back_correct_append _ _ hwbc
        intro pre post vp c p wb pa h hp
        rcases pre with _ | ⟨a, _ | ⟨b, _ | ⟨c, pre⟩⟩⟩ <;> simp at h
        obtain ⟨ha, hb, ⟨_, _, hp1, hwb, _⟩, _⟩ := h
        subst ha hb hp1 hwb
        rw [hquiet, ← hflags head hheadmem]
        by_cases hf : head.flag = PROT_READ_WRITE <;> simp [hf]

/-! ### FIFO: runs -/

theorem fifo_inv_init (cfg : Config) (hN : 1 ≤ cfg.N_FRAMES) : FifoInv cfg fifo_init [] := by
  refine ⟨⟨rfl, by simp [fifo_init], by simp [fifo_init]⟩, ?_, by simp [fifo_init],
    by simp [fifo_init], by simp [fifo_init, admitted_pages, evicted_pages],
    write_back_correct_nil⟩
  simp only [fifo_init, List.length_nil]
  omega

theorem fifo_step (cfg : Config) (s : FifoState) (log : List Event) (si_addr : Int)
    (hN : 1 ≤ cfg.N_FRAMES) (hP : 0 < cfg.PAGE_SIZE) (haddr : 0 ≤ si_addr)
    (hinv : FifoInv cfg s log) :
    ∃ s1 evs, fifo_handler cfg s si_addr = Outcome.ok (s1, evs) ∧
      FifoInv cfg s1 (log ++ evs) ∧
      ∃ r, logged_records evs = [r] ∧
        FaultRecordFor (Int.tdiv si_addr cfg.PAGE_SIZE) r := by
  by_cases hmem : ∃ p ∈ s.queue, p.page_number = Int.tdiv si_addr cfg.PAGE_SIZE
  · obtain ⟨s1, pa, h, _, hinv1⟩ := fifo_step_found cfg s log si_addr (ne_of_gt hP) hinv hmem
    exact ⟨s1, _, h, hinv1, _, by simp [logged_records, is_record],
      ⟨1, -1, 0, pa, rfl, by simp, le_refl _, Or.inl rfl⟩⟩
  · have hmiss : ∀ p ∈ s.queue, p.page_number ≠ Int.tdiv si_addr cfg.PAGE_SIZE :=
      fun p hp h => hmem ⟨p, hp, h⟩
    obtain ⟨s1, pre, ev, wb, pa, h, hpre, hinv1, hev, hwb⟩ :=
      fifo_step_miss cfg s log si_addr hN (ne_of_gt hP)
        (Int.tdiv_nonneg haddr (le_of_lt hP)) hinv hmiss
    refine ⟨s1, _, h, hinv1, _, ?_, ⟨0, ev, wb, pa, rfl, by simp, hev, hwb⟩⟩
    unfold logged_records at hpre ⊢
    rw [List.filter_append, hpre]
    simp [is_record]

theorem fifo_run_inv (cfg : Config) (hN : 1 ≤ cfg.N_FRAMES) (hP : 0 < cfg.PAGE_SIZE)
    (faults : List Int) :
    ∀ (s : FifoState) (log : List Event), (∀ d ∈ faults, 0 ≤ d) → FifoInv cfg s log →
      ∃ s1 evs, fifo_run cfg s faults = Outcome.ok (s1, evs) ∧ FifoInv cfg s1 (log ++ evs) := by
  induction faults with
  | nil =>
    intro s log _ hinv
    exact ⟨s, [], rfl, by simpa using hinv⟩
  | cons d ds ih =>
    intro s log hds hinv
    obtain ⟨s1, evs1, h1, hinv1, _⟩ :=
      fifo_step cfg s log d hN hP (hds d (List.mem_cons_self d ds)) hinv
    obtain ⟨s2, evs2, h2, hinv2⟩ :=
      ih s1 (log ++ evs1) (fun x hx => hds x (List.mem_cons_of_mem d hx)) hinv1
    refine ⟨s2, evs1 ++ evs2, ?_, by simpa [List.append_assoc] using hinv2⟩
    simp [fifo_run, h1, h2]

/-- C2. FIFO ordering: from the empty table, with at least one frame, every run of
faults is served, the k-th eviction of the run removes the k-th page ever admitted,
the table holds the admitted pages that were not evicted, in admission order, and
a fault on a resident page (a first write) changes neither the order of the table
nor the admitted and evicted pages. -/
theorem fifo_evicts_in_admission_order (cfg : Config) (faults : List Int)
    (hN : 1 ≤ cfg.N_FRAMES) (hP : 0 < cfg.PAGE_SIZE) (hfaults : ∀ d ∈ faults, 0 ≤ d) :
    ∃ s evs, fifo_run cfg fifo_init faults = Outcome.ok (s, evs) ∧
      evicted_pages evs = (admitted_pages evs).take (evicted_pages evs).length ∧
      s.queue.map fifo_page.page_number =
        (admitted_pages evs).drop (evicted_pages evs).length ∧
      ∀ d, 0 ≤ d → (∃ p ∈ s.queue, p.page_number = Int.tdiv d cfg.PAGE_SIZE) →
        ∃ s1 evs1, fifo_handler cfg s d = Outcome.ok (s1, evs1) ∧
          s1.queue.map fifo_page.page_number = s.queue.map fifo_page.page_number ∧
          admitted_pages evs1 = [] ∧ evicted_pages evs1 = [] := by
  obtain ⟨s, evs, hrun, hinv⟩ :=
    fifo_run_inv cfg hN hP faults fifo_init [] hfaults (fifo_inv_init cfg hN)
  simp only [List.nil_append] at hinv
  refine ⟨s, evs, hrun, ?_, ?_, ?_⟩
  · have h := hinv.2.2.2.2.1
    conv_rhs => rw [h]
    simp
  · have h := hinv.2.2.2.2.1
    conv_rhs => rw [h]
    simp
  · intro d _ hmem
    obtain ⟨s1, pa, h, hq, _⟩ := fifo_step_found cfg s evs d (ne_of_gt hP) hinv hmem
    exact ⟨s1, _, h, hq, by simp [admitted_pages], by simp [evicted_pages]⟩

/-- Witness for C2: two frames, faults on pages 0, 1, 0 (a write) and 2. -/
theorem fifo_evicts_in_admission_order_witness :
    ∃ s evs, fifo_run { VM_SIZE := 32768, N_FRAMES := 2, PAGE_SIZE := 4096, POLICY := 1 }
        fifo_init [0, 4096, 5, 8199] = Outcome.ok (s, evs) ∧
      evicted_pages evs = (admitted_pages evs).take (evicted_pages evs).length ∧
      s.queue.map fifo_page.page_number =
        (admitted_pages evs).drop (evicted_pages evs).length ∧
      ∀ d, 0 ≤ d → (∃ p ∈ s.queue, p.page_number = Int.tdiv d 4096) →
        ∃ s1 evs1,
          fifo_handler { VM_SIZE := 32768, N_FRAMES := 2, PAGE_SIZE := 4096, POLICY := 1 }
            s d = Outcome.ok (s1, evs1) ∧
          s1.queue.map fifo_page.page_number = s.queue.map fifo_page.page_number ∧
          admitted_pages evs1 = [] ∧ evicted_pages evs1 = [] :=
  fifo_evicts_in_admission_order
    { VM_SIZE := 32768, N_FRAMES := 2, PAGE_SIZE := 4096, POLICY := 1 } [0, 4096, 5, 8199]
    (by decide) (by decide) (by decide)

/-- C3. Write-back correctness under FIFO: from the empty table, with at least one
frame, every run of faults is served and every record that evicts a page `p`
carries `write_back = 1` if and only if a record with cause 1 for `p` was logged
after the most recent admission of `p` and before the eviction (and carries
`write_back = 0` otherwise). -/
theorem fifo_write_back_correct (cfg : Config) (faults : List Int)
    (hN : 1 ≤ cfg.N_FRAMES) (hP : 0 < cfg.PAGE_SIZE) (hfaults : ∀ d ∈ faults, 0 ≤ d) :
    ∃ s evs, fifo_run cfg fifo_init faults = Outcome.ok (s, evs) ∧
      ∀ pre post virt_page cause p write_back phy_addr,
        evs = pre ++ Event.mm_logger virt_page cause p write_back phy_addr :: post →
        p ≠ -1 →
        ((write_back = 1 ↔
            ∃ pre1 w pre2, pre = pre1 ++ w :: pre2 ∧ is_first_write p w = true ∧
              ∀ e ∈ pre2, is_admission p e = false) ∧
          (write_back = 0 ∨ write_back = 1)) := by
  obtain ⟨s, evs, hrun, hinv⟩ :=
    fifo_run_inv cfg hN hP faults fifo_init [] hfaults (fifo_inv_init cfg hN)
  simp only [List.nil_append] at hinv
  exact ⟨s, evs, hrun, hinv.2.2.2.2.2⟩

/-- Witness for C3: two frames, faults on pages 0, 1, 0 (a write), 2 and 3. -/
theorem fifo_write_back_correct_witness :
    ∃ s evs, fifo_run { VM_SIZE := 32768, N_FRAMES := 2, PAGE_SIZE := 4096, POLICY := 1 }
        fifo_init [0, 4096, 5, 8199, 12288] = Outcome.ok (s, evs) ∧
      ∀ pre post virt_page cause p write_back phy_addr,
        evs = pre ++ Event.mm_logger virt_page cause p write_back phy_addr :: post →
        p ≠ -1 →
        ((write_back = 1 ↔
            ∃ pre1 w pre2, pre = pre1 ++ w :: pre2 ∧ is_first_write p w = true ∧
              ∀ e ∈ pre2, is_admission p e = false) ∧
          (write_back = 0 ∨ write_back = 1)) :=
  fifo_write_back_correct
    { VM_SIZE := 32768, N_FRAMES := 2, PAGE_SIZE := 4096, POLICY := 1 }
    [0, 4096, 5, 8199, 12288] (by decide) (by decide) (by decide)

/-! ### Third-Chance: the lookup loop -/

theorem tc_linked_next (heap : List tc_page) (hl : tc_linked heap) (i : Nat) (node : tc_page)
    (hi : heap[i]? = some node) (hlt : i + 1 < heap.length) : node.next = some (i + 1) := by
  rw [hl i node hi, if_neg (by omega), Nat.mod_eq_of_lt hlt]

theorem tc_lookup_found (cfg : Config) (tail : Option Nat) (virt_page offset : Int)
    (heap : List tc_page) (i : Nat) (node : tc_page) (hi : heap[i]? = some node)
    (hpage : node.page_number = virt_page) (hl : tc_linked heap) :
    ∀ (fuel j : Nat), j ≤ i → i - j < fuel →
      (∀ k nk, j ≤ k → k < i → heap[k]? = some nk →
        nk.page_number ≠ virt_page ∧ some k ≠ tail) →
      tc_lookup cfg tail virt_page offset fuel heap (some j) =
        Outcome.ok (some (tc_hit cfg virt_page offset heap i node)) := by
  have hilt : i < heap.length := (List.getElem?_eq_some_iff.mp hi).1
  intro fuel
  induction fuel with
  | zero => intro j _ h; omega
  | succ fuel ih =>
    intro j hj hfuel hbefore
    by_cases hji : j = i
    · subst hji
      simp [tc_lookup, hi, hpage]
    · have hjlt : j < i := by omega
      have hjlen : j < heap.length := by omega
      obtain ⟨nj, hnj⟩ : ∃ nj, heap[j]? = some nj :=
        ⟨heap[j], List.getElem?_eq_getElem hjlen⟩
      obtain ⟨h1, h2⟩ := hbefore j nj (le_refl j) hjlt hnj
      have hnext := tc_linked_next heap hl j nj hnj (by omega)
      simp only [tc_lookup, hnj, if_neg h1, if_neg h2, hnext]
      apply ih (j + 1) (by omega) (by omega)
      intro k nk hk1 hk2 hk
      exact hbefore k nk (by omega) hk2 hk

theorem tc_lookup_miss (cfg : Config) (virt_page offset : Int) (heap : List tc_page)
    (hl : tc_linked heap) (hmiss : ∀ node ∈ heap, node.page_number ≠ virt_page) :
    ∀ (fuel j : Nat), j < heap.length → heap.length - j ≤ fuel →
      tc_lookup cfg (some (heap.length - 1)) virt_page offset fuel heap (some j) =
        Outcome.ok none := by
  intro fuel
  induction fuel with
  | zero => intro j h1 h2; omega
  | succ fuel ih =>
    intro j hj hfuel
    obtain ⟨nj, hnj⟩ : ∃ nj, heap[j]? = some nj := ⟨heap[j], List.getElem?_eq_getElem hj⟩
    have hne : nj.page_number ≠ virt_page :=
      hmiss nj (List.mem_iff_getElem?.mpr ⟨j, hnj⟩)
    by_cases hlast : j = heap.length - 1
    · have hlast2 : some j = some (heap.length - 1) := by rw [hlast]
      simp only [tc_lookup, hnj, if_neg hne, if_pos hlast2]
    · have hnext := tc_linked_next heap hl j nj hnj (by omega)
      have hne2 : ¬ (some j = some (heap.length - 1)) := by
        simpa using hlast
      simp only [tc_lookup, hnj, if_neg hne, if_neg hne2, hnext]
      exact ih (j + 1) (by omega) (by omega)

/-! ### Third-Chance: the clock scan -/

theorem tc_linked_set (heap : List tc_page) (c : Nat) (node node1 : tc_page)
    (hl : tc_linked heap) (hc : heap[c]? = some node) (hnext : node1.next = node.next) :
    tc_linked (heap.set c node1) := by
  intro i x hx
  rw [List.length_set]
  rw [List.getElem?_set] at hx
  by_cases hci : c = i
  · subst hci
    have hlt : c < heap.length := (List.getElem?_eq_some_iff.mp hc).1
    rw [if_pos rfl, if_pos hlt] at hx
    cases hx
    rw [hnext]
    exact hl c node hc
  · rw [if_neg hci] at hx
    exact hl i x hx

theorem demote_facts (node : tc_page) (h5 : five_state node) (hne : ¬ evictable node) :
    five_state (demote node) ∧ chances (demote node) + 1 = chances node ∧
      page_identity (demote node) = page_identity node := by
  unfold five_state at h5
  unfold evictable at hne
  rcases h5 with ⟨h1, h2⟩ | ⟨h1, h2⟩ | ⟨h1, h2⟩ | ⟨h1, h2⟩ | ⟨h1, h2⟩
  · exact absurd (Or.inl ⟨h1, h2⟩) hne
  · simp [demote, five_state, chances, page_identity, h1, h2]
  · simp [demote, five_state, chances, page_identity, h1, h2]
  · simp [demote, five_state, chances, page_identity, h1, h2]
  · exact absurd (Or.inr ⟨h1, h2⟩) hne

theorem tc_clock_scan_stop (cfg : Config) (fuel : Nat) (heap : List tc_page) (c : Nat)
    (node : tc_page) (hc : heap[c]? = some node) (hev : evictable node) :
    tc_clock_scan cfg (fuel + 1) heap (some c) =
      Outcome.ok { heap := heap, clock_head := some c, write_back := node.m,
                   events := [], visited := [] } := by
  rcases hev with ⟨h1, h2⟩ | ⟨h1, h2⟩
  · simp [tc_clock_scan, hc, h1, h2]
  · simp [tc_clock_scan, hc, h1, h2]

theorem tc_clock_scan_step (cfg : Config) (fuel : Nat) (heap : List tc_page) (c : Nat)
    (node : tc_page) (hc : heap[c]? = some node) (h5 : five_state node)
    (hne : ¬ evictable node) :
    tc_clock_scan cfg (fuel + 1) heap (some c) =
      match tc_clock_scan cfg fuel (heap.set c (demote node)) node.next with
      | Outcome.ok res =>
        Outcome.ok { res with
          events := (if node.r = 1 then
              [Event.mprotect (cfg.PAGE_SIZE * node.page_number) cfg.PAGE_SIZE PROT_NONE]
            else []) ++ res.events,
          visited := c :: res.visited }
      | Outcome.crash => Outcome.crash
      | Outcome.timeout => Outcome.timeout := by
  unfold five_state at h5
  unfold evictable at hne
  rcases h5 with ⟨h1, h2⟩ | ⟨h1, h2⟩ | ⟨h1, h2⟩ | ⟨h1, h2⟩ | ⟨h1, h2⟩
  · exact absurd (Or.inl ⟨h1, h2⟩) hne
  · have hd : demote node = { node with r := 0, flag := PROT_NONE } := by simp [demote, h1]
    rw [hd]
    simp only [tc_clock_scan, hc, h1, h2]
    simp
  · have hd : demote node = { node with r := 0, flag := PROT_NONE } := by simp [demote, h1]
    rw [hd]
    simp only [tc_clock_scan, hc, h1, h2]
    simp
  · have hd : demote node = { node with r := -1 } := by simp [demote, h1]
    have e1 : ¬ ((0 : Int) = -1) := by decide
    rw [hd]
    simp only [tc_clock_scan, hc, h1, h2, e1]
    simp
  · exact absurd (Or.inr ⟨h1, h2⟩) hne

theorem spec_clock_scan_step (t : List tc_page) (c : Nat) (node : tc_page)
    (t1 : List tc_page) (e : Nat) (wb : Int) (hc : t[c]? = some node)
    (h5 : five_state node) (hne : ¬ evictable node)
    (h : SpecClockScan (t.set c (demote node)) ((c + 1) % t.length) t1 e wb) :
    SpecClockScan t c t1 e wb := by
  unfold five_state at h5
  unfold evictable at hne
  rcases h5 with ⟨h1, h2⟩ | ⟨h1, h2⟩ | ⟨h1, h2⟩ | ⟨h1, h2⟩ | ⟨h1, h2⟩
  · exact absurd (Or.inl ⟨h1, h2⟩) hne
  · have hd : demote node = { node with r := 0, flag := PROT_NONE } := by simp [demote, h1]
    rw [hd] at h
    exact SpecClockScan.demote_clean t c node t1 e wb hc h1 h2 h
  · have hd : demote node = { node with r := 0, flag := PROT_NONE } := by simp [demote, h1]
    rw [hd] at h
    exact SpecClockScan.demote_dirty t c node t1 e wb hc h1 h2 h
  · have hd : demote node = { node with r := -1 } := by simp [demote, h1]
    rw [hd] at h
    exact SpecClockScan.second_chance t c node t1 e wb hc h1 h2 h
  · exact absurd (Or.inr ⟨h1, h2⟩) hne

theorem evictable_decidable (node : tc_page) : evictable node ∨ ¬ evictable node :=
  Classical.em _

theorem five_state_set (heap : List tc_page) (c : Nat) (node1 : tc_page)
    (h5 : ∀ node ∈ heap, five_state node) (h1 : five_state node1) :
    ∀ node ∈ heap.set c node1, five_state node := by
  intro node hn
  rcases List.mem_or_eq_of_mem_set hn with h | h
  · exact h5 node h
  · rw [h]; exact h1

theorem chances_at_set (heap : List tc_page) (c i : Nat) (node1 : tc_page)
    (hc : c < heap.length) :
    chances_at (heap.set c node1) i = if c = i then chances node1 else chances_at heap i := by
  unfold chances_at
  rw [List.getElem?_set]
  by_cases hci : c = i
  · subst hci
    simp [hc]
  · simp [hci]

theorem tc_clock_scan_sound (cfg : Config) :
    ∀ (fuel : Nat) (heap : List tc_page) (c : Nat) (res : ScanResult),
      tc_linked heap → 2 ≤ heap.length → (∀ node ∈ heap, five_state node) →
      c < heap.length → tc_clock_scan cfg fuel heap (some c) = Outcome.ok res →
      ∃ e, res.clock_head = some e ∧ SpecClockScan heap c res.heap e res.write_back ∧
        logged_records res.events = [] ∧
        (∀ i, res.visited.count i + chances_at res.heap i = chances_at heap i) := by
  intro fuel
  induction fuel with
  | zero =>
    intro heap c res _ _ _ _ h
    simp [tc_clock_scan] at h
  | succ fuel ih =>
    intro heap c res hl hn h5 hc h
    obtain ⟨node, hnode⟩ : ∃ node, heap[c]? = some node :=
      ⟨heap[c], List.getElem?_eq_getElem hc⟩
    have h5n : five_state node := h5 node (List.mem_iff_getElem?.mpr ⟨c, hnode⟩)
    rcases evictable_decidable node with hev | hne
    · rw [tc_clock_scan_stop cfg fuel heap c node hnode hev] at h
      cases h
      refine ⟨c, rfl, ?_, rfl, by simp⟩
      rcases hev with ⟨h1, h2⟩ | ⟨h1, h2⟩
      · simp only [h2]; exact SpecClockScan.evict_clean heap c node hnode h1 h2
      · simp only [h2]; exact SpecClockScan.evict_dirty heap c node hnode h1 h2
    · rw [tc_clock_scan_step cfg fuel heap c node hnode h5n hne] at h
      obtain ⟨hd5, hdch, hdid⟩ := demote_facts node h5n hne
      have hnext : node.next = some ((c + 1) % heap.length) := by
        rw [hl c node hnode, if_neg (by omega)]
      have hdnext : (demote node).next = node.next := by
        have := congrArg (fun x => x.2.2.2) hdid
        simpa [page_identity] using this
      rw [hnext] at h
      cases hrec : tc_clock_scan cfg fuel (heap.set c (demote node))
          ((some ((c + 1) % heap.length))) with
      | crash => rw [hrec] at h; cases h
      | timeout => rw [hrec] at h; cases h
      | ok res1 =>
        rw [hrec] at h
        simp only [Outcome.ok.injEq] at h
        obtain ⟨e, he, hspec, hlog, hcount⟩ :=
          ih (heap.set c (demote node)) ((c + 1) % heap.length) res1
            (tc_linked_set heap c node _ hl hnode hdnext)
            (by rw [List.length_set]; exact hn)
            (five_state_set heap c _ h5 hd5)
            (by rw [List.length_set]; exact Nat.mod_lt _ (by omega)) hrec
        subst h
        refine ⟨e, he, spec_clock_scan_step heap c node _ e _ hnode h5n hne hspec, ?_, ?_⟩
        · simp only [logged_records, List.filter_append] at hlog ⊢
          rw [hlog]
          split <;> simp [is_record]
        · intro i
          have := hcount i
          rw [chances_at_set heap c i _ hc] at this
          simp only [List.count_cons]
          by_cases hci : c = i
          · subst hci
            simp only [if_true, beq_self_eq_true] at this ⊢
            have hcc : chances_at heap c = chances node := by simp [chances_at, hnode]
            omega
          · have hci2 : (c == i) = false := by simpa using hci
            simp only [if_neg hci, hci2] at this ⊢
            simpa using this

theorem set_getElem?_self {α : Type} (l : List α) (c : Nat) (a : α) (h : l[c]? = some a) :
    l.set c a = l := by
  apply List.ext_getElem?
  intro i
  rw [List.getElem?_set]
  by_cases hci : c = i
  · subst hci
    rw [if_pos rfl, if_pos (List.getElem?_eq_some_iff.mp h).1, h]
  · rw [if_neg hci]

theorem pages_index_inj (heap : List tc_page)
    (hnd : (heap.map tc_page.page_number).Nodup) (i j : Nat) (a b : tc_page)
    (hi : heap[i]? = some a) (hj : heap[j]? = some b)
    (hab : a.page_number = b.page_number) : i = j := by
  have hlt : i < (heap.map tc_page.page_number).length := by
    rw [List.length_map]; exact (List.getElem?_eq_some_iff.mp hi).1
  apply List.getElem?_inj hlt hnd
  rw [List.getElem?_map, List.getElem?_map, hi, hj]
  simp [hab]

theorem spec_clock_scan_facts (t : List tc_page) (c : Nat) (t1 : List tc_page) (e : Nat)
    (wb : Int) (h : SpecClockScan t c t1 e wb) :
    t1.map page_identity = t.map page_identity ∧
      (∃ node, t1[e]? = some node ∧ evictable node ∧ wb = node.m) ∧
      ((∀ n ∈ t, five_state n) → ∀ n ∈ t1, five_state n) := by
  induction h with
  | evict_clean t c node hc h1 h2 =>
    exact ⟨rfl, ⟨node, hc, Or.inl ⟨h1, h2⟩, h2.symm⟩, fun h => h⟩
  | evict_dirty t c node hc h1 h2 =>
    exact ⟨rfl, ⟨node, hc, Or.inr ⟨h1, h2⟩, h2.symm⟩, fun h => h⟩
  | demote_clean t c node t1 e wb hc h1 h2 _ ih =>
    obtain ⟨ha, hb, hcc⟩ := ih
    refine ⟨?_, hb, ?_⟩
    · rw [ha, List.map_set]
      apply set_getElem?_self
      rw [List.getElem?_map, hc]
      rfl
    · intro h5
      apply hcc
      apply five_state_set t c _ h5
      simp [five_state, h2]
  | demote_dirty t c node t1 e wb hc h1 h2 _ ih =>
    obtain ⟨ha, hb, hcc⟩ := ih
    refine ⟨?_, hb, ?_⟩
    · rw [ha, List.map_set]
      apply set_getElem?_self
      rw [List.getElem?_map, hc]
      rfl
    · intro h5
      apply hcc
      apply five_state_set t c _ h5
      simp [five_state, h2]
  | second_chance t c node t1 e wb hc h1 h2 _ ih =>
    obtain ⟨ha, hb, hcc⟩ := ih
    refine ⟨?_, hb, ?_⟩
    · rw [ha, List.map_set]
      apply set_getElem?_self
      rw [List.getElem?_map, hc]
      rfl
    · intro h5
      apply hcc
      apply five_state_set t c _ h5
      simp [five_state, h2]

theorem succ_mod_eq (n c : Nat) (hc : c < n) :
    (c + 1) % n = if c + 1 < n then c + 1 else 0 := by
  by_cases h : c + 1 < n
  · rw [if_pos h, Nat.mod_eq_of_lt h]
  · rw [if_neg h]
    have : c + 1 = n := by omega
    rw [this, Nat.mod_self]

theorem tc_clock_scan_terminates (cfg : Config) :
    ∀ (fuel : Nat) (heap : List tc_page) (c j : Nat) (nodej : tc_page),
      tc_linked heap → 2 ≤ heap.length → (∀ node ∈ heap, five_state node) →
      c < heap.length → heap[j]? = some nodej →
      hand_distance heap.length c j + heap.length * chances nodej < fuel →
      ∃ res, tc_clock_scan cfg fuel heap (some c) = Outcome.ok res ∧
        res.visited.length ≤ hand_distance heap.length c j + heap.length * chances nodej := by
  intro fuel
  induction fuel with
  | zero => intro heap c j nodej _ _ _ _ _ h; omega
  | succ fuel ih =>
    intro heap c j nodej hl hn h5 hc hj hfuel
    obtain ⟨node, hnode⟩ : ∃ node, heap[c]? = some node :=
      ⟨heap[c], List.getElem?_eq_getElem hc⟩
    have h5n : five_state node := h5 node (List.mem_iff_getElem?.mpr ⟨c, hnode⟩)
    have hjlt : j < heap.length := (List.getElem?_eq_some_iff.mp hj).1
    rcases evictable_decidable node with hev | hne
    · rw [tc_clock_scan_stop cfg fuel heap c node hnode hev]
      exact ⟨_, rfl, by simp⟩
    · rw [tc_clock_scan_step cfg fuel heap c node hnode h5n hne]
      obtain ⟨hd5, hdch, hdid⟩ := demote_facts node h5n hne
      have hnext : node.next = some ((c + 1) % heap.length) := by
        rw [hl c node hnode, if_neg (by omega)]
      have hdnext : (demote node).next = node.next := by
        have := congrArg (fun x => x.2.2.2) hdid
        simpa [page_identity] using this
      rw [hnext]
      have hmod := succ_mod_eq heap.length c hc
      have hc1 : (c + 1) % heap.length < heap.length := Nat.mod_lt _ (by omega)
      have hkey : ∃ nodej1, (heap.set c (demote node))[j]? = some nodej1 ∧
          hand_distance heap.length ((c + 1) % heap.length) j +
            heap.length * chances nodej1 + 1 =
          hand_distance heap.length c j + heap.length * chances nodej := by
        by_cases hjc : c = j
        · subst hjc
          refine ⟨demote node, by simp [hc], ?_⟩
          have hnn : nodej = node := by rw [hnode] at hj; exact (Option.some.inj hj).symm
          subst hnn
          have hmul : heap.length * chances nodej =
              heap.length * chances (demote nodej) + heap.length := by
            rw [← hdch]; ring
          rw [hmod, hmul]
          unfold hand_distance
          split_ifs <;> omega
        · refine ⟨nodej, by rw [List.getElem?_set_ne hjc]; exact hj, ?_⟩
          rw [hmod]
          unfold hand_distance
          split_ifs <;> omega
      obtain ⟨nodej1, hj1, hk⟩ := hkey
      obtain ⟨res1, hres1, hlen1⟩ :=
        ih (heap.set c (demote node)) ((c + 1) % heap.length) j nodej1
          (tc_linked_set heap c node _ hl hnode hdnext)
          (by rw [List.length_set]; exact hn)
          (five_state_set heap c _ h5 hd5)
          (by rw [List.length_set]; exact hc1) hj1
          (by rw [List.length_set]; omega)
      rw [List.length_set] at hlen1
      rw [hres1]
      refine ⟨_, rfl, ?_⟩
      simp only [List.length_cons]
      omega

theorem replace_tc_page_found (evicted_virt_page virt_page : Int) (heap : List tc_page)
    (e : Nat) (node : tc_page) (he : heap[e]? = some node)
    (hpage : node.page_number = evicted_virt_page) (hl : tc_linked heap) :
    ∀ (fuel j : Nat), j ≤ e → e - j < fuel →
      (∀ k nk, j ≤ k → k < e → heap[k]? = some nk →
        nk.page_number ≠ evicted_virt_page) →
      replace_tc_page evicted_virt_page virt_page fuel heap (some j) =
        Outcome.ok (heap.set e
          { node with page_number := virt_page, flag := PROT_READ, r := 1, m := 0 }) := by
  have helt : e < heap.length := (List.getElem?_eq_some_iff.mp he).1
  intro fuel
  induction fuel with
  | zero => intro j _ h; omega
  | succ fuel ih =>
    intro j hj hfuel hbefore
    by_cases hje : j = e
    · subst hje
      simp [replace_tc_page, he, hpage]
    · have hjlt : j < e := by omega
      have hjlen : j < heap.length := by omega
      obtain ⟨nj, hnj⟩ : ∃ nj, heap[j]? = some nj :=
        ⟨heap[j], List.getElem?_eq_getElem hjlen⟩
      have h1 := hbefore j nj (le_refl j) hjlt hnj
      have hnext := tc_linked_next heap hl j nj hnj (by omega)
      simp only [replace_tc_page, hnj, h1, hnext, ne_eq, not_false_eq_true, if_true]
      apply ih (j + 1) (by omega) (by omega)
      intro k nk hk1 hk2 hk
      exact hbefore k nk (by omega) hk2 hk

theorem chances_le_two (node : tc_page) : chances node ≤ 2 := by
  unfold chances
  split_ifs <;> omega

theorem chances_at_le_two (heap : List tc_page) (i : Nat) : chances_at heap i ≤ 2 := by
  unfold chances_at
  split
  · exact chances_le_two _
  · omega

theorem identity_getElem? (t t1 : List tc_page)
    (h : t1.map page_identity = t.map page_identity) (i : Nat) (x : tc_page)
    (hx : t1[i]? = some x) :
    ∃ y, t[i]? = some y ∧ page_identity y = page_identity x := by
  have h1 : (t1.map page_identity)[i]? = some (page_identity x) := by
    rw [List.getElem?_map, hx]; rfl
  rw [h, List.getElem?_map] at h1
  cases hy : t[i]? with
  | none => rw [hy] at h1; simp at h1
  | some y =>
    rw [hy] at h1
    exact ⟨y, rfl, by simpa using h1⟩

theorem identity_length (t t1 : List tc_page)
    (h : t1.map page_identity = t.map page_identity) : t1.length = t.length := by
  have := congrArg List.length h
  simpa using this

theorem identity_pages (t t1 : List tc_page)
    (h : t1.map page_identity = t.map page_identity) :
    t1.map tc_page.page_number = t.map tc_page.page_number := by
  have := congrArg (List.map Prod.fst) h
  simpa [List.map_map, Function.comp_def, page_identity] using this

theorem tc_linked_of_identity (t t1 : List tc_page)
    (h : t1.map page_identity = t.map page_identity) (hl : tc_linked t) : tc_linked t1 := by
  intro i x hx
  obtain ⟨y, hy, hid⟩ := identity_getElem? t t1 h i x hx
  have hnext : y.next = x.next := by
    have := congrArg (fun z => z.2.2.2) hid
    simpa [page_identity] using this
  rw [identity_length t t1 h, ← hnext]
  exact hl i y hy

/-- The miss of `tc_handler` on a full circular table of at least two records, all
in one of the five states: the clock scan ends within `2 * n` advances, visiting
no record more than twice, on a record `evict` of the scanned table `t1`, as the
transition table prescribes; that record is overwritten in place, the hand moves
to the record after it, and one record is logged. -/
theorem tc_miss_full (cfg : Config) (fuel : Nat) (s : TcState) (virt_page offset : Int)
    (c : Nat) (htable : TcTable s) (hclock : s.clock_head = some c)
    (hn : 2 ≤ s.heap.length) (hfull : ¬ s.pages_in_queue_tc < cfg.N_FRAMES)
    (h5 : ∀ node ∈ s.heap, five_state node) (hfuel : 2 * s.heap.length < fuel) :
    ∃ t1 e evict scan_events visited,
      SpecClockScan s.heap c t1 e evict.m ∧ t1[e]? = some evict ∧ evictable evict ∧
      t1.map page_identity = s.heap.map page_identity ∧
      (∀ node ∈ t1, five_state node) ∧
      logged_records scan_events = [] ∧
      visited.length ≤ 2 * s.heap.length ∧ (∀ i, visited.count i ≤ 2) ∧
      tc_clock_scan cfg fuel s.heap s.clock_head =
        Outcome.ok { heap := t1, clock_head := some e, write_back := evict.m,
                     events := scan_events, visited := visited } ∧
      tc_miss cfg fuel s virt_page offset =
        Outcome.ok
          ({ s with
             heap := t1.set e { evict with page_number := virt_page, flag := PROT_READ,
                                           r := 1, m := 0 },
             clock_head := some ((e + 1) % s.heap.length) },
           Event.mprotect (cfg.PAGE_SIZE * virt_page) cfg.PAGE_SIZE PROT_READ ::
             scan_events ++
             [Event.mprotect (cfg.PAGE_SIZE * evict.page_number) cfg.PAGE_SIZE PROT_NONE,
              Event.mm_logger virt_page 0 evict.page_number evict.m
                (to_unsigned (evict.place_in_pm * cfg.PAGE_SIZE + offset))]) := by
  obtain ⟨_, _, hhead, _, ⟨c0, hc0, hclock0⟩, hl, hnd⟩ := htable
  have hcc : c0 = c := by rw [hclock] at hclock0; exact (Option.some.inj hclock0).symm
  subst hcc
  obtain ⟨nodec, hnodec⟩ : ∃ node, s.heap[c0]? = some node :=
    ⟨s.heap[c0], List.getElem?_eq_getElem hc0⟩
  have hkey : hand_distance s.heap.length c0 c0 + s.heap.length * chances nodec ≤
      2 * s.heap.length := by
    have h2 := chances_le_two nodec
    have : s.heap.length * chances nodec ≤ s.heap.length * 2 := Nat.mul_le_mul_left _ h2
    simp only [hand_distance, le_refl, if_true, Nat.sub_self]
    omega
  obtain ⟨res, hres, hvis⟩ :=
    tc_clock_scan_terminates cfg fuel s.heap c0 c0 nodec hl hn h5 hc0 hnodec (by omega)
  obtain ⟨e, he, hspec, hlog, hcount⟩ :=
    tc_clock_scan_sound cfg fuel s.heap c0 res hl hn h5 hc0 hres
  obtain ⟨hid, ⟨evict, hevict, hevictable, hwb⟩, h5'⟩ :=
    spec_clock_scan_facts s.heap c0 res.heap e res.write_back hspec
  have hl1 : tc_linked res.heap := tc_linked_of_identity s.heap res.heap hid hl
  have hlen1 : res.heap.length = s.heap.length := identity_length s.heap res.heap hid
  have hnd1 : (res.heap.map tc_page.page_number).Nodup := by
    rw [identity_pages s.heap res.heap hid]; exact hnd
  have helt : e < res.heap.length := (List.getElem?_eq_some_iff.mp hevict).1
  have hnext : evict.next = some ((e + 1) % s.heap.length) := by
    rw [hl1 e evict hevict, if_neg (by omega), hlen1]
  have hreplace := replace_tc_page_found evict.page_number virt_page res.heap e evict hevict
    rfl hl1 fuel 0 (Nat.zero_le _) (by omega)
    (by
      intro k nk _ hk hnk hpage
      have := pages_index_inj res.heap hnd1 k e nk evict hnk hevict hpage
      omega)
  refine ⟨res.heap, e, evict, res.events, res.visited, ?_, hevict, hevictable, hid,
    h5' h5, hlog, by omega, ?_, ?_, ?_⟩
  · rw [← hwb]; exact hspec
  · intro i
    have h1 := hcount i
    have h2 := chances_at_le_two s.heap i
    omega
  · rw [hclock, hres, ← hwb, ← he]
  · unfold tc_miss
    simp only [if_neg hfull, hclock, hres, he, hevict, hhead, hreplace, hnext, hwb]

/-! ### Call sequences with at most one record -/

theorem not_record_of_quiet (quiet : List Event) (hq : logged_records quiet = [])
    (e : Event) (he : e ∈ quiet) : is_record e = false := by
  unfold logged_records at hq
  have := List.filter_eq_nil_iff.mp hq e he
  simpa using this

theorem first_write_is_record (p : Int) (e : Event) (h : is_first_write p e = true) :
    is_record e = true := by
  cases e <;> simp_all [is_first_write, is_record]

theorem admission_is_record (p : Int) (e : Event) (h : is_admission p e = true) :
    is_record e = true := by
  cases e <;> simp_all [is_admission, is_record]

theorem quiet_no_admission (p : Int) (quiet : List Event) (hq : logged_records quiet = [])
    (e : Event) (he : e ∈ quiet) : is_admission p e = false := by
  have h := not_record_of_quiet quiet hq e he
  cases e <;> simp_all [is_admission, is_record]

theorem quiet_not_written (p : Int) (quiet : List Event) (hq : logged_records quiet = []) :
    ¬ WrittenSinceAdmission p quiet := by
  rintro ⟨pre, w, post, h, hw, _⟩
  have h1 := not_record_of_quiet quiet hq w (by rw [h]; simp)
  rw [first_write_is_record p w hw] at h1
  cases h1

theorem written_quiet (p : Int) (log quiet : List Event) (hq : logged_records quiet = []) :
    WrittenSinceAdmission p (log ++ quiet) ↔ WrittenSinceAdmission p log := by
  rw [written_append]
  constructor
  · rintro (h | ⟨h, _⟩)
    · exact absurd h (quiet_not_written p quiet hq)
    · exact h
  · intro h
    exact Or.inr ⟨h, quiet_no_admission p quiet hq⟩

theorem written_step (p : Int) (log quiet : List Event) (r0 : Event)
    (hq : logged_records quiet = []) :
    WrittenSinceAdmission p (log ++ (quiet ++ [r0])) ↔
      (is_first_write p r0 = true ∨
        (WrittenSinceAdmission p log ∧ is_admission p r0 = false)) := by
  rw [← List.append_assoc, written_append, written_quiet p log quiet hq]
  constructor
  · rintro (⟨pre, w, post, h, hw, _⟩ | ⟨h, hr⟩)
    · rcases pre with _ | ⟨a, pre⟩
      · simp at h; rw [← h.1] at hw; exact Or.inl hw
      · simp at h
    · exact Or.inr ⟨h, hr r0 (List.mem_singleton_self r0)⟩
  · rintro (h | ⟨h, hr⟩)
    · exact Or.inl ⟨[], r0, [], rfl, h, by simp⟩
    · refine Or.inr ⟨h, ?_⟩
      intro e he
      rw [List.mem_singleton] at he
      rw [he]; exact hr

theorem record_decomp (quiet : List Event) (r0 : Event) (hq : logged_records quiet = [])
    (pre post : List Event) (virt_page cause p wb pa : Int)
    (h : quiet ++ [r0] = pre ++ Event.mm_logger virt_page cause p wb pa :: post) :
    pre = quiet ∧ r0 = Event.mm_logger virt_page cause p wb pa := by
  rcases List.append_eq_append_iff.mp h with ⟨a, hpre, hr⟩ | ⟨c, hqu, hc⟩
  · rcases a with _ | ⟨x, a⟩
    · simp at hr
      exact ⟨by simpa using hpre, hr.1⟩
    · simp at hr
  · rcases c with _ | ⟨x, c⟩
    · simp at hc
      exact ⟨by simpa using hqu.symm, hc.1.symm⟩
    · simp only [List.cons_append, List.cons.injEq] at hc
      have hmem : Event.mm_logger virt_page cause p wb pa ∈ quiet := by
        rw [hqu, ← hc.1]; simp
      have := not_record_of_quiet quiet hq _ hmem
      simp [is_record] at this

theorem write_back_correct_quiet (log quiet : List Event) (hlog : WriteBackCorrect log)
    (hq : logged_records quiet = []) : WriteBackCorrect (log ++ quiet) := by
  apply write_back_correct_append log quiet hlog
  intro pre post vp c p wb pa h _
  have hmem : Event.mm_logger vp c p wb pa ∈ quiet := by rw [h]; simp
  have := not_record_of_quiet quiet hq _ hmem
  simp [is_record] at this

theorem write_back_correct_step (log quiet : List Event) (r0 : Event)
    (hlog : WriteBackCorrect log) (hq : logged_records quiet = [])
    (hr : ∀ virt_page cause p wb pa, r0 = Event.mm_logger virt_page cause p wb pa → p ≠ -1 →
      ((wb = 1 ↔ WrittenSinceAdmission p log) ∧ (wb = 0 ∨ wb = 1))) :
    WriteBackCorrect (log ++ (quiet ++ [r0])) := by
  apply write_back_correct_append log _ hlog
  intro pre post vp c p wb pa h hp
  obtain ⟨hpre, hr0⟩ := record_decomp quiet r0 hq pre post vp c p wb pa h
  rw [hpre, written_quiet p log quiet hq]
  exact hr vp c p wb pa hr0 hp

/-! ### Third-Chance: the three kinds of fault -/

theorem tc_handler_found (cfg : Config) (fuel : Nat) (s : TcState) (si_addr : Int)
    (i : Nat) (node : tc_page) (hP : cfg.PAGE_SIZE ≠ 0) (htable : TcTable s)
    (hi : s.heap[i]? = some node)
    (hpage : node.page_number = Int.tdiv si_addr cfg.PAGE_SIZE) (hfuel : i < fuel) :
    tc_handler cfg fuel s si_addr =
      Outcome.ok
        ({ s with heap := (tc_hit cfg (Int.tdiv si_addr cfg.PAGE_SIZE)
              (Int.tmod si_addr cfg.PAGE_SIZE) s.heap i node).1 },
         (tc_hit cfg (Int.tdiv si_addr cfg.PAGE_SIZE)
              (Int.tmod si_addr cfg.PAGE_SIZE) s.heap i node).2) := by
  obtain ⟨_, _, hhead, htail, _, hl, hnd⟩ := htable
  have hilt : i < s.heap.length := (List.getElem?_eq_some_iff.mp hi).1
  have hlook := tc_lookup_found cfg s.tc_tail (Int.tdiv si_addr cfg.PAGE_SIZE)
    (Int.tmod si_addr cfg.PAGE_SIZE) s.heap i node hi hpage hl fuel 0 (Nat.zero_le _)
    (by omega)
    (by
      intro k nk _ hk hnk
      constructor
      · intro hpk
        have := pages_index_inj s.heap hnd k i nk node hnk hi (by rw [hpk, hpage])
        omega
      · rw [htail]
        intro h
        have := Option.some.inj h
        omega)
  unfold tc_handler
  rw [if_neg hP]
  simp only [hhead, hlook]

theorem tc_handler_miss (cfg : Config) (fuel : Nat) (s : TcState) (si_addr : Int)
    (hP : cfg.PAGE_SIZE ≠ 0) (hs : s = tc_init ∨ (TcTable s ∧ s.heap.length ≤ fuel))
    (hmiss : ∀ node ∈ s.heap, node.page_number ≠ Int.tdiv si_addr cfg.PAGE_SIZE) :
    tc_handler cfg fuel s si_addr =
      tc_miss cfg fuel s (Int.tdiv si_addr cfg.PAGE_SIZE) (Int.tmod si_addr cfg.PAGE_SIZE) := by
  unfold tc_handler
  rw [if_neg hP]
  rcases hs with hs | ⟨⟨hpos, _, hhead, htail, _, hl, _⟩, hfuel⟩
  · subst hs
    simp [tc_init, tc_lookup]
  · have := tc_lookup_miss cfg (Int.tdiv si_addr cfg.PAGE_SIZE)
      (Int.tmod si_addr cfg.PAGE_SIZE) s.heap hl hmiss fuel 0 hpos (by omega)
    simp only [hhead, htail, this]

theorem tc_miss_first (cfg : Config) (fuel : Nat) (virt_page offset : Int)
    (hN : 0 < cfg.N_FRAMES) :
    tc_miss cfg fuel tc_init virt_page offset =
      Outcome.ok
        ({ heap := [create_tc_page virt_page 0 PROT_READ 1 0],
           tc_head := some 0, tc_tail := some 0, clock_head := some 0,
           pages_in_queue_tc := 1 },
         [Event.mprotect (cfg.PAGE_SIZE * virt_page) cfg.PAGE_SIZE PROT_READ,
          Event.mm_logger virt_page 0 (-1) 0 (to_unsigned (0 * cfg.PAGE_SIZE + offset))]) := by
  simp [tc_miss, tc_init, hN]

theorem tc_miss_below (cfg : Config) (fuel : Nat) (s : TcState) (virt_page offset : Int)
    (htable : TcTable s) (hlt : s.pages_in_queue_tc < cfg.N_FRAMES) :
    ∃ tail_node, s.heap[s.heap.length - 1]? = some tail_node ∧
      tc_miss cfg fuel s virt_page offset =
        Outcome.ok
          ({ heap := s.heap.set (s.heap.length - 1)
                 { tail_node with next := some s.heap.length } ++
               [{ create_tc_page virt_page s.pages_in_queue_tc PROT_READ 1 0 with
                  next := some 0 }],
             tc_head := some 0, tc_tail := some s.heap.length,
             clock_head := s.clock_head,
             pages_in_queue_tc := s.pages_in_queue_tc + 1 },
           [Event.mprotect (cfg.PAGE_SIZE * virt_page) cfg.PAGE_SIZE PROT_READ,
            Event.mm_logger virt_page 0 (-1) 0
              (to_unsigned (s.pages_in_queue_tc * cfg.PAGE_SIZE + offset))]) := by
  obtain ⟨hpos, _, hhead, htail, _, _, _⟩ := htable
  obtain ⟨tail_node, htn⟩ : ∃ x, s.heap[s.heap.length - 1]? = some x :=
    ⟨s.heap[s.heap.length - 1], List.getElem?_eq_getElem (by omega)⟩
  refine ⟨tail_node, htn, ?_⟩
  simp [tc_miss, hlt, hhead, new_tc_page, htail, htn]

theorem mem_set_cases {α : Type} (l : List α) (i : Nat) (a x : α) (h : x ∈ l.set i a) :
    (∃ k, k ≠ i ∧ l[k]? = some x) ∨ x = a := by
  obtain ⟨k, hk⟩ := List.mem_iff_getElem?.mp h
  rw [List.getElem?_set] at hk
  by_cases hik : i = k
  · rw [if_pos hik] at hk
    split at hk
    · exact Or.inr (Option.some.inj hk).symm
    · cases hk
  · rw [if_neg hik] at hk
    exact Or.inl ⟨k, fun h => hik h.symm, hk⟩

theorem tc_linked_grow (heap : List tc_page) (tail_node new_page : tc_page)
    (hl : tc_linked heap) (hpos : 0 < heap.length) (hnew : new_page.next = some 0) :
    tc_linked (heap.set (heap.length - 1) { tail_node with next := some heap.length } ++
      [new_page]) := by
  intro i x hx
  have hlen : (heap.set (heap.length - 1) { tail_node with next := some heap.length } ++
      [new_page]).length = heap.length + 1 := by simp
  rw [hlen, if_neg (by omega)]
  by_cases hi : i < heap.length
  · rw [List.getElem?_append_left (by rw [List.length_set]; exact hi),
      List.getElem?_set] at hx
    by_cases hlast : heap.length - 1 = i
    · rw [if_pos hlast, if_pos (by omega)] at hx
      cases hx
      have : i + 1 = heap.length := by omega
      simp only [this]
      rw [Nat.mod_eq_of_lt (by omega)]
    · rw [if_neg hlast] at hx
      have h1 := tc_linked_next heap hl i x hx (by omega)
      rw [h1, Nat.mod_eq_of_lt (by omega)]
  · have hi2 : i = heap.length := by
      have := (List.getElem?_eq_some_iff.mp hx).1
      rw [hlen] at this
      omega
    subst hi2
    rw [List.getElem?_append_right (by rw [List.length_set]), List.length_set] at hx
    simp at hx
    rw [← hx, hnew]
    simp

theorem tc_table_set (s : TcState) (i : Nat) (node node1 : tc_page) (htable : TcTable s)
    (hi : s.heap[i]? = some node) (hnext : node1.next = node.next)
    (hpage : node1.page_number = node.page_number) :
    TcTable { s with heap := s.heap.set i node1 } := by
  obtain ⟨hpos, hcount, hhead, htail, hclock, hl, hnd⟩ := htable
  refine ⟨by simpa using hpos, by simpa using hcount, hhead, by simpa using htail,
    by simpa using hclock, tc_linked_set s.heap i node node1 hl hi hnext, ?_⟩
  simp only [List.map_set]
  rw [set_getElem?_self _ _ _ (by rw [List.getElem?_map, hi, hpage]; rfl)]
  exact hnd

theorem tc_step_found (cfg : Config) (fuel : Nat) (s : TcState) (log : List Event)
    (si_addr : Int) (hP : cfg.PAGE_SIZE ≠ 0) (hinv : TcInv cfg s log)
    (hfuel : s.heap.length ≤ fuel)
    (hmem : ∃ node ∈ s.heap, node.page_number = Int.tdiv si_addr cfg.PAGE_SIZE) :
    ∃ s1 evs, tc_handler cfg fuel s si_addr = Outcome.ok (s1, evs) ∧
      TcInv cfg s1 (log ++ evs) ∧
      ((AlreadyReported s (Int.tdiv si_addr cfg.PAGE_SIZE) ∧ logged_records evs = []) ∨
       (¬ AlreadyReported s (Int.tdiv si_addr cfg.PAGE_SIZE) ∧
         ∃ r, logged_records evs = [r] ∧
           FaultRecordFor (Int.tdiv si_addr cfg.PAGE_SIZE) r)) := by
  obtain ⟨hlen, hempty, hne, hnodes, hwbc⟩ := hinv
  obtain ⟨node, hnmem, hpage⟩ := hmem
  obtain ⟨i, hi⟩ := List.mem_iff_getElem?.mp hnmem
  have hilt : i < s.heap.length := (List.getElem?_eq_some_iff.mp hi).1
  have htable : TcTable s := hne (by intro h; rw [h] at hilt; simp at hilt)
  have hnd := htable.2.2.2.2.2.2
  have hh := tc_handler_found cfg fuel s si_addr i node hP htable hi hpage (by omega)
  obtain ⟨h5, hpos, hm⟩ := hnodes node hnmem
  have hother : ∀ x, (∃ k, k ≠ i ∧ s.heap[k]? = some x) →
      x ∈ s.heap ∧ x.page_number ≠ Int.tdiv si_addr cfg.PAGE_SIZE := by
    rintro x ⟨k, hki, hk⟩
    refine ⟨List.mem_iff_getElem?.mpr ⟨k, hk⟩, ?_⟩
    intro hx
    exact hki (pages_index_inj s.heap hnd k i x node hk hi (by rw [hx, hpage]))
  have hnotrep : (node.flag = PROT_NONE ∨ node.m ≠ 1) →
      ¬ AlreadyReported s (Int.tdiv si_addr cfg.PAGE_SIZE) := by
    rintro hor ⟨y, hy, hyp, hyf, hym⟩
    obtain ⟨k, hk⟩ := List.mem_iff_getElem?.mp hy
    have hki := pages_index_inj s.heap hnd k i y node hk hi (by rw [hyp, hpage])
    subst hki
    rw [hi] at hk
    have := Option.some.inj hk
    subst this
    rcases hor with h | h
    · exact hyf h
    · exact h hym
  by_cases hflag : node.flag = PROT_NONE
  · -- reference reacquire
    have hhit : tc_hit cfg (Int.tdiv si_addr cfg.PAGE_SIZE) (Int.tmod si_addr cfg.PAGE_SIZE)
        s.heap i node =
        (s.heap.set i { node with r := 1, flag := PROT_READ },
         [Event.mprotect (cfg.PAGE_SIZE * Int.tdiv si_addr cfg.PAGE_SIZE) cfg.PAGE_SIZE
            PROT_READ] ++
         [Event.mm_logger (Int.tdiv si_addr cfg.PAGE_SIZE) 2 (-1) 0
            (to_unsigned (node.place_in_pm * cfg.PAGE_SIZE +
              Int.tmod si_addr cfg.PAGE_SIZE))]) := by
      simp [tc_hit, hflag]
    rw [hhit] at hh
    refine ⟨_, _, hh, ⟨by simpa using hlen, ?_, ?_, ?_, ?_⟩,
      Or.inr ⟨hnotrep (Or.inl hflag), _, rfl,
        ⟨2, -1, 0, _, rfl, by simp, le_refl _, Or.inl rfl⟩⟩⟩
    · intro h
      have := congrArg List.length h
      simp only [List.length_set, List.length_nil] at this
      omega
    · intro _
      exact tc_table_set s i node _ htable hi rfl rfl
    · intro x hx
      have hw : ∀ p, WrittenSinceAdmission p (log ++
          ([Event.mprotect (cfg.PAGE_SIZE * Int.tdiv si_addr cfg.PAGE_SIZE) cfg.PAGE_SIZE
            PROT_READ] ++
          [Event.mm_logger (Int.tdiv si_addr cfg.PAGE_SIZE) 2 (-1) 0
            (to_unsigned (node.place_in_pm * cfg.PAGE_SIZE +
              Int.tmod si_addr cfg.PAGE_SIZE))])) ↔ WrittenSinceAdmission p log := by
        intro p
        rw [written_step p log _ _ (by simp [logged_records, is_record])]
        simp [is_first_write, is_admission]
      rcases mem_set_cases s.heap i _ x hx with hk | hk
      · obtain ⟨hxm, _⟩ := hother x hk
        obtain ⟨a, b, c⟩ := hnodes x hxm
        exact ⟨a, b, by rw [hw]; exact c⟩
      · subst hk
        refine ⟨?_, hpos, by rw [hw]; exact hm⟩
        unfold five_state at h5 ⊢
        rcases h5 with ⟨_, h2⟩ | ⟨_, h2⟩ | ⟨_, h2⟩ | ⟨_, h2⟩ | ⟨_, h2⟩ <;> simp [h2]
    · apply write_back_correct_step log _ _ hwbc (by simp [logged_records, is_record])
      intro vp c p wb pa h hp
      simp only [Event.mm_logger.injEq] at h
      exact absurd h.2.2.1.symm hp
  · by_cases hm0 : node.m = 0
    · -- first write
      have hhit : tc_hit cfg (Int.tdiv si_addr cfg.PAGE_SIZE)
          (Int.tmod si_addr cfg.PAGE_SIZE) s.heap i node =
          (s.heap.set i { node with r := 1, m := 1, flag := PROT_READ_WRITE },
           [Event.mprotect (cfg.PAGE_SIZE * Int.tdiv si_addr cfg.PAGE_SIZE) cfg.PAGE_SIZE
              PROT_READ_WRITE] ++
           [Event.mm_logger (Int.tdiv si_addr cfg.PAGE_SIZE) 1 (-1) 0
              (to_unsigned (node.place_in_pm * cfg.PAGE_SIZE +
                Int.tmod si_addr cfg.PAGE_SIZE))]) := by
        simp [tc_hit, hflag, hm0]
      rw [hhit] at hh
      refine ⟨_, _, hh, ⟨by simpa using hlen, ?_, ?_, ?_, ?_⟩,
        Or.inr ⟨hnotrep (Or.inr (by rw [hm0]; decide)), _, rfl,
          ⟨1, -1, 0, _, rfl, by simp, le_refl _, Or.inl rfl⟩⟩⟩
      · intro h
        have := congrArg List.length h
        simp only [List.length_set, List.length_nil] at this
        omega
      · intro _
        exact tc_table_set s i node _ htable hi rfl rfl
      · intro x hx
        have hw : ∀ p, WrittenSinceAdmission p (log ++
            ([Event.mprotect (cfg.PAGE_SIZE * Int.tdiv si_addr cfg.PAGE_SIZE) cfg.PAGE_SIZE
              PROT_READ_WRITE] ++
            [Event.mm_logger (Int.tdiv si_addr cfg.PAGE_SIZE) 1 (-1) 0
              (to_unsigned (node.place_in_pm * cfg.PAGE_SIZE +
                Int.tmod si_addr cfg.PAGE_SIZE))])) ↔
            (Int.tdiv si_addr cfg.PAGE_SIZE = p ∨ WrittenSinceAdmission p log) := by
          intro p
          rw [written_step p log _ _ (by simp [logged_records, is_record])]
          simp [is_first_write, is_admission]
        rcases mem_set_cases s.heap i _ x hx with hk | hk
        · obtain ⟨hxm, hxp⟩ := hother x hk
          obtain ⟨a, b, c⟩ := hnodes x hxm
          refine ⟨a, b, ?_⟩
          rw [hw, c]
          constructor
          · exact fun h => Or.inr h
          · rintro (h | h)
            · exact absurd h.symm hxp
            · exact h
        · subst hk
          refine ⟨?_, hpos, ?_⟩
          · unfold five_state
            simp
          · rw [hw]
            simp [hpage]
      · apply write_back_correct_step log _ _ hwbc (by simp [logged_records, is_record])
        intro vp c p wb pa h hp
        simp only [Event.mm_logger.injEq] at h
        exact absurd h.2.2.1.symm hp
    · -- write to a page already reported as written
      have hm1 : node.m = 1 := by
        unfold five_state at h5
        rcases h5 with ⟨_, h2⟩ | ⟨_, h2⟩ | ⟨_, h2⟩ | ⟨_, h2⟩ | ⟨_, h2⟩
        · exact absurd h2 hm0
        · exact absurd h2 hm0
        · exact h2
        · exact h2
        · exact h2
      have hhit : tc_hit cfg (Int.tdiv si_addr cfg.PAGE_SIZE)
          (Int.tmod si_addr cfg.PAGE_SIZE) s.heap i node =
          (s.heap.set i { node with r := 1, m := 1, flag := PROT_READ_WRITE },
           [Event.mprotect (cfg.PAGE_SIZE * Int.tdiv si_addr cfg.PAGE_SIZE) cfg.PAGE_SIZE
              PROT_READ_WRITE]) := by
        simp [tc_hit, hflag, hm0]
      rw [hhit] at hh
      have hquiet : logged_records
          [Event.mprotect (cfg.PAGE_SIZE * Int.tdiv si_addr cfg.PAGE_SIZE) cfg.PAGE_SIZE
              PROT_READ_WRITE] = [] := by simp [logged_records, is_record]
      refine ⟨_, _, hh, ⟨by simpa using hlen, ?_, ?_, ?_, ?_⟩,
        Or.inl ⟨⟨node, hnmem, hpage, hflag, hm1⟩, by simp [logged_records, is_record]⟩⟩
      · intro h
        have := congrArg List.length h
        simp only [List.length_set, List.length_nil] at this
        omega
      · intro _
        exact tc_table_set s i node _ htable hi rfl rfl
      · intro x hx
        rcases mem_set_cases s.heap i _ x hx with hk | hk
        · obtain ⟨hxm, _⟩ := hother x hk
          obtain ⟨a, b, c⟩ := hnodes x hxm
          exact ⟨a, b, by rw [written_quiet _ _ _ hquiet]; exact c⟩
        · subst hk
          refine ⟨?_, hpos, ?_⟩
          · unfold five_state
            simp
          · rw [written_quiet _ _ _ hquiet]
            simp only [true_iff]
            exact hm.mp hm1
      · exact write_back_correct_quiet log _ hwbc hquiet

theorem nodeok_admit_other (log quiet : List Event) (virt_page ev wb pa : Int) (x : tc_page)
    (hq : logged_records quiet = []) (hx : NodeOK log x)
    (hne : x.page_number ≠ virt_page) :
    NodeOK (log ++ (quiet ++ [Event.mm_logger virt_page 0 ev wb pa])) x := by
  obtain ⟨a, b, c⟩ := hx
  refine ⟨a, b, ?_⟩
  rw [written_step _ log quiet _ hq, c]
  have hne2 : ¬ virt_page = x.page_number := fun h => hne h.symm
  simp [is_first_write, is_admission, hne2]

theorem nodeok_admit_new (log quiet : List Event) (virt_page ev wb pa : Int) (x : tc_page)
    (hq : logged_records quiet = []) (hpage : x.page_number = virt_page)
    (hvp : 0 ≤ virt_page) (hr : x.r = 1) (hm : x.m = 0) :
    NodeOK (log ++ (quiet ++ [Event.mm_logger virt_page 0 ev wb pa])) x := by
  refine ⟨Or.inr (Or.inl ⟨hr, hm⟩), by rw [hpage]; exact hvp, ?_⟩
  rw [written_step _ log quiet _ hq, hm, hpage]
  simp [is_first_write, is_admission]

theorem nodeok_congr (log : List Event) (x y : tc_page) (hy : NodeOK log y)
    (hp : x.page_number = y.page_number) (hr : x.r = y.r) (hm : x.m = y.m) :
    NodeOK log x := by
  unfold NodeOK five_state at hy ⊢
  rw [hp, hr, hm]
  exact hy

theorem tc_step_miss_below (cfg : Config) (fuel : Nat) (s : TcState) (log : List Event)
    (si_addr : Int) (hP : cfg.PAGE_SIZE ≠ 0) (hinv : TcInv cfg s log)
    (hfuel : s.heap.length ≤ fuel)
    (hvp : 0 ≤ Int.tdiv si_addr cfg.PAGE_SIZE)
    (hmiss : ∀ node ∈ s.heap, node.page_number ≠ Int.tdiv si_addr cfg.PAGE_SIZE)
    (hlt : (s.heap.length : Int) < cfg.N_FRAMES) :
    ∃ s1 evs, tc_handler cfg fuel s si_addr = Outcome.ok (s1, evs) ∧
      TcInv cfg s1 (log ++ evs) ∧
      ((AlreadyReported s (Int.tdiv si_addr cfg.PAGE_SIZE) ∧ logged_records evs = []) ∨
       (¬ AlreadyReported s (Int.tdiv si_addr cfg.PAGE_SIZE) ∧
         ∃ r, logged_records evs = [r] ∧
           FaultRecordFor (Int.tdiv si_addr cfg.PAGE_SIZE) r)) := by
  obtain ⟨hlen, hempty, hne, hnodes, hwbc⟩ := hinv
  by_cases hnil : s.heap = []
  · have hs := hempty hnil
    subst hs
    have hN : 0 < cfg.N_FRAMES := by simpa [tc_init] using hlt
    have hh := tc_handler_miss cfg fuel tc_init si_addr hP (Or.inl rfl) hmiss
    rw [tc_miss_first cfg fuel _ _ hN] at hh
    have hq : logged_records
        [Event.mprotect (cfg.PAGE_SIZE * Int.tdiv si_addr cfg.PAGE_SIZE) cfg.PAGE_SIZE
          PROT_READ] = [] := by simp [logged_records, is_record]
    refine ⟨_, _, hh, ⟨?_, ?_, ?_, ?_, ?_⟩,
      Or.inr ⟨fun ⟨y, hy, hyp, _⟩ => hmiss y hy hyp, _, rfl,
        ⟨0, -1, 0, _, rfl, by simp, le_refl _, Or.inl rfl⟩⟩⟩
    · simp only [List.length_singleton, Nat.cast_one]
      omega
    · intro h; simp at h
    · intro _
      refine ⟨by simp, by simp, rfl, rfl, ⟨0, by simp, rfl⟩, ?_, by simp⟩
      intro i x hx
      cases i with
      | zero => simp at hx; subst hx; simp [create_tc_page]
      | succ i => simp at hx
    · intro x hx
      simp only [List.mem_singleton] at hx
      subst hx
      exact nodeok_admit_new log _ _ _ _ _ _ hq rfl hvp rfl rfl
    · exact write_back_correct_step log _ _ hwbc hq
        (by
          intro vp c p wb pa h hp
          simp only [Event.mm_logger.injEq] at h
          exact absurd h.2.2.1.symm hp)
  · have htable := hne hnil
    obtain ⟨hpos, hcount, hhead, htail, ⟨c, hc, hclock⟩, hl, hnd⟩ := htable
    have hh := tc_handler_miss cfg fuel s si_addr hP (Or.inr ⟨hne hnil, hfuel⟩) hmiss
    obtain ⟨tail_node, htn, hmiss1⟩ :=
      tc_miss_below cfg fuel s (Int.tdiv si_addr cfg.PAGE_SIZE)
        (Int.tmod si_addr cfg.PAGE_SIZE) (hne hnil) (by rw [hcount]; exact hlt)
    rw [hmiss1] at hh
    have hq : logged_records
        [Event.mprotect (cfg.PAGE_SIZE * Int.tdiv si_addr cfg.PAGE_SIZE) cfg.PAGE_SIZE
          PROT_READ] = [] := by simp [logged_records, is_record]
    have hvpmem : Int.tdiv si_addr cfg.PAGE_SIZE ∉ s.heap.map tc_page.page_number := by
      intro h
      obtain ⟨x, hx, hxp⟩ := List.mem_map.mp h
      exact hmiss x hx hxp
    refine ⟨_, _, hh, ⟨?_, ?_, ?_, ?_, ?_⟩,
      Or.inr ⟨fun ⟨y, hy, hyp, _⟩ => hmiss y hy hyp, _, rfl,
        ⟨0, -1, 0, _, rfl, by simp, le_refl _, Or.inl rfl⟩⟩⟩
    · simp only [List.length_append, List.length_set, List.length_singleton]
      push_cast
      omega
    · intro h; simp at h
    · intro _
      refine ⟨by simp, ?_, rfl, by simp, ⟨c, by simp; omega, hclock⟩, ?_, ?_⟩
      · simp only [List.length_append, List.length_set, List.length_singleton, hcount]
        push_cast; ring
      · exact tc_linked_grow s.heap tail_node _ hl hpos rfl
      · simp only [List.map_append, List.map_set, List.map_cons, List.map_nil]
        rw [set_getElem?_self _ _ _ (by rw [List.getElem?_map, htn]; rfl)]
        rw [List.nodup_append]
        refine ⟨hnd, by simp, ?_⟩
        intro a ha hb
        simp only [List.mem_singleton, create_tc_page] at hb
        subst hb
        exact hvpmem ha
    · intro x hx
      rcases List.mem_append.mp hx with hx1 | hx1
      · rcases mem_set_cases _ _ _ _ hx1 with ⟨k, _, hk⟩ | hk
        · have hxm : x ∈ s.heap := List.mem_iff_getElem?.mpr ⟨k, hk⟩
          exact nodeok_admit_other log _ _ _ _ _ x hq (hnodes x hxm) (hmiss x hxm)
        · have htm : tail_node ∈ s.heap := List.mem_iff_getElem?.mpr ⟨_, htn⟩
          subst hk
          exact nodeok_admit_other log _ _ _ _ _ _ hq
            (nodeok_congr log _ tail_node (hnodes tail_node htm) rfl rfl rfl)
            (hmiss tail_node htm)
      · simp only [List.mem_singleton] at hx1
        subst hx1
        exact nodeok_admit_new log _ _ _ _ _ _ hq rfl hvp rfl rfl
    · exact write_back_correct_step log _ _ hwbc hq
        (by
          intro vp c p wb pa h hp
          simp only [Event.mm_logger.injEq] at h
          exact absurd h.2.2.1.symm hp)

theorem tc_step_miss_full (cfg : Config) (fuel : Nat) (s : TcState) (log : List Event)
    (si_addr : Int) (hP : cfg.PAGE_SIZE ≠ 0) (hN : 2 ≤ cfg.N_FRAMES)
    (hinv : TcInv cfg s log) (hfuel : 2 * s.heap.length < fuel)
    (hvp : 0 ≤ Int.tdiv si_addr cfg.PAGE_SIZE)
    (hmiss : ∀ node ∈ s.heap, node.page_number ≠ Int.tdiv si_addr cfg.PAGE_SIZE)
    (hfull : ¬ (s.heap.length : Int) < cfg.N_FRAMES) :
    ∃ s1 evs, tc_handler cfg fuel s si_addr = Outcome.ok (s1, evs) ∧
      TcInv cfg s1 (log ++ evs) ∧
      ((AlreadyReported s (Int.tdiv si_addr cfg.PAGE_SIZE) ∧ logged_records evs = []) ∨
       (¬ AlreadyReported s (Int.tdiv si_addr cfg.PAGE_SIZE) ∧
         ∃ r, logged_records evs = [r] ∧
           FaultRecordFor (Int.tdiv si_addr cfg.PAGE_SIZE) r)) := by
  obtain ⟨hlen, hempty, hne, hnodes, hwbc⟩ := hinv
  have hn : 2 ≤ s.heap.length := by omega
  have hnil : s.heap ≠ [] := by
    intro h; rw [h] at hn; simp at hn
  have htable := hne hnil
  obtain ⟨hpos, hcount, hhead, htail, ⟨c, hc, hclock⟩, hl, hnd⟩ := htable
  have hh := tc_handler_miss cfg fuel s si_addr hP (Or.inr ⟨hne hnil, by omega⟩) hmiss
  obtain ⟨t1, e, evict, scan_events, visited, _, hevict, hevictable, hid, h5', hlog, _, _,
      _, hmiss1⟩ :=
    tc_miss_full cfg fuel s (Int.tdiv si_addr cfg.PAGE_SIZE) (Int.tmod si_addr cfg.PAGE_SIZE)
      c (hne hnil) hclock hn (by rw [hcount]; exact hfull)
      (fun x hx => (hnodes x hx).1) hfuel
  have hreassoc : Event.mprotect (cfg.PAGE_SIZE * Int.tdiv si_addr cfg.PAGE_SIZE)
        cfg.PAGE_SIZE PROT_READ :: scan_events ++
        [Event.mprotect (cfg.PAGE_SIZE * evict.page_number) cfg.PAGE_SIZE PROT_NONE,
         Event.mm_logger (Int.tdiv si_addr cfg.PAGE_SIZE) 0 evict.page_number evict.m
           (to_unsigned (evict.place_in_pm * cfg.PAGE_SIZE +
             Int.tmod si_addr cfg.PAGE_SIZE))] =
      (Event.mprotect (cfg.PAGE_SIZE * Int.tdiv si_addr cfg.PAGE_SIZE)
        cfg.PAGE_SIZE PROT_READ :: scan_events ++
        [Event.mprotect (cfg.PAGE_SIZE * evict.page_number) cfg.PAGE_SIZE PROT_NONE]) ++
       [Event.mm_logger (Int.tdiv si_addr cfg.PAGE_SIZE) 0 evict.page_number evict.m
           (to_unsigned (evict.place_in_pm * cfg.PAGE_SIZE +
             Int.tmod si_addr cfg.PAGE_SIZE))] := by simp
  rw [hmiss1, hreassoc] at hh
  have hq : logged_records (Event.mprotect (cfg.PAGE_SIZE * Int.tdiv si_addr cfg.PAGE_SIZE)
        cfg.PAGE_SIZE PROT_READ :: scan_events ++
        [Event.mprotect (cfg.PAGE_SIZE * evict.page_number) cfg.PAGE_SIZE PROT_NONE]) = [] := by
    unfold logged_records at hlog ⊢
    simp [List.filter_cons, List.filter_append, is_record, hlog]
  have hlen1 : t1.length = s.heap.length := identity_length s.heap t1 hid
  have hl1 : tc_linked t1 := tc_linked_of_identity s.heap t1 hid hl
  have hold : ∀ (k : Nat) (x : tc_page), t1[k]? = some x → NodeOK log x ∧
      x.page_number ≠ Int.tdiv si_addr cfg.PAGE_SIZE := by
    intro k x hk
    obtain ⟨y, hy, hyx⟩ := identity_getElem? s.heap t1 hid k x hk
    have hym : y ∈ s.heap := List.mem_iff_getElem?.mpr ⟨k, hy⟩
    have hp : x.page_number = y.page_number := by
      have := congrArg (fun z => z.1) hyx
      simpa [page_identity] using this.symm
    have hm : x.m = y.m := by
      have := congrArg (fun z => z.2.2.1) hyx
      simpa [page_identity] using this.symm
    obtain ⟨_, b, cc⟩ := hnodes y hym
    refine ⟨⟨h5' x (List.mem_iff_getElem?.mpr ⟨k, hk⟩), by rw [hp]; exact b,
      by rw [hp, hm]; exact cc⟩, ?_⟩
    rw [hp]; exact hmiss y hym
  have helt : e < t1.length := (List.getElem?_eq_some_iff.mp hevict).1
  have hrec : logged_records
      ((Event.mprotect (cfg.PAGE_SIZE * Int.tdiv si_addr cfg.PAGE_SIZE)
        cfg.PAGE_SIZE PROT_READ :: scan_events ++
        [Event.mprotect (cfg.PAGE_SIZE * evict.page_number) cfg.PAGE_SIZE PROT_NONE]) ++
       [Event.mm_logger (Int.tdiv si_addr cfg.PAGE_SIZE) 0 evict.page_number evict.m
           (to_unsigned (evict.place_in_pm * cfg.PAGE_SIZE +
             Int.tmod si_addr cfg.PAGE_SIZE))]) =
      [Event.mm_logger (Int.tdiv si_addr cfg.PAGE_SIZE) 0 evict.page_number evict.m
           (to_unsigned (evict.place_in_pm * cfg.PAGE_SIZE +
             Int.tmod si_addr cfg.PAGE_SIZE))] := by
    unfold logged_records at hq ⊢
    rw [List.filter_append, hq]
    simp [is_record]
  refine ⟨_, _, hh, ⟨by simpa [hlen1] using hlen, ?_, ?_, ?_, ?_⟩,
    Or.inr ⟨fun ⟨y, hy, hyp, _⟩ => hmiss y hy hyp, _, hrec,
      ⟨0, evict.page_number, evict.m, _, rfl, by simp, ?_, ?_⟩⟩⟩
  · intro h
    have := congrArg List.length h
    simp only [List.length_set, List.length_nil] at this
    omega
  · intro _
    refine ⟨by simp only [List.length_set]; omega,
      by simp only [List.length_set, hlen1]; exact hcount, hhead,
      by simp only [List.length_set, hlen1]; exact htail,
      ⟨(e + 1) % s.heap.length,
        by simp only [List.length_set, hlen1]; exact Nat.mod_lt _ hpos, rfl⟩,
      tc_linked_set t1 e evict _ hl1 hevict rfl, ?_⟩
    simp only [List.map_set]
    apply List.Nodup.set
    · rw [identity_pages s.heap t1 hid]; exact hnd
    · rw [identity_pages s.heap t1 hid]
      intro h
      obtain ⟨x, hx, hxp⟩ := List.mem_map.mp h
      exact hmiss x hx hxp
  · intro x hx
    rcases mem_set_cases _ _ _ _ hx with ⟨k, _, hk⟩ | hk
    · obtain ⟨h1, h2⟩ := hold k x hk
      exact nodeok_admit_other log _ _ _ _ _ x hq h1 h2
    · subst hk
      exact nodeok_admit_new log _ _ _ _ _ _ hq rfl hvp rfl rfl
  · apply write_back_correct_step log _ _ hwbc hq
    intro vp cause p wb pa h _
    simp only [Event.mm_logger.injEq] at h
    obtain ⟨_, _, hp, hwb, _⟩ := h
    subst hp hwb
    obtain ⟨⟨_, _, hm⟩, _⟩ := hold e evict hevict
    refine ⟨hm, ?_⟩
    rcases hevictable with ⟨_, h2⟩ | ⟨_, h2⟩
    · exact Or.inl h2
    · exact Or.inr h2
  · have := (hold e evict hevict).1.2.1
    omega
  · rcases hevictable with ⟨_, h2⟩ | ⟨_, h2⟩
    · exact Or.inl h2
    · exact Or.inr h2

theorem tc_inv_init (cfg : Config) (hN : 0 ≤ cfg.N_FRAMES) : TcInv cfg tc_init [] := by
  refine ⟨by simpa [tc_init] using hN, fun _ => rfl, fun h => absurd rfl h,
    by simp [tc_init], write_back_correct_nil⟩

theorem tc_step (cfg : Config) (fuel : Nat) (s : TcState) (log : List Event) (si_addr : Int)
    (hN : 2 ≤ cfg.N_FRAMES) (hP : 0 < cfg.PAGE_SIZE) (haddr : 0 ≤ si_addr)
    (hfuel : 2 * cfg.N_FRAMES < (fuel : Int)) (hinv : TcInv cfg s log) :
    ∃ s1 evs, tc_handler cfg fuel s si_addr = Outcome.ok (s1, evs) ∧
      TcInv cfg s1 (log ++ evs) ∧
      ((AlreadyReported s (Int.tdiv si_addr cfg.PAGE_SIZE) ∧ logged_records evs = []) ∨
       (¬ AlreadyReported s (Int.tdiv si_addr cfg.PAGE_SIZE) ∧
         ∃ r, logged_records evs = [r] ∧
           FaultRecordFor (Int.tdiv si_addr cfg.PAGE_SIZE) r)) := by
  have hlen := hinv.1
  have hvp : 0 ≤ Int.tdiv si_addr cfg.PAGE_SIZE := Int.tdiv_nonneg haddr (le_of_lt hP)
  by_cases hmem : ∃ node ∈ s.heap, node.page_number = Int.tdiv si_addr cfg.PAGE_SIZE
  · exact tc_step_found cfg fuel s log si_addr (ne_of_gt hP) hinv (by omega) hmem
  · have hmiss : ∀ node ∈ s.heap, node.page_number ≠ Int.tdiv si_addr cfg.PAGE_SIZE :=
      fun x hx h => hmem ⟨x, hx, h⟩
    by_cases hlt : (s.heap.length : Int) < cfg.N_FRAMES
    · exact tc_step_miss_below cfg fuel s log si_addr (ne_of_gt hP) hinv (by omega) hvp
        hmiss hlt
    · exact tc_step_miss_full cfg fuel s log si_addr (ne_of_gt hP) hN hinv (by omega) hvp
        hmiss hlt

theorem tc_run_inv (cfg : Config) (fuel : Nat) (hN : 2 ≤ cfg.N_FRAMES)
    (hP : 0 < cfg.PAGE_SIZE) (hfuel : 2 * cfg.N_FRAMES < (fuel : Int)) (faults : List Int) :
    ∀ (s : TcState) (log : List Event), (∀ d ∈ faults, 0 ≤ d) → TcInv cfg s log →
      ∃ s1 evs, tc_run cfg fuel s faults = Outcome.ok (s1, evs) ∧
        TcInv cfg s1 (log ++ evs) := by
  induction faults with
  | nil =>
    intro s log _ hinv
    exact ⟨s, [], rfl, by simpa using hinv⟩
  | cons d ds ih =>
    intro s log hds hinv
    obtain ⟨s1, evs1, h1, hinv1, _⟩ :=
      tc_step cfg fuel s log d hN hP (hds d (List.mem_cons_self d ds)) hfuel hinv
    obtain ⟨s2, evs2, h2, hinv2⟩ :=
      ih s1 (log ++ evs1) (fun x hx => hds x (List.mem_cons_of_mem d hx)) hinv1
    refine ⟨s2, evs1 ++ evs2, ?_, by simpa [List.append_assoc] using hinv2⟩
    simp [tc_run, h1, h2]

/-! ### Third-Chance: the claims -/

/-- C4. Write-back correctness under Third-Chance: from the empty table, with at
least two frames, every run of faults is served; every record that evicts a page
`p` carries `write_back = 1` if and only if a record with cause 1 for `p` was
logged after the most recent admission of `p` and before the eviction; and a
further miss on the full table evicts a record that is in state (-1,1) with
`write_back = 1` when its page was written since admission, and in state (0,0)
with `write_back = 0` when it was not. -/
theorem tc_write_back_correct (cfg : Config) (fuel : Nat) (faults : List Int)
    (hN : 2 ≤ cfg.N_FRAMES) (hP : 0 < cfg.PAGE_SIZE)
    (hfuel : 2 * cfg.N_FRAMES < (fuel : Int)) (hfaults : ∀ d ∈ faults, 0 ≤ d) :
    ∃ s evs, tc_run cfg fuel tc_init faults = Outcome.ok (s, evs) ∧
      (∀ pre post virt_page cause p write_back phy_addr,
        evs = pre ++ Event.mm_logger virt_page cause p write_back phy_addr :: post →
        p ≠ -1 →
        ((write_back = 1 ↔
            ∃ pre1 w pre2, pre = pre1 ++ w :: pre2 ∧ is_first_write p w = true ∧
              ∀ e ∈ pre2, is_admission p e = false) ∧
          (write_back = 0 ∨ write_back = 1))) ∧
      (∀ d, 0 ≤ d → (∀ node ∈ s.heap, node.page_number ≠ Int.tdiv d cfg.PAGE_SIZE) →
        ¬ (s.heap.length : Int) < cfg.N_FRAMES →
        ∃ c t1 e evict s1 evs1 pa, s.clock_head = some c ∧
          SpecClockScan s.heap c t1 e evict.m ∧ t1[e]? = some evict ∧
          tc_handler cfg fuel s d = Outcome.ok (s1, evs1) ∧
          logged_records evs1 =
            [Event.mm_logger (Int.tdiv d cfg.PAGE_SIZE) 0 evict.page_number evict.m pa] ∧
          ((evict.r = -1 ∧ evict.m = 1 ∧ WrittenSinceAdmission evict.page_number evs) ∨
           (evict.r = 0 ∧ evict.m = 0 ∧ ¬ WrittenSinceAdmission evict.page_number evs))) := by
  obtain ⟨s, evs, hrun, hinv⟩ :=
    tc_run_inv cfg fuel hN hP hfuel faults tc_init [] hfaults
      (tc_inv_init cfg (by omega))
  simp only [List.nil_append] at hinv
  refine ⟨s, evs, hrun, hinv.2.2.2.2, ?_⟩
  intro d _ hmiss hfull
  obtain ⟨hlen, hempty, hne, hnodes, hwbc⟩ := hinv
  have hn : 2 ≤ s.heap.length := by omega
  have hnil : s.heap ≠ [] := by
    intro h; rw [h] at hn; simp at hn
  obtain ⟨hpos, hcount, hhead, htail, ⟨c, hc, hclock⟩, hl, hnd⟩ := hne hnil
  have hh := tc_handler_miss cfg fuel s d (ne_of_gt hP) (Or.inr ⟨hne hnil, by omega⟩) hmiss
  obtain ⟨t1, e, evict, scan_events, visited, hspec, hevict, hevictable, hid, h5', hlog, _,
      _, _, hmiss1⟩ :=
    tc_miss_full cfg fuel s (Int.tdiv d cfg.PAGE_SIZE) (Int.tmod d cfg.PAGE_SIZE)
      c (hne hnil) hclock hn (by rw [hcount]; exact hfull)
      (fun x hx => (hnodes x hx).1) (by omega)
  rw [hmiss1] at hh
  obtain ⟨y, hy, hyx⟩ := identity_getElem? s.heap t1 hid e evict hevict
  have hym : y ∈ s.heap := List.mem_iff_getElem?.mpr ⟨e, hy⟩
  have hp : evict.page_number = y.page_number := by
    have := congrArg (fun z => z.1) hyx
    simpa [page_identity] using this.symm
  have hm : evict.m = y.m := by
    have := congrArg (fun z => z.2.2.1) hyx
    simpa [page_identity] using this.symm
  obtain ⟨_, _, hw⟩ := hnodes y hym
  rw [← hp, ← hm] at hw
  refine ⟨c, t1, e, evict, _, _,
    to_unsigned (evict.place_in_pm * cfg.PAGE_SIZE + Int.tmod d cfg.PAGE_SIZE),
    hclock, hspec, hevict, hh, ?_, ?_⟩
  · unfold logged_records at hlog ⊢
    simp only [List.filter_cons, List.filter_append, hlog]
    simp [is_record]
  · rcases hevictable with ⟨h1, h2⟩ | ⟨h1, h2⟩
    · right
      refine ⟨h1, h2, ?_⟩
      rw [← hw, h2]
      decide
    · left
      exact ⟨h1, h2, hw.mp h2⟩

/-- Witness for C4: two frames, faults on pages 0, 0 (a write), 1, 2, 3. -/
theorem tc_write_back_correct_witness :
    ∃ s evs, tc_run { VM_SIZE := 32768, N_FRAMES := 2, PAGE_SIZE := 4096, POLICY := 2 } 5
        tc_init [0, 0, 4096, 8192, 12288] = Outcome.ok (s, evs) ∧
      (∀ pre post virt_page cause p write_back phy_addr,
        evs = pre ++ Event.mm_logger virt_page cause p write_back phy_addr :: post →
        p ≠ -1 →
        ((write_back = 1 ↔
            ∃ pre1 w pre2, pre = pre1 ++ w :: pre2 ∧ is_first_write p w = true ∧
              ∀ e ∈ pre2, is_admission p e = false) ∧
          (write_back = 0 ∨ write_back = 1))) ∧
      (∀ d, 0 ≤ d → (∀ node ∈ s.heap, node.page_number ≠ Int.tdiv d 4096) →
        ¬ (s.heap.length : Int) < 2 →
        ∃ c t1 e evict s1 evs1 pa, s.clock_head = some c ∧
          SpecClockScan s.heap c t1 e evict.m ∧ t1[e]? = some evict ∧
          tc_handler { VM_SIZE := 32768, N_FRAMES := 2, PAGE_SIZE := 4096, POLICY := 2 } 5
            s d = Outcome.ok (s1, evs1) ∧
          logged_records evs1 =
            [Event.mm_logger (Int.tdiv d 4096) 0 evict.page_number evict.m pa] ∧
          ((evict.r = -1 ∧ evict.m = 1 ∧ WrittenSinceAdmission evict.page_number evs) ∨
           (evict.r = 0 ∧ evict.m = 0 ∧ ¬ WrittenSinceAdmission evict.page_number evs))) :=
  tc_write_back_correct
    { VM_SIZE := 32768, N_FRAMES := 2, PAGE_SIZE := 4096, POLICY := 2 } 5
    [0, 0, 4096, 8192, 12288] (by decide) (by decide) (by decide) (by decide)

/-- C5. Third-Chance miss at capacity equals the transition table: on a full circular
table of at least two records, each in one of the five states, a fault on a page
that is not in the table makes `tc_handler` run the clock scan of the transition
table from the clock hand (`SpecClockScan`), overwrite the record the scan stops on
with the new page (reference 1, modified 0, permission READ, same frame index),
leave the hand on the following record, and log exactly one record
`(virtual_page, 0, evicted page, write_back, frame * page_size + offset)`. -/
theorem tc_miss_at_capacity (cfg : Config) (fuel : Nat) (s : TcState) (si_addr : Int)
    (c : Nat) (hP : cfg.PAGE_SIZE ≠ 0) (htable : TcTable s) (hclock : s.clock_head = some c)
    (hn : 2 ≤ s.heap.length) (hfull : (s.heap.length : Int) = cfg.N_FRAMES)
    (h5 : ∀ node ∈ s.heap, five_state node)
    (hmiss : ∀ node ∈ s.heap, node.page_number ≠ Int.tdiv si_addr cfg.PAGE_SIZE)
    (hfuel : 2 * s.heap.length < fuel)
    (hfit : ∀ node ∈ s.heap,
      0 ≤ node.place_in_pm * cfg.PAGE_SIZE + Int.tmod si_addr cfg.PAGE_SIZE ∧
      node.place_in_pm * cfg.PAGE_SIZE + Int.tmod si_addr cfg.PAGE_SIZE < 4294967296) :
    ∃ t1 e write_back evict evs,
      SpecClockScan s.heap c t1 e write_back ∧ t1[e]? = some evict ∧
      tc_handler cfg fuel s si_addr =
        Outcome.ok
          ({ s with
             heap := t1.set e { evict with page_number := Int.tdiv si_addr cfg.PAGE_SIZE,
                                           flag := PROT_READ, r := 1, m := 0 },
             clock_head := some ((e + 1) % s.heap.length) }, evs) ∧
      logged_records evs =
        [Event.mm_logger (Int.tdiv si_addr cfg.PAGE_SIZE) 0 evict.page_number write_back
          (evict.place_in_pm * cfg.PAGE_SIZE + Int.tmod si_addr cfg.PAGE_SIZE)] := by
  have hh := tc_handler_miss cfg fuel s si_addr hP (Or.inr ⟨htable, by omega⟩) hmiss
  obtain ⟨t1, e, evict, scan_events, visited, hspec, hevict, _, hid, _, hlog, _, _, _,
      hmiss1⟩ :=
    tc_miss_full cfg fuel s (Int.tdiv si_addr cfg.PAGE_SIZE) (Int.tmod si_addr cfg.PAGE_SIZE)
      c htable hclock hn (by rw [htable.2.1, hfull]; exact lt_irrefl _) h5 hfuel
  rw [hmiss1] at hh
  obtain ⟨y, hy, hyx⟩ := identity_getElem? s.heap t1 hid e evict hevict
  have hplace : evict.place_in_pm = y.place_in_pm := by
    have := congrArg (fun z => z.2.1) hyx
    simpa [page_identity] using this.symm
  obtain ⟨hf0, hf1⟩ := hfit y (List.mem_iff_getElem?.mpr ⟨e, hy⟩)
  rw [← hplace] at hf0 hf1
  refine ⟨t1, e, evict.m, evict, _, hspec, hevict, hh, ?_⟩
  unfold logged_records at hlog ⊢
  simp only [List.filter_cons, List.filter_append, hlog, to_unsigned_of_fits _ hf0 hf1]
  simp [is_record]

/-- Witness for C5 (the scenario of the claim): two frames, page size 4096, the
table reached by misses on pages 0 and 1, then a miss on page 2; the run logs
`(2, 0, 0, 0, 0)` for it. -/
theorem tc_miss_at_capacity_witness :
    (∃ t1 e write_back evict evs,
      SpecClockScan
        [{ page_number := 0, place_in_pm := 0, flag := 1, r := 1, m := 0, next := some 1 },
         { page_number := 1, place_in_pm := 1, flag := 1, r := 1, m := 0, next := some 0 }]
        0 t1 e write_back ∧ t1[e]? = some evict ∧
      tc_handler { VM_SIZE := 32768, N_FRAMES := 2, PAGE_SIZE := 4096, POLICY := 2 } 5
          { heap :=
              [{ page_number := 0, place_in_pm := 0, flag := 1, r := 1, m := 0,
                 next := some 1 },
               { page_number := 1, place_in_pm := 1, flag := 1, r := 1, m := 0,
                 next := some 0 }],
            tc_head := some 0, tc_tail := some 1, clock_head := some 0,
            pages_in_queue_tc := 2 } 8192 =
        Outcome.ok
          ({ heap := t1.set e { evict with page_number := 2, flag := PROT_READ,
                                           r := 1, m := 0 },
             tc_head := some 0, tc_tail := some 1, clock_head := some ((e + 1) % 2),
             pages_in_queue_tc := 2 }, evs) ∧
      logged_records evs =
        [Event.mm_logger 2 0 evict.page_number write_back
          (evict.place_in_pm * 4096 + 0)]) ∧
    tc_run { VM_SIZE := 32768, N_FRAMES := 2, PAGE_SIZE := 4096, POLICY := 2 } 5 tc_init
        [0, 4096, 8192] =
      Outcome.ok
        ({ heap :=
             [{ page_number := 2, place_in_pm := 0, flag := 1, r := 1, m := 0,
                next := some 1 },
              { page_number := 1, place_in_pm := 1, flag := 0, r := 0, m := 0,
                next := some 0 }],
           tc_head := some 0, tc_tail := some 1, clock_head := some 1,
           pages_in_queue_tc := 2 },
         [Event.mprotect 0 4096 1, Event.mm_logger 0 0 (-1) 0 0,
          Event.mprotect 4096 4096 1, Event.mm_logger 1 0 (-1) 0 4096,
          Event.mprotect 8192 4096 1, Event.mprotect 0 4096 0, Event.mprotect 4096 4096 0,
          Event.mprotect 0 4096 0, Event.mm_logger 2 0 0 0 0]) :=
  ⟨tc_miss_at_capacity
      { VM_SIZE := 32768, N_FRAMES := 2, PAGE_SIZE := 4096, POLICY := 2 } 5
      { heap :=
          [{ page_number := 0, place_in_pm := 0, flag := 1, r := 1, m := 0, next := some 1 },
           { page_number := 1, place_in_pm := 1, flag := 1, r := 1, m := 0, next := some 0 }],
        tc_head := some 0, tc_tail := some 1, clock_head := some 0,
        pages_in_queue_tc := 2 } 8192 0
      (by decide)
      ⟨by decide, rfl, rfl, rfl, ⟨0, by decide, rfl⟩,
        (by
          intro i node h
          match i with
          | 0 => simp at h; subst h; rfl
          | 1 => simp at h; subst h; rfl
          | i + 2 => simp at h),
        by decide⟩
      rfl (by decide) rfl
      (by
        intro node h
        simp only [List.mem_cons, List.mem_singleton, List.not_mem_nil, or_false] at h
        rcases h with h | h <;> subst h <;> simp [five_state])
      (by decide) (by decide) (by decide),
    by decide⟩

/-- C6. Third-Chance termination: on a full circular table of at least two records,
each in one of the five states, and from every position of the clock hand, the
clock scan of `tc_handler` ends on an evictable record; the hand advances at most
`2 * n` times and passes over each record at most twice before the scan stops. -/
theorem tc_clock_scan_bounded (cfg : Config) (fuel : Nat) (heap : List tc_page) (c : Nat)
    (hl : tc_linked heap) (hn : 2 ≤ heap.length) (h5 : ∀ node ∈ heap, five_state node)
    (hc : c < heap.length) (hfuel : 2 * heap.length < fuel) :
    ∃ res e evict, tc_clock_scan cfg fuel heap (some c) = Outcome.ok res ∧
      res.clock_head = some e ∧ res.heap[e]? = some evict ∧ evictable evict ∧
      res.visited.length ≤ 2 * heap.length ∧ ∀ i, res.visited.count i ≤ 2 := by
  obtain ⟨nodec, hnodec⟩ : ∃ node, heap[c]? = some node :=
    ⟨heap[c], List.getElem?_eq_getElem hc⟩
  have hkey : hand_distance heap.length c c + heap.length * chances nodec ≤
      2 * heap.length := by
    have h2 := chances_le_two nodec
    have : heap.length * chances nodec ≤ heap.length * 2 := Nat.mul_le_mul_left _ h2
    simp only [hand_distance, le_refl, if_true, Nat.sub_self]
    omega
  obtain ⟨res, hres, hvis⟩ :=
    tc_clock_scan_terminates cfg fuel heap c c nodec hl hn h5 hc hnodec (by omega)
  obtain ⟨e, he, hspec, _, hcount⟩ := tc_clock_scan_sound cfg fuel heap c res hl hn h5 hc hres
  obtain ⟨_, ⟨evict, hevict, hevictable, _⟩, _⟩ :=
    spec_clock_scan_facts heap c res.heap e res.write_back hspec
  refine ⟨res, e, evict, hres, he, hevict, hevictable, by omega, ?_⟩
  intro i
  have h1 := hcount i
  have h2 := chances_at_le_two heap i
  omega

/-- Witness for C6: three records, all in state (1,1), hand on the second one. -/
theorem tc_clock_scan_bounded_witness :
    ∃ res e evict,
      tc_clock_scan { VM_SIZE := 32768, N_FRAMES := 3, PAGE_SIZE := 4096, POLICY := 2 } 7
        [{ page_number := 0, place_in_pm := 0, flag := 3, r := 1, m := 1, next := some 1 },
         { page_number := 1, place_in_pm := 1, flag := 3, r := 1, m := 1, next := some 2 },
         { page_number := 2, place_in_pm := 2, flag := 3, r := 1, m := 1, next := some 0 }]
        (some 1) = Outcome.ok res ∧
      res.clock_head = some e ∧ res.heap[e]? = some evict ∧ evictable evict ∧
      res.visited.length ≤ 2 * 3 ∧ ∀ i, res.visited.count i ≤ 2 :=
  tc_clock_scan_bounded
    { VM_SIZE := 32768, N_FRAMES := 3, PAGE_SIZE := 4096, POLICY := 2 } 7
    [{ page_number := 0, place_in_pm := 0, flag := 3, r := 1, m := 1, next := some 1 },
     { page_number := 1, place_in_pm := 1, flag := 3, r := 1, m := 1, next := some 2 },
     { page_number := 2, place_in_pm := 2, flag := 3, r := 1, m := 1, next := some 0 }] 1
    (by
      intro i node h
      match i with
      | 0 => simp at h; subst h; rfl
      | 1 => simp at h; subst h; rfl
      | 2 => simp at h; subst h; rfl
      | i + 3 => simp at h)
    (by decide)
    (by
      intro node h
      simp only [List.mem_cons, List.mem_singleton, List.not_mem_nil, or_false] at h
      rcases h with h | h | h <;> subst h <;> simp [five_state])
    (by decide) (by decide)

/-- With at least two frames the clock hand is live: after every run from the empty
table, if the table is not empty the hand is the address of one of its nodes. -/
theorem tc_clock_hand_live (cfg : Config) (fuel : Nat) (faults : List Int)
    (hN : 2 ≤ cfg.N_FRAMES) (hP : 0 < cfg.PAGE_SIZE)
    (hfuel : 2 * cfg.N_FRAMES < (fuel : Int)) (hfaults : ∀ d ∈ faults, 0 ≤ d) :
    ∃ s evs, tc_run cfg fuel tc_init faults = Outcome.ok (s, evs) ∧
      (s.heap ≠ [] → ∃ c node, s.clock_head = some c ∧ s.heap[c]? = some node) := by
  obtain ⟨s, evs, hrun, hinv⟩ :=
    tc_run_inv cfg fuel hN hP hfuel faults tc_init [] hfaults
      (tc_inv_init cfg (by omega))
  refine ⟨s, evs, hrun, ?_⟩
  intro hne
  obtain ⟨_, _, _, _, ⟨c, hc, hclock⟩, _, _⟩ := hinv.2.2.1 hne
  exact ⟨c, s.heap[c], hclock, List.getElem?_eq_getElem hc⟩

/-- C7 at one frame. With `N_FRAMES = 1`, a miss on page 0 followed by a miss on
page 1: the only node was made by `create_tc_page`, so its `next` is `NULL`; the
clock scan of the second fault demotes it, moves the hand to `NULL` and
dereferences it.  With any fuel that lets the scan take its two iterations, the
run ends in a crash. -/
theorem tc_single_frame_null_hand :
    tc_run { VM_SIZE := 8192, N_FRAMES := 1, PAGE_SIZE := 4096, POLICY := 2 } 1 tc_init [0] =
      Outcome.ok
        ({ heap := [{ page_number := 0, place_in_pm := 0, flag := PROT_READ, r := 1, m := 0,
                      next := none }],
           tc_head := some 0, tc_tail := some 0, clock_head := some 0,
           pages_in_queue_tc := 1 },
         [Event.mprotect 0 4096 PROT_READ, Event.mm_logger 0 0 (-1) 0 0]) ∧
    ∀ fuel : Nat,
      tc_run { VM_SIZE := 8192, N_FRAMES := 1, PAGE_SIZE := 4096, POLICY := 2 } (fuel + 2)
        tc_init [0, 4096] = Outcome.crash := by
  refine ⟨by decide, ?_⟩
  intro fuel
  rfl

/-- C8 as stated fails: two frames, page size 4096, after the faults on pages
0, 0, 1, 2, 0 page 0 is resident with permission READ and modified = 1; a write to
it faults, and `tc_handler` serves the fault without calling `mm_logger`. -/
theorem tc_fault_without_record :
    tc_run { VM_SIZE := 32768, N_FRAMES := 2, PAGE_SIZE := 4096, POLICY := 2 } 5 tc_init
        [0, 0, 4096, 8192, 0] =
      Outcome.ok
        ({ heap :=
             [{ page_number := 0, place_in_pm := 0, flag := PROT_READ, r := 1, m := 1,
                next := some 1 },
              { page_number := 2, place_in_pm := 1, flag := PROT_READ, r := 1, m := 0,
                next := some 0 }],
           tc_head := some 0, tc_tail := some 1, clock_head := some 0,
           pages_in_queue_tc := 2 },
         [Event.mprotect 0 4096 1, Event.mm_logger 0 0 (-1) 0 0,
          Event.mprotect 0 4096 3, Event.mm_logger 0 1 (-1) 0 0,
          Event.mprotect 4096 4096 1, Event.mm_logger 1 0 (-1) 0 4096,
          Event.mprotect 8192 4096 1, Event.mprotect 0 4096 0, Event.mprotect 4096 4096 0,
          Event.mprotect 4096 4096 0, Event.mm_logger 2 0 1 0 4096,
          Event.mprotect 0 4096 1, Event.mm_logger 0 2 (-1) 0 0]) ∧
    tc_handler { VM_SIZE := 32768, N_FRAMES := 2, PAGE_SIZE := 4096, POLICY := 2 } 5
        { heap :=
            [{ page_number := 0, place_in_pm := 0, flag := PROT_READ, r := 1, m := 1,
               next := some 1 },
             { page_number := 2, place_in_pm := 1, flag := PROT_READ, r := 1, m := 0,
               next := some 0 }],
          tc_head := some 0, tc_tail := some 1, clock_head := some 0,
          pages_in_queue_tc := 2 } 0 =
      Outcome.ok
        ({ heap :=
             [{ page_number := 0, place_in_pm := 0, flag := PROT_READ_WRITE, r := 1, m := 1,
                next := some 1 },
              { page_number := 2, place_in_pm := 1, flag := PROT_READ, r := 1, m := 0,
                next := some 0 }],
           tc_head := some 0, tc_tail := some 1, clock_head := some 0,
           pages_in_queue_tc := 2 },
         [Event.mprotect 0 4096 PROT_READ_WRITE]) ∧
    logged_records [Event.mprotect 0 4096 PROT_READ_WRITE] = [] := by
  refine ⟨by decide, by decide, by decide⟩

/-- C8, amended. From the empty table, after any run of faults, the next fault is
served; `fifo_handler` (at least one frame) calls `mm_logger` exactly once;
`tc_handler` (at least two frames) calls it exactly once, except when the faulting
page is held by a record whose permission is not NONE and whose modified bit is
already set, in which case it makes no call.  Every call carries the faulting page
first, then a cause code, an evicted page or -1, and a boolean write-back. -/
theorem one_record_per_fault (cfgF cfgT : Config) (fuel : Nat)
    (faultsF faultsT : List Int) (dF dT : Int)
    (hNF : 1 ≤ cfgF.N_FRAMES) (hPF : 0 < cfgF.PAGE_SIZE)
    (hfaultsF : ∀ d ∈ faultsF, 0 ≤ d) (hdF : 0 ≤ dF)
    (hNT : 2 ≤ cfgT.N_FRAMES) (hPT : 0 < cfgT.PAGE_SIZE)
    (hfuel : 2 * cfgT.N_FRAMES < (fuel : Int))
    (hfaultsT : ∀ d ∈ faultsT, 0 ≤ d) (hdT : 0 ≤ dT) :
    (∃ s evs s1 evs1 r, fifo_run cfgF fifo_init faultsF = Outcome.ok (s, evs) ∧
      fifo_handler cfgF s dF = Outcome.ok (s1, evs1) ∧
      logged_records evs1 = [r] ∧ FaultRecordFor (Int.tdiv dF cfgF.PAGE_SIZE) r) ∧
    (∃ s evs s1 evs1, tc_run cfgT fuel tc_init faultsT = Outcome.ok (s, evs) ∧
      tc_handler cfgT fuel s dT = Outcome.ok (s1, evs1) ∧
      ((AlreadyReported s (Int.tdiv dT cfgT.PAGE_SIZE) ∧ logged_records evs1 = []) ∨
       (¬ AlreadyReported s (Int.tdiv dT cfgT.PAGE_SIZE) ∧
         ∃ r, logged_records evs1 = [r] ∧
           FaultRecordFor (Int.tdiv dT cfgT.PAGE_SIZE) r))) := by
  constructor
  · obtain ⟨s, evs, hrun, hinv⟩ :=
      fifo_run_inv cfgF hNF hPF faultsF fifo_init [] hfaultsF (fifo_inv_init cfgF hNF)
    obtain ⟨s1, evs1, h1, _, r, hr, hrec⟩ := fifo_step cfgF s _ dF hNF hPF hdF hinv
    exact ⟨s, evs, s1, evs1, r, hrun, h1, hr, hrec⟩
  · obtain ⟨s, evs, hrun, hinv⟩ :=
      tc_run_inv cfgT fuel hNT hPT hfuel faultsT tc_init [] hfaultsT
        (tc_inv_init cfgT (by omega))
    obtain ⟨s1, evs1, h1, _, hcases⟩ := tc_step cfgT fuel s _ dT hNT hPT hdT hfuel hinv
    exact ⟨s, evs, s1, evs1, hrun, h1, hcases⟩

/-- Witness for the amended C8: two frames under both policies. -/
theorem one_record_per_fault_witness :
    (∃ s evs s1 evs1 r,
      fifo_run { VM_SIZE := 32768, N_FRAMES := 2, PAGE_SIZE := 4096, POLICY := 1 }
        fifo_init [0, 4096] = Outcome.ok (s, evs) ∧
      fifo_handler { VM_SIZE := 32768, N_FRAMES := 2, PAGE_SIZE := 4096, POLICY := 1 }
        s 8192 = Outcome.ok (s1, evs1) ∧
      logged_records evs1 = [r] ∧ FaultRecordFor (Int.tdiv 8192 4096) r) ∧
    (∃ s evs s1 evs1,
      tc_run { VM_SIZE := 32768, N_FRAMES := 2, PAGE_SIZE := 4096, POLICY := 2 } 5
        tc_init [0, 0, 4096, 8192, 0] = Outcome.ok (s, evs) ∧
      tc_handler { VM_SIZE := 32768, N_FRAMES := 2, PAGE_SIZE := 4096, POLICY := 2 } 5
        s 0 = Outcome.ok (s1, evs1) ∧
      ((AlreadyReported s (Int.tdiv 0 4096) ∧ logged_records evs1 = []) ∨
       (¬ AlreadyReported s (Int.tdiv 0 4096) ∧
         ∃ r, logged_records evs1 = [r] ∧ FaultRecordFor (Int.tdiv 0 4096) r))) :=
  one_record_per_fault
    { VM_SIZE := 32768, N_FRAMES := 2, PAGE_SIZE := 4096, POLICY := 1 }
    { VM_SIZE := 32768, N_FRAMES := 2, PAGE_SIZE := 4096, POLICY := 2 } 5
    [0, 4096] [0, 0, 4096, 8192, 0] 8192 0
    (by decide) (by decide) (by decide) (by decide)
    (by decide) (by decide) (by decide) (by decide) (by decide)

/-- C9. Third-Chance reference reacquire: on a Third-Chance table, a fault on a page
held by a record whose permission is NONE makes `tc_handler` set that record's
reference to 1 and its permission to READ, leave its modified bit, frame index and
position, every other record and the clock hand unchanged, and log exactly the
record `(virtual_page, 2, -1, 0, frame * page_size + offset)`. -/
theorem tc_reference_reacquire (cfg : Config) (fuel : Nat) (s : TcState) (si_addr : Int)
    (i : Nat) (node : tc_page) (hP : cfg.PAGE_SIZE ≠ 0) (htable : TcTable s)
    (hi : s.heap[i]? = some node)
    (hpage : node.page_number = Int.tdiv si_addr cfg.PAGE_SIZE)
    (hflag : node.flag = PROT_NONE) (hfuel : s.heap.length ≤ fuel)
    (hfit0 : 0 ≤ node.place_in_pm * cfg.PAGE_SIZE + Int.tmod si_addr cfg.PAGE_SIZE)
    (hfit1 : node.place_in_pm * cfg.PAGE_SIZE + Int.tmod si_addr cfg.PAGE_SIZE < 4294967296) :
    tc_handler cfg fuel s si_addr =
      Outcome.ok
        ({ s with heap := s.heap.set i { node with r := 1, flag := PROT_READ } },
         [Event.mprotect (cfg.PAGE_SIZE * Int.tdiv si_addr cfg.PAGE_SIZE) cfg.PAGE_SIZE
            PROT_READ,
          Event.mm_logger (Int.tdiv si_addr cfg.PAGE_SIZE) 2 (-1) 0
            (node.place_in_pm * cfg.PAGE_SIZE + Int.tmod si_addr cfg.PAGE_SIZE)]) := by
  have hilt : i < s.heap.length := (List.getElem?_eq_some_iff.mp hi).1
  rw [tc_handler_found cfg fuel s si_addr i node hP htable hi hpage (by omega)]
  simp [tc_hit, hflag, to_unsigned_of_fits _ hfit0 hfit1]

/-- Witness for C9: two frames; page 0 was written, demoted twice by the scan that
admitted page 2, and is accessed again. -/
theorem tc_reference_reacquire_witness :
    tc_handler { VM_SIZE := 32768, N_FRAMES := 2, PAGE_SIZE := 4096, POLICY := 2 } 5
        { heap :=
            [{ page_number := 0, place_in_pm := 0, flag := PROT_NONE, r := -1, m := 1,
               next := some 1 },
             { page_number := 2, place_in_pm := 1, flag := PROT_READ, r := 1, m := 0,
               next := some 0 }],
          tc_head := some 0, tc_tail := some 1, clock_head := some 0,
          pages_in_queue_tc := 2 } 5 =
      Outcome.ok
        ({ heap :=
            [{ page_number := 0, place_in_pm := 0, flag := PROT_READ, r := 1, m := 1,
               next := some 1 },
             { page_number := 2, place_in_pm := 1, flag := PROT_READ, r := 1, m := 0,
               next := some 0 }],
           tc_head := some 0, tc_tail := some 1, clock_head := some 0,
           pages_in_queue_tc := 2 },
         [Event.mprotect 0 4096 PROT_READ, Event.mm_logger 0 2 (-1) 0 5]) :=
  tc_reference_reacquire
    { VM_SIZE := 32768, N_FRAMES := 2, PAGE_SIZE := 4096, POLICY := 2 } 5
    { heap :=
        [{ page_number := 0, place_in_pm := 0, flag := PROT_NONE, r := -1, m := 1,
           next := some 1 },
         { page_number := 2, place_in_pm := 1, flag := PROT_READ, r := 1, m := 0,
           next := some 0 }],
      tc_head := some 0, tc_tail := some 1, clock_head := some 0,
      pages_in_queue_tc := 2 } 5 0
    { page_number := 0, place_in_pm := 0, flag := PROT_NONE, r := -1, m := 1, next := some 1 }
    (by decide)
    ⟨by decide, rfl, rfl, rfl, ⟨0, by decide, rfl⟩,
      (by
        intro i node h
        match i with
        | 0 => simp at h; subst h; rfl
        | 1 => simp at h; subst h; rfl
        | i + 2 => simp at h),
      by decide⟩
    rfl (by decide) rfl (by decide) (by decide) (by decide)

/-- C10. Third-Chance write to a resident page: on a Third-Chance table, a fault on
a page held by a record whose permission is not NONE makes `tc_handler` set that
record's reference to 1, its modified bit to 1 and its permission to READ_WRITE;
if modified was 0 it logs exactly the record
`(virtual_page, 1, -1, 0, frame * page_size + offset)`, and if modified was
already 1 it logs nothing. -/
theorem tc_write_resident (cfg : Config) (fuel : Nat) (s : TcState) (si_addr : Int)
    (i : Nat) (node : tc_page) (hP : cfg.PAGE_SIZE ≠ 0) (htable : TcTable s)
    (hi : s.heap[i]? = some node)
    (hpage : node.page_number = Int.tdiv si_addr cfg.PAGE_SIZE)
    (hflag : node.flag ≠ PROT_NONE) (hfuel : s.heap.length ≤ fuel)
    (hfit0 : 0 ≤ node.place_in_pm * cfg.PAGE_SIZE + Int.tmod si_addr cfg.PAGE_SIZE)
    (hfit1 : node.place_in_pm * cfg.PAGE_SIZE + Int.tmod si_addr cfg.PAGE_SIZE < 4294967296) :
    ∃ evs,
      tc_handler cfg fuel s si_addr =
        Outcome.ok
          ({ s with
             heap := s.heap.set i { node with r := 1, m := 1, flag := PROT_READ_WRITE } },
           evs) ∧
      (node.m = 0 →
        evs =
          [Event.mprotect (cfg.PAGE_SIZE * Int.tdiv si_addr cfg.PAGE_SIZE) cfg.PAGE_SIZE
             PROT_READ_WRITE,
           Event.mm_logger (Int.tdiv si_addr cfg.PAGE_SIZE) 1 (-1) 0
             (node.place_in_pm * cfg.PAGE_SIZE + Int.tmod si_addr cfg.PAGE_SIZE)]) ∧
      (node.m = 1 →
        evs =
          [Event.mprotect (cfg.PAGE_SIZE * Int.tdiv si_addr cfg.PAGE_SIZE) cfg.PAGE_SIZE
             PROT_READ_WRITE] ∧
        logged_records evs = []) := by
  have hilt : i < s.heap.length := (List.getElem?_eq_some_iff.mp hi).1
  have hh := tc_handler_found cfg fuel s si_addr i node hP htable hi hpage (by omega)
  have hhit : tc_hit cfg (Int.tdiv si_addr cfg.PAGE_SIZE) (Int.tmod si_addr cfg.PAGE_SIZE)
      s.heap i node =
      (s.heap.set i { node with r := 1, m := 1, flag := PROT_READ_WRITE },
       Event.mprotect (cfg.PAGE_SIZE * Int.tdiv si_addr cfg.PAGE_SIZE) cfg.PAGE_SIZE
          PROT_READ_WRITE ::
         (if node.m = 0 then
           [Event.mm_logger (Int.tdiv si_addr cfg.PAGE_SIZE) 1 (-1) 0
             (to_unsigned (node.place_in_pm * cfg.PAGE_SIZE +
               Int.tmod si_addr cfg.PAGE_SIZE))]
          else [])) := by
    simp [tc_hit, hflag]
  rw [hhit] at hh
  refine ⟨_, hh, ?_, ?_⟩
  · intro hm
    simp [hm, to_unsigned_of_fits _ hfit0 hfit1]
  · intro hm
    have hm0 : node.m ≠ 0 := by rw [hm]; decide
    simp [hm0, logged_records, is_record]

/-- Witness for C10: two frames, page 0 just admitted (permission READ, modified 0),
then written. -/
theorem tc_write_resident_witness :
    ∃ evs,
      tc_handler { VM_SIZE := 32768, N_FRAMES := 2, PAGE_SIZE := 4096, POLICY := 2 } 5
          { heap := [{ page_number := 0, place_in_pm := 0, flag := PROT_READ, r := 1, m := 0,
                       next := none }],
            tc_head := some 0, tc_tail := some 0, clock_head := some 0,
            pages_in_queue_tc := 1 } 7 =
        Outcome.ok
          ({ heap := [{ page_number := 0, place_in_pm := 0, flag := PROT_READ_WRITE, r := 1,
                        m := 1, next := none }],
             tc_head := some 0, tc_tail := some 0, clock_head := some 0,
             pages_in_queue_tc := 1 },
           evs) ∧
      ((0 : Int) = 0 →
        evs = [Event.mprotect (4096 * Int.tdiv 7 4096) 4096 PROT_READ_WRITE,
               Event.mm_logger (Int.tdiv 7 4096) 1 (-1) 0 (0 * 4096 + Int.tmod 7 4096)]) ∧
      ((0 : Int) = 1 →
        evs = [Event.mprotect (4096 * Int.tdiv 7 4096) 4096 PROT_READ_WRITE] ∧
        logged_records evs = []) :=
  tc_write_resident
    { VM_SIZE := 32768, N_FRAMES := 2, PAGE_SIZE := 4096, POLICY := 2 } 5
    { heap := [{ page_number := 0, place_in_pm := 0, flag := PROT_READ, r := 1, m := 0,
                 next := none }],
      tc_head := some 0, tc_tail := some 0, clock_head := some 0,
      pages_in_queue_tc := 1 } 7 0
    { page_number := 0, place_in_pm := 0, flag := PROT_READ, r := 1, m := 0, next := none }
    (by decide)
    ⟨by decide, rfl, rfl, rfl, ⟨0, by decide, rfl⟩,
      (by
        intro i node h
        match i with
        | 0 => simp at h; subst h; rfl
        | i + 1 => simp at h),
      by decide⟩
    rfl (by decide) (by decide) (by decide) (by decide) (by decide)

/-! ### Protection levels -/

theorem protect_page (cfg : Config) (hP : 0 < cfg.PAGE_SIZE) (prot : Int → Int)
    (q level p : Int) :
    protect cfg prot (Event.mprotect (cfg.PAGE_SIZE * q) cfg.PAGE_SIZE level) p =
      if p = q then level else prot p := by
  simp only [protect]
  by_cases hpq : p = q
  · subst hpq
    rw [if_pos rfl, if_pos ⟨le_of_lt hP, le_refl _, le_refl _⟩]
  · rw [if_neg hpq, if_neg]
    rintro ⟨_, h1, h2⟩
    apply hpq
    have h3 : cfg.PAGE_SIZE * p = cfg.PAGE_SIZE * q := by omega
    exact Int.eq_of_mul_eq_mul_left (ne_of_gt hP) h3

theorem protect_record (cfg : Config) (prot : Int → Int) (vp c ev wb pa : Int) :
    protect cfg prot (Event.mm_logger vp c ev wb pa) = prot := rfl

theorem protection_after_append (cfg : Config) (prot : Int → Int) (l1 l2 : List Event) :
    protection_after cfg prot (l1 ++ l2) =
      protection_after cfg (protection_after cfg prot l1) l2 := by
  simp [protection_after, List.foldl_append]

theorem protection_after_cons (cfg : Config) (prot : Int → Int) (e : Event)
    (l : List Event) :
    protection_after cfg prot (e :: l) = protection_after cfg (protect cfg prot e) l := rfl

theorem protection_after_nil (cfg : Config) (prot : Int → Int) :
    protection_after cfg prot [] = prot := rfl

/-! ### FIFO: frames and protection levels -/

theorem fifo_step_cases (cfg : Config) (s : FifoState) (log : List Event) (si_addr : Int)
    (hP : cfg.PAGE_SIZE ≠ 0) (hinv : FifoInv cfg s log) :
    (∃ l1 x l2, s.queue = l1 ++ x :: l2 ∧
      x.page_number = Int.tdiv si_addr cfg.PAGE_SIZE ∧
      (∀ y ∈ l1 ++ l2, y.page_number ≠ Int.tdiv si_addr cfg.PAGE_SIZE) ∧
      fifo_handler cfg s si_addr =
        Outcome.ok ({ s with queue := l1 ++ { x with flag := PROT_READ_WRITE } :: l2 },
          [Event.mprotect (cfg.PAGE_SIZE * Int.tdiv si_addr cfg.PAGE_SIZE) cfg.PAGE_SIZE
             PROT_READ_WRITE,
           Event.mm_logger (Int.tdiv si_addr cfg.PAGE_SIZE) 1 (-1) 0
             (to_unsigned (x.place_in_pm * cfg.PAGE_SIZE +
               Int.tmod si_addr cfg.PAGE_SIZE))])) ∨
    ((∀ p ∈ s.queue, p.page_number ≠ Int.tdiv si_addr cfg.PAGE_SIZE) ∧
      s.pages_in_queue_fifo < cfg.N_FRAMES ∧
      fifo_handler cfg s si_addr =
        Outcome.ok
          ({ queue := s.queue ++
               [{ page_number := Int.tdiv si_addr cfg.PAGE_SIZE,
                  place_in_pm := s.pages_in_queue_fifo, flag := PROT_READ }],
             pages_in_queue_fifo := s.pages_in_queue_fifo + 1 },
           [Event.mprotect (cfg.PAGE_SIZE * Int.tdiv si_addr cfg.PAGE_SIZE) cfg.PAGE_SIZE
              PROT_READ,
            Event.mm_logger (Int.tdiv si_addr cfg.PAGE_SIZE) 0 (-1) 0
              (to_unsigned (s.pages_in_queue_fifo * cfg.PAGE_SIZE +
                Int.tmod si_addr cfg.PAGE_SIZE))])) ∨
    ((∀ p ∈ s.queue, p.page_number ≠ Int.tdiv si_addr cfg.PAGE_SIZE) ∧
      ¬ s.pages_in_queue_fifo < cfg.N_FRAMES ∧ s.queue = [] ∧
      fifo_handler cfg s si_addr = Outcome.crash) ∨
    ((∀ p ∈ s.queue, p.page_number ≠ Int.tdiv si_addr cfg.PAGE_SIZE) ∧
      ¬ s.pages_in_queue_fifo < cfg.N_FRAMES ∧
      ∃ head rest, s.queue = head :: rest ∧
        fifo_handler cfg s si_addr =
          Outcome.ok
            ({ queue := rest ++
                 [{ page_number := Int.tdiv si_addr cfg.PAGE_SIZE,
                    place_in_pm := if rest = [] then 0 else head.place_in_pm,
                    flag := PROT_READ }],
               pages_in_queue_fifo := s.pages_in_queue_fifo },
             [Event.mprotect (cfg.PAGE_SIZE * head.page_number) cfg.PAGE_SIZE PROT_NONE,
              Event.mprotect (cfg.PAGE_SIZE * Int.tdiv si_addr cfg.PAGE_SIZE) cfg.PAGE_SIZE
                PROT_READ,
              Event.mm_logger (Int.tdiv si_addr cfg.PAGE_SIZE) 0 head.page_number
                (if head.flag = PROT_READ_WRITE then 1 else 0)
                (to_unsigned (head.place_in_pm * cfg.PAGE_SIZE +
                  Int.tmod si_addr cfg.PAGE_SIZE))])) := by
  obtain ⟨⟨hcount, hpages, _⟩, _, hnodup, _⟩ := hinv
  by_cases hmem : ∃ p ∈ s.queue, p.page_number = Int.tdiv si_addr cfg.PAGE_SIZE
  · left
    obtain ⟨l1, x, l2, hq, hx, hl1, hlook⟩ :=
      fifo_lookup_some cfg (Int.tdiv si_addr cfg.PAGE_SIZE) (Int.tmod si_addr cfg.PAGE_SIZE)
        s.queue hmem
    refine ⟨l1, x, l2, hq, hx, ?_, ?_⟩
    · intro y hy
      rw [hq] at hnodup
      simp only [List.map_append, List.map_cons] at hnodup
      have h1 := (List.nodup_append.mp hnodup).2.1
      have h2 := (List.nodup_cons.mp h1).1
      rcases List.mem_append.mp hy with hy1 | hy2
      · exact hl1 y hy1
      · intro hyx
        apply h2
        rw [hx, ← hyx]
        exact List.mem_map_of_mem _ hy2
    · unfold fifo_handler
      rw [if_neg hP]
      simp only [hlook]
  · right
    have hmiss : ∀ p ∈ s.queue, p.page_number ≠ Int.tdiv si_addr cfg.PAGE_SIZE :=
      fun p hp h => hmem ⟨p, hp, h⟩
    have hhandler : fifo_handler cfg s si_addr =
        fifo_miss cfg s (Int.tdiv si_addr cfg.PAGE_SIZE) (Int.tmod si_addr cfg.PAGE_SIZE) := by
      unfold fifo_handler
      rw [if_neg hP]
      simp only [fifo_lookup_eq_none cfg _ _ _ hmiss]
    by_cases hlt : s.pages_in_queue_fifo < cfg.N_FRAMES
    · left
      exact ⟨hmiss, hlt, by rw [hhandler, fifo_miss_below cfg s _ _ hcount hlt]⟩
    · right
      cases hq : s.queue with
      | nil =>
        left
        refine ⟨by rw [hq] at hmiss; exact hmiss, hlt, rfl, ?_⟩
        rw [hhandler]
        simp [fifo_miss, hlt, hq]
      | cons head rest =>
        right
        have hhead : head.page_number ≠ -1 := by
          have := hpages head (by rw [hq]; simp)
          omega
        refine ⟨by rw [hq] at hmiss; exact hmiss, hlt, head, rest, rfl, ?_⟩
        rw [hhandler, fifo_miss_full cfg s _ _ head rest hq hlt hhead]

theorem fifo_step_more (cfg : Config) (s : FifoState) (log : List Event) (si_addr : Int)
    (base prot : Int → Int)
    (hN : 1 ≤ cfg.N_FRAMES) (hP : 0 < cfg.PAGE_SIZE) (haddr : 0 ≤ si_addr)
    (hinv : FifoInv cfg s log) (hfr : FifoFrames s) (hprot : FifoProt base prot s) :
    ∃ s1 evs, fifo_handler cfg s si_addr = Outcome.ok (s1, evs) ∧
      FifoInv cfg s1 (log ++ evs) ∧ FifoFrames s1 ∧
      FifoProt base (protection_after cfg prot evs) s1 ∧ FifoServed cfg s1 si_addr evs := by
  obtain ⟨s1, evs, hh, hinv1, _⟩ := fifo_step cfg s log si_addr hN hP haddr hinv
  refine ⟨s1, evs, hh, hinv1, ?_⟩
  obtain ⟨⟨hcount, hpages, hframes⟩, hlen, hnodup, _⟩ := hinv
  obtain ⟨hfr1, hfr2⟩ := hfr
  obtain ⟨hpr1, hpr2⟩ := hprot
  rcases fifo_step_cases cfg s log si_addr (ne_of_gt hP)
      ⟨⟨hcount, hpages, hframes⟩, hlen, hnodup, ‹_›⟩ with
    ⟨l1, x, l2, hq, hx, hothers, hcase⟩ | ⟨hmiss, hlt, hcase⟩ | ⟨_, hge, hnil, _⟩ |
    ⟨hmiss, hge, head, rest, hq, hcase⟩
  · -- first write
    rw [hh] at hcase
    simp only [Outcome.ok.injEq, Prod.mk.injEq] at hcase
    obtain ⟨hs1, hevs⟩ := hcase
    subst hs1 hevs
    have hmem1 : ∀ y, y ∈ l1 ++ { x with flag := PROT_READ_WRITE } :: l2 →
        (y ∈ l1 ++ l2 ∧ y ∈ s.queue) ∨ y = { x with flag := PROT_READ_WRITE } := by
      intro y hy
      rw [hq]
      simp only [List.mem_append, List.mem_cons] at hy ⊢
      tauto
    have hxq : x ∈ s.queue := by rw [hq]; simp
    have hprot1 : ∀ p, protection_after cfg prot
        [Event.mprotect (cfg.PAGE_SIZE * Int.tdiv si_addr cfg.PAGE_SIZE) cfg.PAGE_SIZE
             PROT_READ_WRITE,
           Event.mm_logger (Int.tdiv si_addr cfg.PAGE_SIZE) 1 (-1) 0
             (to_unsigned (x.place_in_pm * cfg.PAGE_SIZE +
               Int.tmod si_addr cfg.PAGE_SIZE))] p =
        if p = Int.tdiv si_addr cfg.PAGE_SIZE then PROT_READ_WRITE else prot p := by
      intro p
      simp only [protection_after_cons, protection_after_nil, protect_record,
        protect_page cfg hP]
    refine ⟨⟨?_, ?_⟩, ⟨?_, ?_⟩, ?_⟩
    · intro y hy
      have hlen1 : (l1 ++ { x with flag := PROT_READ_WRITE } :: l2).length =
          s.queue.length := by rw [hq]; simp
      simp only [hlen1]
      rcases hmem1 y hy with ⟨_, h⟩ | h
      · exact hfr1 y h
      · subst h; exact hfr1 x hxq
    · simpa [hq] using hfr2
    · intro y hy
      rw [hprot1]
      rcases hmem1 y hy with ⟨h1, h2⟩ | h
      · rw [if_neg (hothers y h1)]; exact hpr1 y h2
      · subst h; simp [hx]
    · intro pg hb hnot
      rw [hprot1]
      have hne : pg ≠ Int.tdiv si_addr cfg.PAGE_SIZE := by
        intro h
        exact hnot { x with flag := PROT_READ_WRITE } (by simp) (by simp [hx, h])
      rw [if_neg hne]
      apply hpr2 pg hb
      intro y hy hyp
      rw [hq] at hy
      rcases List.mem_append.mp hy with h | h
      · exact hnot y (List.mem_append_left _ h) hyp
      · rcases List.mem_cons.mp h with h | h
        · subst h; exact hne (by rw [← hyp, hx])
        · exact hnot y (List.mem_append_right _ (List.mem_cons_of_mem _ h)) hyp
    · intro vp c ev wb pa hmem
      simp only [List.mem_cons, List.mem_singleton, List.not_mem_nil, or_false,
        Event.mm_logger.injEq, reduceCtorEq, false_or] at hmem
      obtain ⟨rfl, rfl, rfl, rfl, rfl⟩ := hmem
      refine ⟨rfl, by simp, { x with flag := PROT_READ_WRITE }, by simp, hx, rfl,
        by simp, fun _ => rfl⟩
  · -- admission below capacity
    rw [hh] at hcase
    simp only [Outcome.ok.injEq, Prod.mk.injEq] at hcase
    obtain ⟨hs1, hevs⟩ := hcase
    subst hs1 hevs
    have hprot1 : ∀ p, protection_after cfg prot
        [Event.mprotect (cfg.PAGE_SIZE * Int.tdiv si_addr cfg.PAGE_SIZE) cfg.PAGE_SIZE
              PROT_READ,
            Event.mm_logger (Int.tdiv si_addr cfg.PAGE_SIZE) 0 (-1) 0
              (to_unsigned (s.pages_in_queue_fifo * cfg.PAGE_SIZE +
                Int.tmod si_addr cfg.PAGE_SIZE))] p =
        if p = Int.tdiv si_addr cfg.PAGE_SIZE then PROT_READ else prot p := by
      intro p
      simp only [protection_after_cons, protection_after_nil, protect_record,
        protect_page cfg hP]
    refine ⟨⟨?_, ?_⟩, ⟨?_, ?_⟩, ?_⟩
    · intro y hy
      simp only [List.length_append, List.length_singleton]
      push_cast
      rcases List.mem_append.mp hy with h | h
      · have := hfr1 y h
        omega
      · simp only [List.mem_singleton] at h
        subst h
        simp only
        omega
    · simp only [List.map_append, List.map_cons, List.map_nil]
      rw [List.nodup_append]
      refine ⟨hfr2, by simp, ?_⟩
      intro a ha hb
      simp only [List.mem_singleton] at hb
      subst hb
      obtain ⟨y, hy, hya⟩ := List.mem_map.mp ha
      have := hfr1 y hy
      omega
    · intro y hy
      rw [hprot1]
      rcases List.mem_append.mp hy with h | h
      · rw [if_neg (hmiss y h)]; exact hpr1 y h
      · simp only [List.mem_singleton] at h
        subst h; simp
    · intro pg hb hnot
      rw [hprot1]
      have hne : pg ≠ Int.tdiv si_addr cfg.PAGE_SIZE := by
        intro h
        exact hnot _ (List.mem_append_right _ (List.mem_singleton_self _)) h.symm
      rw [if_neg hne]
      exact hpr2 pg hb (fun y hy => hnot y (List.mem_append_left _ hy))
    · intro vp c ev wb pa hmem
      simp only [List.mem_cons, List.mem_singleton, List.not_mem_nil, or_false,
        Event.mm_logger.injEq, reduceCtorEq, false_or] at hmem
      obtain ⟨rfl, rfl, rfl, rfl, rfl⟩ := hmem
      refine ⟨rfl, by simp, _, List.mem_append_right _ (List.mem_singleton_self _), rfl,
        rfl, fun _ => rfl, by simp⟩
  · -- not reachable: the table is empty and full
    rw [hcount, hnil] at hge
    simp at hge
    omega
  · -- eviction
    rw [hh] at hcase
    simp only [Outcome.ok.injEq, Prod.mk.injEq] at hcase
    obtain ⟨hs1, hevs⟩ := hcase
    subst hs1 hevs
    have hheadmem : head ∈ s.queue := by rw [hq]; simp
    have hrest : ∀ y ∈ rest, y ∈ s.queue := by
      intro y hy; rw [hq]; exact List.mem_cons_of_mem _ hy
    have hnd2 := hnodup
    rw [hq] at hnd2
    simp only [List.map_cons] at hnd2
    have hheadrest : ∀ y ∈ rest, y.page_number ≠ head.page_number := by
      intro y hy h
      exact (List.nodup_cons.mp hnd2).1 (h ▸ List.mem_map_of_mem _ hy)
    have hfr3 := hfr2
    rw [hq] at hfr3
    simp only [List.map_cons] at hfr3
    have hlenq : s.queue.length = rest.length + 1 := by rw [hq]; simp
    have hprot1 : ∀ p, protection_after cfg prot
        [Event.mprotect (cfg.PAGE_SIZE * head.page_number) cfg.PAGE_SIZE PROT_NONE,
              Event.mprotect (cfg.PAGE_SIZE * Int.tdiv si_addr cfg.PAGE_SIZE) cfg.PAGE_SIZE
                PROT_READ,
              Event.mm_logger (Int.tdiv si_addr cfg.PAGE_SIZE) 0 head.page_number
                (if head.flag = PROT_READ_WRITE then 1 else 0)
                (to_unsigned (head.place_in_pm * cfg.PAGE_SIZE +
                  Int.tmod si_addr cfg.PAGE_SIZE))] p =
        if p = Int.tdiv si_addr cfg.PAGE_SIZE then PROT_READ
        else if p = head.page_number then PROT_NONE else prot p := by
      intro p
      simp only [protection_after_cons, protection_after_nil, protect_record,
        protect_page cfg hP]
    have hplace : (if rest = [] then 0 else head.place_in_pm) = head.place_in_pm := by
      split
      · rename_i hr
        have h1 := hfr1 head hheadmem
        have h2 := (hframes head hheadmem).1
        rw [hlenq, hr] at h1
        simp at h1
        omega
      · rfl
    rw [hplace]
    refine ⟨⟨?_, ?_⟩, ⟨?_, ?_⟩, ?_⟩
    · intro y hy
      simp only [List.length_append, List.length_singleton]
      rw [← hlenq]
      rcases List.mem_append.mp hy with h | h
      · exact hfr1 y (hrest y h)
      · simp only [List.mem_singleton] at h
        subst h
        exact hfr1 head hheadmem
    · simp only [List.map_append, List.map_cons, List.map_nil]
      rw [List.nodup_append]
      refine ⟨(List.nodup_cons.mp hfr3).2, by simp, ?_⟩
      intro a ha hb
      simp only [List.mem_singleton] at hb
      subst hb
      exact (List.nodup_cons.mp hfr3).1 ha
    · intro y hy
      rw [hprot1]
      rcases List.mem_append.mp hy with h | h
      · rw [if_neg (hmiss y (hrest y h)), if_neg (hheadrest y h)]
        exact hpr1 y (hrest y h)
      · simp only [List.mem_singleton] at h
        subst h; simp
    · intro pg hb hnot
      rw [hprot1]
      have hne : pg ≠ Int.tdiv si_addr cfg.PAGE_SIZE := by
        intro h
        exact hnot _ (List.mem_append_right _ (List.mem_singleton_self _)) h.symm
      rw [if_neg hne]
      by_cases hph : pg = head.page_number
      · rw [if_pos hph]
      · rw [if_neg hph]
        apply hpr2 pg hb
        intro y hy hyp
        rw [hq] at hy
        rcases List.mem_cons.mp hy with h | h
        · subst h; exact hph hyp.symm
        · exact hnot y (List.mem_append_left _ h) hyp
    · intro vp c ev wb pa hmem
      simp only [List.mem_cons, List.mem_singleton, List.not_mem_nil, or_false,
        Event.mm_logger.injEq, reduceCtorEq, false_or] at hmem
      obtain ⟨rfl, rfl, rfl, rfl, rfl⟩ := hmem
      refine ⟨rfl, by simp, _, List.mem_append_right _ (List.mem_singleton_self _), rfl,
        rfl, fun _ => rfl, by simp⟩

theorem fifo_run_more (cfg : Config) (base : Int → Int) (hN : 1 ≤ cfg.N_FRAMES)
    (hP : 0 < cfg.PAGE_SIZE) (faults : List Int) :
    ∀ (s : FifoState) (log : List Event) (prot : Int → Int), (∀ d ∈ faults, 0 ≤ d) →
      FifoInv cfg s log → FifoFrames s → FifoProt base prot s →
      ∃ s1 evs, fifo_run cfg s faults = Outcome.ok (s1, evs) ∧ FifoInv cfg s1 (log ++ evs) ∧
        FifoFrames s1 ∧ FifoProt base (protection_after cfg prot evs) s1 := by
  induction faults with
  | nil =>
    intro s log prot _ hinv hfr hpr
    exact ⟨s, [], rfl, by simpa using hinv, hfr, hpr⟩
  | cons d ds ih =>
    intro s log prot hds hinv hfr hpr
    obtain ⟨s1, evs1, h1, hinv1, hfr1, hpr1, _⟩ :=
      fifo_step_more cfg s log d base prot hN hP (hds d (List.mem_cons_self d ds)) hinv hfr hpr
    obtain ⟨s2, evs2, h2, hinv2, hfr2, hpr2⟩ :=
      ih s1 (log ++ evs1) _ (fun x hx => hds x (List.mem_cons_of_mem d hx)) hinv1 hfr1 hpr1
    refine ⟨s2, evs1 ++ evs2, ?_, by simpa [List.append_assoc] using hinv2, hfr2, ?_⟩
    · simp [fifo_run, h1, h2]
    · rw [protection_after_append]; exact hpr2

theorem fifo_reach_more (cfg : Config) (base : Int → Int) (hN : 1 ≤ cfg.N_FRAMES)
    (hP : 0 < cfg.PAGE_SIZE) (faults : List Int) (hfaults : ∀ d ∈ faults, 0 ≤ d) :
    ∃ s evs, fifo_run cfg fifo_init faults = Outcome.ok (s, evs) ∧ FifoInv cfg s evs ∧
      FifoFrames s ∧ FifoProt base (protection_after cfg base evs) s := by
  have h := fifo_run_more cfg base hN hP faults fifo_init [] base hfaults
    (fifo_inv_init cfg hN) (by simp [FifoFrames, fifo_init])
    ⟨by simp [fifo_init], fun pg hb _ => hb⟩
  simpa using h

/-- C11. FIFO table invariant: from the empty table, with at least one frame, every
run of faults is served and leaves a table with at most `N_FRAMES` records, a
counter equal to the number of records, pairwise distinct frame indices, each in
`[0, N_FRAMES)`, and pairwise distinct page numbers. -/
theorem fifo_table_invariant (cfg : Config) (faults : List Int)
    (hN : 1 ≤ cfg.N_FRAMES) (hP : 0 < cfg.PAGE_SIZE) (hfaults : ∀ d ∈ faults, 0 ≤ d) :
    ∃ s evs, fifo_run cfg fifo_init faults = Outcome.ok (s, evs) ∧
      (s.queue.length : Int) ≤ cfg.N_FRAMES ∧
      s.pages_in_queue_fifo = (s.queue.length : Int) ∧
      (s.queue.map fifo_page.place_in_pm).Nodup ∧
      (∀ p ∈ s.queue, 0 ≤ p.place_in_pm ∧ p.place_in_pm < cfg.N_FRAMES) ∧
      (s.queue.map fifo_page.page_number).Nodup := by
  obtain ⟨s, evs, hrun, hinv, hfr, _⟩ :=
    fifo_reach_more cfg (fun _ => PROT_NONE) hN hP faults hfaults
  obtain ⟨⟨hcount, _, hframes⟩, hlen, hnodup, _⟩ := hinv
  exact ⟨s, evs, hrun, hlen, hcount, hfr.2, hframes, hnodup⟩

/-- Witness for C11: two frames, faults on pages 0, 1, 0 (a write), 2 and 3. -/
theorem fifo_table_invariant_witness :
    ∃ s evs, fifo_run { VM_SIZE := 32768, N_FRAMES := 2, PAGE_SIZE := 4096, POLICY := 1 }
        fifo_init [0, 4096, 5, 8199, 12288] = Outcome.ok (s, evs) ∧
      (s.queue.length : Int) ≤ 2 ∧
      s.pages_in_queue_fifo = (s.queue.length : Int) ∧
      (s.queue.map fifo_page.place_in_pm).Nodup ∧
      (∀ p ∈ s.queue, 0 ≤ p.place_in_pm ∧ p.place_in_pm < 2) ∧
      (s.queue.map fifo_page.page_number).Nodup :=
  fifo_table_invariant
    { VM_SIZE := 32768, N_FRAMES := 2, PAGE_SIZE := 4096, POLICY := 1 }
    [0, 4096, 5, 8199, 12288] (by decide) (by decide) (by decide)

theorem fifo_lookup_first (cfg : Config) (virt_page offset : Int) (x : fifo_page)
    (l2 : List fifo_page) (hx : x.page_number = virt_page) :
    ∀ l1 : List fifo_page, (∀ y ∈ l1, y.page_number ≠ virt_page) →
      fifo_lookup cfg virt_page offset (l1 ++ x :: l2) =
        some (l1 ++ { x with flag := PROT_READ_WRITE } :: l2,
          [Event.mprotect (cfg.PAGE_SIZE * virt_page) cfg.PAGE_SIZE PROT_READ_WRITE,
           Event.mm_logger virt_page 1 (-1) 0
             (to_unsigned (x.place_in_pm * cfg.PAGE_SIZE + offset))]) := by
  intro l1
  induction l1 with
  | nil => intro _; simp [fifo_lookup, hx]
  | cons a l1 ih =>
    intro h
    have ha : a.page_number ≠ virt_page := h a (List.mem_cons_self a l1)
    have := ih (fun y hy => h y (List.mem_cons_of_mem a hy))
    simp [fifo_lookup, ha, this]

/-- C14. FIFO first write to a resident page: a fault on a page that has a record in
the table makes `fifo_handler` set that record's permission to READ_WRITE and log
exactly the record `(virtual_page, 1, -1, 0, frame * page_size + offset)`; the
length and order of the table, every page number and frame index, every other
record's permission and the counter are unchanged. -/
theorem fifo_first_write (cfg : Config) (s : FifoState) (l1 : List fifo_page)
    (x : fifo_page) (l2 : List fifo_page) (si_addr : Int)
    (hP : cfg.PAGE_SIZE ≠ 0) (hq : s.queue = l1 ++ x :: l2)
    (hx : x.page_number = Int.tdiv si_addr cfg.PAGE_SIZE)
    (hl1 : ∀ y ∈ l1, y.page_number ≠ Int.tdiv si_addr cfg.PAGE_SIZE)
    (hfit0 : 0 ≤ x.place_in_pm * cfg.PAGE_SIZE + Int.tmod si_addr cfg.PAGE_SIZE)
    (hfit1 : x.place_in_pm * cfg.PAGE_SIZE + Int.tmod si_addr cfg.PAGE_SIZE < 4294967296) :
    fifo_handler cfg s si_addr =
      Outcome.ok
        ({ queue := l1 ++ { x with flag := PROT_READ_WRITE } :: l2,
           pages_in_queue_fifo := s.pages_in_queue_fifo },
         [Event.mprotect (cfg.PAGE_SIZE * Int.tdiv si_addr cfg.PAGE_SIZE) cfg.PAGE_SIZE
            PROT_READ_WRITE,
          Event.mm_logger (Int.tdiv si_addr cfg.PAGE_SIZE) 1 (-1) 0
            (x.place_in_pm * cfg.PAGE_SIZE + Int.tmod si_addr cfg.PAGE_SIZE)]) := by
  unfold fifo_handler
  rw [if_neg hP, hq]
  simp only [fifo_lookup_first cfg _ _ x l2 hx l1 hl1, to_unsigned_of_fits _ hfit0 hfit1]

/-- Witness for C14 (the scenario of the claim): two frames, pages 0 and 1 resident,
write to page 0. -/
theorem fifo_first_write_witness :
    fifo_handler { VM_SIZE := 32768, N_FRAMES := 2, PAGE_SIZE := 4096, POLICY := 1 }
        { queue := [{ page_number := 0, place_in_pm := 0, flag := PROT_READ },
                    { page_number := 1, place_in_pm := 1, flag := PROT_READ }],
          pages_in_queue_fifo := 2 } 5 =
      Outcome.ok
        ({ queue := [{ page_number := 0, place_in_pm := 0, flag := PROT_READ_WRITE },
                     { page_number := 1, place_in_pm := 1, flag := PROT_READ }],
           pages_in_queue_fifo := 2 },
         [Event.mprotect 0 4096 PROT_READ_WRITE, Event.mm_logger 0 1 (-1) 0 5]) :=
  fifo_first_write
    { VM_SIZE := 32768, N_FRAMES := 2, PAGE_SIZE := 4096, POLICY := 1 }
    { queue := [{ page_number := 0, place_in_pm := 0, flag := PROT_READ },
                { page_number := 1, place_in_pm := 1, flag := PROT_READ }],
      pages_in_queue_fifo := 2 }
    [] { page_number := 0, place_in_pm := 0, flag := PROT_READ }
    [{ page_number := 1, place_in_pm := 1, flag := PROT_READ }] 5
    (by decide) rfl (by decide) (by simp) (by decide) (by decide)

theorem fifo_admit_below (cfg : Config) (s : FifoState) (si_addr : Int)
    (hP : cfg.PAGE_SIZE ≠ 0)
    (hcount : s.pages_in_queue_fifo = (s.queue.length : Int))
    (hlt : (s.queue.length : Int) < cfg.N_FRAMES)
    (hmiss : ∀ p ∈ s.queue, p.page_number ≠ Int.tdiv si_addr cfg.PAGE_SIZE)
    (hfit0 : 0 ≤ (s.queue.length : Int) * cfg.PAGE_SIZE + Int.tmod si_addr cfg.PAGE_SIZE)
    (hfit1 : (s.queue.length : Int) * cfg.PAGE_SIZE + Int.tmod si_addr cfg.PAGE_SIZE
      < 4294967296) :
    fifo_handler cfg s si_addr =
      Outcome.ok
        ({ queue := s.queue ++
             [{ page_number := Int.tdiv si_addr cfg.PAGE_SIZE,
                place_in_pm := (s.queue.length : Int), flag := PROT_READ }],
           pages_in_queue_fifo := (s.queue.length : Int) + 1 },
         [Event.mprotect (cfg.PAGE_SIZE * Int.tdiv si_addr cfg.PAGE_SIZE) cfg.PAGE_SIZE
            PROT_READ,
          Event.mm_logger (Int.tdiv si_addr cfg.PAGE_SIZE) 0 (-1) 0
            ((s.queue.length : Int) * cfg.PAGE_SIZE + Int.tmod si_addr cfg.PAGE_SIZE)]) := by
  unfold fifo_handler
  rw [if_neg hP]
  simp only [fifo_lookup_eq_none cfg _ _ _ hmiss]
  rw [fifo_miss_below cfg s _ _ hcount (by rw [hcount]; exact hlt), hcount,
    to_unsigned_of_fits _ hfit0 hfit1]

/-! ### Third-Chance: frames, coupling and protection levels -/

theorem tc_clock_scan_induct (cfg : Config) (Q : List tc_page → List Event → Prop)
    (hstep : ∀ (heap : List tc_page) (c : Nat) (node : tc_page) (evs : List Event),
      Q heap evs → heap[c]? = some node → five_state node → ¬ evictable node →
      Q (heap.set c (demote node))
        (evs ++ (if node.r = 1 then
            [Event.mprotect (cfg.PAGE_SIZE * node.page_number) cfg.PAGE_SIZE PROT_NONE]
          else []))) :
    ∀ (fuel : Nat) (heap : List tc_page) (c : Nat) (res : ScanResult) (evs0 : List Event),
      tc_linked heap → 2 ≤ heap.length → (∀ node ∈ heap, five_state node) →
      c < heap.length → Q heap evs0 →
      tc_clock_scan cfg fuel heap (some c) = Outcome.ok res →
      Q res.heap (evs0 ++ res.events) := by
  intro fuel
  induction fuel with
  | zero =>
    intro heap c res evs0 _ _ _ _ _ h
    simp [tc_clock_scan] at h
  | succ fuel ih =>
    intro heap c res evs0 hl hn h5 hc hQ h
    obtain ⟨node, hnode⟩ : ∃ node, heap[c]? = some node :=
      ⟨heap[c], List.getElem?_eq_getElem hc⟩
    have h5n : five_state node := h5 node (List.mem_iff_getElem?.mpr ⟨c, hnode⟩)
    rcases evictable_decidable node with hev | hne
    · rw [tc_clock_scan_stop cfg fuel heap c node hnode hev] at h
      cases h
      simpa using hQ
    · rw [tc_clock_scan_step cfg fuel heap c node hnode h5n hne] at h
      obtain ⟨hd5, _, hdid⟩ := demote_facts node h5n hne
      have hnext : node.next = some ((c + 1) % heap.length) := by
        rw [hl c node hnode, if_neg (by omega)]
      have hdnext : (demote node).next = node.next := by
        have := congrArg (fun x => x.2.2.2) hdid
        simpa [page_identity] using this
      rw [hnext] at h
      cases hrec : tc_clock_scan cfg fuel (heap.set c (demote node))
          ((some ((c + 1) % heap.length))) with
      | crash => rw [hrec] at h; cases h
      | timeout => rw [hrec] at h; cases h
      | ok res1 =>
        rw [hrec] at h
        simp only [Outcome.ok.injEq] at h
        have := ih (heap.set c (demote node)) ((c + 1) % heap.length) res1 _
            (tc_linked_set heap c node _ hl hnode hdnext)
            (by rw [List.length_set]; exact hn)
            (five_state_set heap c _ h5 hd5)
            (by rw [List.length_set]; exact Nat.mod_lt _ (by omega))
            (hstep heap c node evs0 hQ hnode h5n hne) hrec
        subst h
        simpa [List.append_assoc] using this

theorem tc_lookup_table_found (cfg : Config) (fuel : Nat) (s : TcState) (si_addr : Int)
    (i : Nat) (node : tc_page) (htable : TcTable s) (hi : s.heap[i]? = some node)
    (hpage : node.page_number = Int.tdiv si_addr cfg.PAGE_SIZE) (hfuel : i < fuel) :
    tc_lookup cfg s.tc_tail (Int.tdiv si_addr cfg.PAGE_SIZE)
        (Int.tmod si_addr cfg.PAGE_SIZE) fuel s.heap s.tc_head =
      Outcome.ok (some (tc_hit cfg (Int.tdiv si_addr cfg.PAGE_SIZE)
        (Int.tmod si_addr cfg.PAGE_SIZE) s.heap i node)) := by
  obtain ⟨_, _, hhead, htail, _, hl, hnd⟩ := htable
  have hilt : i < s.heap.length := (List.getElem?_eq_some_iff.mp hi).1
  rw [hhead]
  exact tc_lookup_found cfg s.tc_tail (Int.tdiv si_addr cfg.PAGE_SIZE)
    (Int.tmod si_addr cfg.PAGE_SIZE) s.heap i node hi hpage hl fuel 0 (Nat.zero_le _)
    (by omega)
    (by
      intro k nk _ hk hnk
      constructor
      · intro hpk
        have := pages_index_inj s.heap hnd k i nk node hnk hi (by rw [hpk, hpage])
        omega
      · rw [htail]
        intro h
        have := Option.some.inj h
        omega)

theorem tc_lookup_table_miss (cfg : Config) (fuel : Nat) (s : TcState) (si_addr : Int)
    (hs : s = tc_init ∨ (TcTable s ∧ s.heap.length ≤ fuel))
    (hmiss : ∀ node ∈ s.heap, node.page_number ≠ Int.tdiv si_addr cfg.PAGE_SIZE) :
    tc_lookup cfg s.tc_tail (Int.tdiv si_addr cfg.PAGE_SIZE)
        (Int.tmod si_addr cfg.PAGE_SIZE) fuel s.heap s.tc_head = Outcome.ok none := by
  rcases hs with hs | ⟨⟨hpos, _, hhead, htail, _, hl, _⟩, hfuel⟩
  · subst hs
    simp [tc_init, tc_lookup]
  · rw [hhead, htail]
    exact tc_lookup_miss cfg (Int.tdiv si_addr cfg.PAGE_SIZE)
      (Int.tmod si_addr cfg.PAGE_SIZE) s.heap hl hmiss fuel 0 hpos (by omega)

/-- The four ways `tc_handler` serves a fault from a state of a run: the page is
resident; the table is empty; the table is below capacity; the table is full. -/
theorem tc_step_cases (cfg : Config) (fuel : Nat) (s : TcState) (log : List Event)
    (si_addr : Int) (hN : 2 ≤ cfg.N_FRAMES) (hP : cfg.PAGE_SIZE ≠ 0)
    (hfuel : 2 * cfg.N_FRAMES < (fuel : Int)) (hinv : TcInv cfg s log) :
    (∃ i node, TcTable s ∧ s.heap[i]? = some node ∧
      node.page_number = Int.tdiv si_addr cfg.PAGE_SIZE ∧
      (∀ (k : Nat) (x : tc_page), k ≠ i → s.heap[k]? = some x →
        x.page_number ≠ Int.tdiv si_addr cfg.PAGE_SIZE) ∧
      tc_hand_passes cfg fuel s si_addr = [] ∧
      tc_handler cfg fuel s si_addr =
        Outcome.ok
          ({ s with heap := (tc_hit cfg (Int.tdiv si_addr cfg.PAGE_SIZE)
                (Int.tmod si_addr cfg.PAGE_SIZE) s.heap i node).1 },
           (tc_hit cfg (Int.tdiv si_addr cfg.PAGE_SIZE)
                (Int.tmod si_addr cfg.PAGE_SIZE) s.heap i node).2)) ∨
    (s = tc_init ∧ tc_hand_passes cfg fuel s si_addr = [] ∧
      tc_handler cfg fuel s si_addr =
        Outcome.ok
          ({ heap := [create_tc_page (Int.tdiv si_addr cfg.PAGE_SIZE) 0 PROT_READ 1 0],
             tc_head := some 0, tc_tail := some 0, clock_head := some 0,
             pages_in_queue_tc := 1 },
           [Event.mprotect (cfg.PAGE_SIZE * Int.tdiv si_addr cfg.PAGE_SIZE) cfg.PAGE_SIZE
              PROT_READ,
            Event.mm_logger (Int.tdiv si_addr cfg.PAGE_SIZE) 0 (-1) 0
              (to_unsigned (0 * cfg.PAGE_SIZE + Int.tmod si_addr cfg.PAGE_SIZE))])) ∨
    (TcTable s ∧ (∀ node ∈ s.heap, node.page_number ≠ Int.tdiv si_addr cfg.PAGE_SIZE) ∧
      (s.heap.length : Int) < cfg.N_FRAMES ∧ tc_hand_passes cfg fuel s si_addr = [] ∧
      ∃ tail_node, s.heap[s.heap.length - 1]? = some tail_node ∧
        tc_handler cfg fuel s si_addr =
          Outcome.ok
            ({ heap := s.heap.set (s.heap.length - 1)
                   { tail_node with next := some s.heap.length } ++
                 [{ create_tc_page (Int.tdiv si_addr cfg.PAGE_SIZE) s.pages_in_queue_tc
                      PROT_READ 1 0 with next := some 0 }],
               tc_head := some 0, tc_tail := some s.heap.length,
               clock_head := s.clock_head,
               pages_in_queue_tc := s.pages_in_queue_tc + 1 },
             [Event.mprotect (cfg.PAGE_SIZE * Int.tdiv si_addr cfg.PAGE_SIZE) cfg.PAGE_SIZE
                PROT_READ,
              Event.mm_logger (Int.tdiv si_addr cfg.PAGE_SIZE) 0 (-1) 0
                (to_unsigned (s.pages_in_queue_tc * cfg.PAGE_SIZE +
                  Int.tmod si_addr cfg.PAGE_SIZE))])) ∨
    (TcTable s ∧ (∀ node ∈ s.heap, node.page_number ≠ Int.tdiv si_addr cfg.PAGE_SIZE) ∧
      2 ≤ s.heap.length ∧ (s.heap.length : Int) = cfg.N_FRAMES ∧
      ∃ c t1 e evict scan_events visited, s.clock_head = some c ∧ c < s.heap.length ∧
        SpecClockScan s.heap c t1 e evict.m ∧ t1[e]? = some evict ∧ evictable evict ∧
        t1.map page_identity = s.heap.map page_identity ∧
        (∀ node ∈ t1, five_state node) ∧ logged_records scan_events = [] ∧
        (∀ i, visited.count i + chances_at t1 i = chances_at s.heap i) ∧
        tc_clock_scan cfg fuel s.heap (some c) =
          Outcome.ok { heap := t1, clock_head := some e, write_back := evict.m,
                       events := scan_events, visited := visited } ∧
        tc_hand_passes cfg fuel s si_addr = visited ∧
        tc_handler cfg fuel s si_addr =
          Outcome.ok
            ({ s with
               heap := t1.set e { evict with
                 page_number := Int.tdiv si_addr cfg.PAGE_SIZE, flag := PROT_READ,
                 r := 1, m := 0 },
               clock_head := some ((e + 1) % s.heap.length) },
             Event.mprotect (cfg.PAGE_SIZE * Int.tdiv si_addr cfg.PAGE_SIZE) cfg.PAGE_SIZE
                 PROT_READ ::
               scan_events ++
               [Event.mprotect (cfg.PAGE_SIZE * evict.page_number) cfg.PAGE_SIZE PROT_NONE,
                Event.mm_logger (Int.tdiv si_addr cfg.PAGE_SIZE) 0 evict.page_number evict.m
                  (to_unsigned (evict.place_in_pm * cfg.PAGE_SIZE +
                    Int.tmod si_addr cfg.PAGE_SIZE))])) := by
  obtain ⟨hlen, hempty, hne, hnodes, _⟩ := hinv
  by_cases hmem : ∃ node ∈ s.heap, node.page_number = Int.tdiv si_addr cfg.PAGE_SIZE
  · left
    obtain ⟨node, hnmem, hpage⟩ := hmem
    obtain ⟨i, hi⟩ := List.mem_iff_getElem?.mp hnmem
    have hilt : i < s.heap.length := (List.getElem?_eq_some_iff.mp hi).1
    have htable : TcTable s := hne (by intro h; rw [h] at hilt; simp at hilt)
    refine ⟨i, node, htable, hi, hpage, ?_, ?_,
      tc_handler_found cfg fuel s si_addr i node hP htable hi hpage (by omega)⟩
    · intro k x hki hk hx
      exact hki (pages_index_inj s.heap htable.2.2.2.2.2.2 k i x node hk hi
        (by rw [hx, hpage]))
    · unfold tc_hand_passes
      rw [if_neg hP, tc_lookup_table_found cfg fuel s si_addr i node htable hi hpage
        (by omega)]
  · right
    have hmiss : ∀ node ∈ s.heap, node.page_number ≠ Int.tdiv si_addr cfg.PAGE_SIZE :=
      fun x hx h => hmem ⟨x, hx, h⟩
    by_cases hnil : s.heap = []
    · left
      have hs := hempty hnil
      have hh := tc_handler_miss cfg fuel s si_addr hP (Or.inl hs) hmiss
      have hl := tc_lookup_table_miss cfg fuel s si_addr (Or.inl hs) hmiss
      subst hs
      refine ⟨rfl, ?_, ?_⟩
      · unfold tc_hand_passes
        rw [if_neg hP, hl]
        have : tc_init.pages_in_queue_tc < cfg.N_FRAMES := by
          simp only [tc_init]; omega
        simp only [this, if_true]
      · rw [hh, tc_miss_first cfg fuel _ _ (by omega)]
    · right
      have htable := hne hnil
      have hcount := htable.2.1
      have hh := tc_handler_miss cfg fuel s si_addr hP (Or.inr ⟨htable, by omega⟩) hmiss
      have hl := tc_lookup_table_miss cfg fuel s si_addr (Or.inr ⟨htable, by omega⟩) hmiss
      by_cases hlt : (s.heap.length : Int) < cfg.N_FRAMES
      · left
        obtain ⟨tail_node, htn, hmiss1⟩ :=
          tc_miss_below cfg fuel s (Int.tdiv si_addr cfg.PAGE_SIZE)
            (Int.tmod si_addr cfg.PAGE_SIZE) htable (by rw [hcount]; exact hlt)
        refine ⟨htable, hmiss, hlt, ?_, tail_node, htn, by rw [hh, hmiss1]⟩
        unfold tc_hand_passes
        rw [if_neg hP, hl]
        have : s.pages_in_queue_tc < cfg.N_FRAMES := by rw [hcount]; exact hlt
        simp only [this, if_true]
      · right
        have hn : 2 ≤ s.heap.length := by omega
        obtain ⟨c, hc, hclock⟩ := htable.2.2.2.2.1
        have hlk := htable.2.2.2.2.2.1
        have h5 : ∀ node ∈ s.heap, five_state node := fun x hx => (hnodes x hx).1
        have hfull : ¬ s.pages_in_queue_tc < cfg.N_FRAMES := by rw [hcount]; exact hlt
        obtain ⟨t1, e, evict, scan_events, visited, hspec, hevict, hevictable, hid, h5',
            hlog, _, _, hscan, hmiss1⟩ :=
          tc_miss_full cfg fuel s (Int.tdiv si_addr cfg.PAGE_SIZE)
            (Int.tmod si_addr cfg.PAGE_SIZE) c htable hclock hn hfull h5 (by omega)
        rw [hclock] at hscan
        obtain ⟨_, _, _, _, hcount2⟩ :=
          tc_clock_scan_sound cfg fuel s.heap c _ hlk hn h5 hc hscan
        refine ⟨htable, hmiss, hn, by omega, c, t1, e, evict, scan_events, visited, hclock,
          hc, hspec, hevict, hevictable, hid, h5', hlog, hcount2, hscan, ?_,
          by rw [hh, hmiss1]⟩
        unfold tc_hand_passes
        rw [if_neg hP, hl]
        simp only [if_neg hfull, hclock, hscan]

theorem coupled_demote (node : tc_page) (h5 : five_state node) (hne : ¬ evictable node)
    (hcp : coupled node) :
    coupled (demote node) ∧ (demote node).page_number = node.page_number ∧
      (demote node).flag = (if node.r = 1 then PROT_NONE else node.flag) := by
  unfold five_state at h5
  unfold evictable at hne
  unfold coupled at hcp ⊢
  rcases h5 with ⟨h1, h2⟩ | ⟨h1, h2⟩ | ⟨h1, h2⟩ | ⟨h1, h2⟩ | ⟨h1, h2⟩
  · exact absurd (Or.inl ⟨h1, h2⟩) hne
  · simp [demote, h1, PROT_NONE, PROT_READ_WRITE]
  · simp [demote, h1, PROT_NONE, PROT_READ_WRITE]
  · have hf : node.flag = PROT_NONE := hcp.1.mpr (by rw [h1]; decide)
    simp [demote, h1, h2, hf, PROT_NONE, PROT_READ_WRITE]
  · exact absurd (Or.inr ⟨h1, h2⟩) hne

theorem tc_scan_more (cfg : Config) (hP : 0 < cfg.PAGE_SIZE) (prot0 : Int → Int)
    (fuel : Nat) (heap : List tc_page) (c : Nat) (res : ScanResult)
    (hl : tc_linked heap) (hn : 2 ≤ heap.length) (h5 : ∀ node ∈ heap, five_state node)
    (hc : c < heap.length) (hnd : (heap.map tc_page.page_number).Nodup)
    (hcp : ∀ node ∈ heap, coupled node)
    (hpr : ∀ node ∈ heap, prot0 node.page_number = node.flag)
    (hscan : tc_clock_scan cfg fuel heap (some c) = Outcome.ok res) :
    (∀ node ∈ res.heap, coupled node ∧
       protection_after cfg prot0 res.events node.page_number = node.flag) ∧
    (∀ pg, (∀ node ∈ heap, node.page_number ≠ pg) →
       protection_after cfg prot0 res.events pg = prot0 pg) := by
  have key := tc_clock_scan_induct cfg
    (fun h evs => h.map tc_page.page_number = heap.map tc_page.page_number ∧
      (∀ node ∈ h, coupled node ∧
        protection_after cfg prot0 evs node.page_number = node.flag) ∧
      (∀ pg, (∀ node ∈ heap, node.page_number ≠ pg) →
        protection_after cfg prot0 evs pg = prot0 pg))
    (by
      intro h c node evs hQ hnode h5n hne
      obtain ⟨hpg, hnodes, hout⟩ := hQ
      have hnmem : node ∈ h := List.mem_iff_getElem?.mpr ⟨c, hnode⟩
      obtain ⟨hcd, hpd, hfd⟩ := coupled_demote node h5n hne (hnodes node hnmem).1
      have hndh : (h.map tc_page.page_number).Nodup := by rw [hpg]; exact hnd
      have hprot_step : ∀ p, protection_after cfg prot0
          (evs ++ (if node.r = 1 then
            [Event.mprotect (cfg.PAGE_SIZE * node.page_number) cfg.PAGE_SIZE PROT_NONE]
          else [])) p =
          if node.r = 1 ∧ p = node.page_number then PROT_NONE
          else protection_after cfg prot0 evs p := by
        intro p
        rw [protection_after_append]
        by_cases hr : node.r = 1
        · simp only [hr, if_true, protection_after_cons, protection_after_nil,
            protect_page cfg hP, true_and]
        · simp only [hr, if_false, protection_after_nil, false_and]
      refine ⟨?_, ?_, ?_⟩
      · rw [List.map_set,
          set_getElem?_self _ _ _ (by rw [List.getElem?_map, hnode, hpd]; rfl)]
        exact hpg
      · intro y hy
        rcases mem_set_cases h c (demote node) y hy with ⟨k, hk, hyk⟩ | hy
        · have hymem : y ∈ h := List.mem_iff_getElem?.mpr ⟨k, hyk⟩
          have hne2 : y.page_number ≠ node.page_number :=
            fun e => hk (pages_index_inj h hndh k c y node hyk hnode e)
          refine ⟨(hnodes y hymem).1, ?_⟩
          rw [hprot_step, if_neg (fun hh => hne2 hh.2)]
          exact (hnodes y hymem).2
        · subst hy
          refine ⟨hcd, ?_⟩
          rw [hprot_step, hpd, hfd]
          by_cases hr : node.r = 1
          · simp only [hr, true_and, if_true]
          · simp only [hr, false_and, if_false]
            exact (hnodes node hnmem).2
      · intro pg hpgout
        rw [hprot_step, if_neg]
        · exact hout pg hpgout
        · rintro ⟨_, e⟩
          have : node.page_number ∈ h.map tc_page.page_number :=
            List.mem_map.mpr ⟨node, hnmem, rfl⟩
          rw [hpg] at this
          obtain ⟨x, hx, hxe⟩ := List.mem_map.mp this
          exact hpgout x hx (by rw [hxe, e]))
    fuel heap c res [] hl hn h5 hc
    ⟨rfl, fun node hm => ⟨hcp node hm, hpr node hm⟩, fun pg _ => rfl⟩ hscan
  simp only [List.nil_append] at key
  exact ⟨key.2.1, key.2.2⟩

theorem fields_getElem? (t t1 : List tc_page)
    (h : t1.map record_fields = t.map record_fields) (i : Nat) (x : tc_page)
    (hx : t1[i]? = some x) :
    ∃ y, t[i]? = some y ∧ record_fields y = record_fields x := by
  have h1 : (t1.map record_fields)[i]? = some (record_fields x) := by
    rw [List.getElem?_map, hx]; rfl
  rw [h, List.getElem?_map] at h1
  cases hy : t[i]? with
  | none => rw [hy] at h1; simp at h1
  | some y =>
    rw [hy] at h1
    exact ⟨y, rfl, by simpa using h1⟩

theorem fields_set_next (heap : List tc_page) (j : Nat) (node : tc_page) (n : Option Nat)
    (hj : heap[j]? = some node) :
    (heap.set j { node with next := n }).map record_fields = heap.map record_fields := by
  rw [List.map_set]
  exact set_getElem?_self _ _ _ (by rw [List.getElem?_map, hj]; rfl)

/-- Replacing the record at address `i` keeps the coupling, the frame indices and
the protection levels in step with the table. -/
theorem tc_more_set (s s1 : TcState) (i : Nat) (node node1 : tc_page)
    (base prot prot1 : Int → Int)
    (hnd : (s.heap.map tc_page.page_number).Nodup)
    (hi : s.heap[i]? = some node) (hs1 : s1.heap = s.heap.set i node1)
    (hplace : node1.place_in_pm = node.place_in_pm) (hcp1 : coupled node1)
    (hfresh : ∀ (k : Nat) (x : tc_page), k ≠ i → s.heap[k]? = some x →
      x.page_number ≠ node1.page_number)
    (hcp : ∀ x ∈ s.heap, coupled x) (hfr : TcFrames s)
    (hpr1 : ∀ x ∈ s.heap, prot x.page_number = x.flag)
    (hpr2 : ∀ pg, base pg = PROT_NONE → (∀ x ∈ s.heap, x.page_number ≠ pg) →
      pg ≠ node1.page_number → prot pg = PROT_NONE)
    (hprot1 : ∀ p, prot1 p = if p = node1.page_number then node1.flag
      else if p = node.page_number then PROT_NONE else prot p) :
    (∀ x ∈ s1.heap, coupled x) ∧ TcFrames s1 ∧ TcProt base prot1 s1 ∧ node1 ∈ s1.heap := by
  have hilt : i < s.heap.length := (List.getElem?_eq_some_iff.mp hi).1
  have hmem1 : node1 ∈ s1.heap := by
    rw [hs1]
    exact List.mem_iff_getElem?.mpr ⟨i, by rw [List.getElem?_set, if_pos rfl, if_pos hilt]⟩
  refine ⟨?_, ?_, ⟨?_, ?_⟩, hmem1⟩
  · intro x hx
    rw [hs1] at hx
    rcases mem_set_cases s.heap i node1 x hx with ⟨k, _, hk⟩ | h
    · exact hcp x (List.mem_iff_getElem?.mpr ⟨k, hk⟩)
    · rw [h]; exact hcp1
  · intro k x hx
    rw [hs1, List.getElem?_set] at hx
    by_cases hik : i = k
    · subst hik
      rw [if_pos rfl, if_pos hilt] at hx
      cases hx
      rw [hplace]
      exact hfr i node hi
    · rw [if_neg hik] at hx
      exact hfr k x hx
  · intro x hx
    rw [hs1] at hx
    rw [hprot1]
    rcases mem_set_cases s.heap i node1 x hx with ⟨k, hki, hk⟩ | h
    · rw [if_neg (hfresh k x hki hk),
        if_neg (fun e => hki (pages_index_inj s.heap hnd k i x node hk hi e))]
      exact hpr1 x (List.mem_iff_getElem?.mpr ⟨k, hk⟩)
    · rw [h, if_pos rfl]
  · intro pg hb hnot
    have hne1 : pg ≠ node1.page_number := fun e => hnot node1 hmem1 e.symm
    rw [hprot1, if_neg hne1]
    by_cases hpn : pg = node.page_number
    · rw [if_pos hpn]
    · rw [if_neg hpn]
      apply hpr2 pg hb _ hne1
      intro x hx hxp
      obtain ⟨k, hk⟩ := List.mem_iff_getElem?.mp hx
      by_cases hki : k = i
      · subst hki
        rw [hi] at hk
        cases hk
        exact hpn hxp.symm
      · apply hnot x _ hxp
        rw [hs1]
        exact List.mem_iff_getElem?.mpr ⟨k, by rw [List.getElem?_set, if_neg (Ne.symm hki)]; exact hk⟩

theorem fields_eq (x y : tc_page) (h : record_fields y = record_fields x) :
    y.page_number = x.page_number ∧ y.place_in_pm = x.place_in_pm ∧ y.flag = x.flag ∧
      y.r = x.r ∧ y.m = x.m := by
  simpa [record_fields] using h

theorem fields_mem (t t1 : List tc_page)
    (h : t1.map record_fields = t.map record_fields) (x : tc_page) (hx : x ∈ t1) :
    ∃ y ∈ t, record_fields y = record_fields x := by
  obtain ⟨k, hk⟩ := List.mem_iff_getElem?.mp hx
  obtain ⟨y, hy, hf⟩ := fields_getElem? t t1 h k x hk
  exact ⟨y, List.mem_iff_getElem?.mpr ⟨k, hy⟩, hf⟩

theorem pages_mem (t t1 : List tc_page)
    (h : t1.map tc_page.page_number = t.map tc_page.page_number) (x : tc_page)
    (hx : x ∈ t1) : ∃ y ∈ t, y.page_number = x.page_number := by
  have : x.page_number ∈ t1.map tc_page.page_number := List.mem_map.mpr ⟨x, hx, rfl⟩
  rw [h] at this
  exact List.mem_map.mp this

theorem coupled_of_fields (x y : tc_page) (h : record_fields y = record_fields x)
    (hy : coupled y) : coupled x := by
  obtain ⟨_, _, h3, h4, h5⟩ := fields_eq x y h
  unfold coupled at hy ⊢
  rw [← h3, ← h4, ← h5]
  exact hy

/-- One fault served by `tc_handler` keeps, besides `TcInv`, the coupling of
permission and bits, the frame indices and the protection levels, and every record
it logs describes the faulting page as the table holds it afterwards. -/
theorem tc_step_more (cfg : Config) (fuel : Nat) (s : TcState) (log : List Event)
    (si_addr : Int) (base prot : Int → Int)
    (hN : 2 ≤ cfg.N_FRAMES) (hP : 0 < cfg.PAGE_SIZE) (haddr : 0 ≤ si_addr)
    (hfuel : 2 * cfg.N_FRAMES < (fuel : Int)) (hinv : TcInv cfg s log)
    (hcp : ∀ node ∈ s.heap, coupled node) (hfr : TcFrames s) (hprot : TcProt base prot s) :
    ∃ s1 evs, tc_handler cfg fuel s si_addr = Outcome.ok (s1, evs) ∧
      TcInv cfg s1 (log ++ evs) ∧ (∀ node ∈ s1.heap, coupled node) ∧ TcFrames s1 ∧
      TcProt base (protection_after cfg prot evs) s1 ∧ TcServed cfg s1 si_addr evs := by
  obtain ⟨s1, evs, hh, hinv1, _⟩ := tc_step cfg fuel s log si_addr hN hP haddr hfuel hinv
  refine ⟨s1, evs, hh, hinv1, ?_⟩
  obtain ⟨hpr1, hpr2⟩ := hprot
  have h5s : ∀ node ∈ s.heap, five_state node := fun x hx => (hinv.2.2.2.1 x hx).1
  have hRN : ¬ (PROT_READ = PROT_NONE) := by decide
  have hRRW : ¬ (PROT_READ = PROT_READ_WRITE) := by decide
  have hRWN : ¬ (PROT_READ_WRITE = PROT_NONE) := by decide
  rcases tc_step_cases cfg fuel s log si_addr hN (ne_of_gt hP) hfuel hinv with
    ⟨i, node, htable, hi, hpage, hothers, _, hcase⟩ | ⟨hs, _, hcase⟩ |
    ⟨htable, hmiss, hlt, _, tail_node, htail, hcase⟩ |
    ⟨htable, hmiss, hn, hfull, c, t1, e, evict, scan_events, visited, hclock, hc, hspec,
      hevict, hevictable, hid, h5, hlog, hcount, hscan, _, hcase⟩
  · -- the page is resident
    rw [hh] at hcase
    simp only [Outcome.ok.injEq, Prod.mk.injEq] at hcase
    obtain ⟨hs1, hevs⟩ := hcase
    subst hs1 hevs
    unfold tc_hit
    by_cases hflag : node.flag = PROT_NONE
    · simp only [if_pos hflag]
      obtain ⟨h1, h2, h3, h4⟩ := tc_more_set s
        { s with heap := s.heap.set i { node with r := 1, flag := PROT_READ } } i node
        { node with r := 1, flag := PROT_READ } base prot
        (protection_after cfg prot
          [Event.mprotect (cfg.PAGE_SIZE * Int.tdiv si_addr cfg.PAGE_SIZE) cfg.PAGE_SIZE
             PROT_READ,
           Event.mm_logger (Int.tdiv si_addr cfg.PAGE_SIZE) 2 (-1) 0
             (to_unsigned (node.place_in_pm * cfg.PAGE_SIZE +
               Int.tmod si_addr cfg.PAGE_SIZE))])
        htable.2.2.2.2.2.2 hi rfl rfl
        (by simp [coupled, hRN, hRRW])
        (fun k x hk hx => by rw [hpage]; exact hothers k x hk hx)
        hcp hfr hpr1 (fun pg hb hn _ => hpr2 pg hb hn)
        (by
          intro p
          simp only [protection_after_cons, protection_after_nil, protect_record,
            protect_page cfg hP, hpage]
          by_cases hpv : p = Int.tdiv si_addr cfg.PAGE_SIZE
          · simp only [hpv, if_true]
          · simp only [hpv, if_false])
      refine ⟨h1, h2, h3, ?_⟩
      intro vp c ev wb pa hmem
      simp only [List.mem_cons, List.mem_singleton, List.not_mem_nil, or_false,
        Event.mm_logger.injEq, reduceCtorEq, false_or] at hmem
      obtain ⟨rfl, rfl, rfl, rfl, rfl⟩ := hmem
      exact ⟨rfl, by simp, _, h4, hpage, rfl, fun _ => rfl, fun h => absurd h (by decide)⟩
    · simp only [if_neg hflag]
      obtain ⟨h1, h2, h3, h4⟩ := tc_more_set s
        { s with heap := s.heap.set i { node with r := 1, m := 1, flag := PROT_READ_WRITE } }
        i node { node with r := 1, m := 1, flag := PROT_READ_WRITE } base prot
        (protection_after cfg prot
          (Event.mprotect (cfg.PAGE_SIZE * Int.tdiv si_addr cfg.PAGE_SIZE) cfg.PAGE_SIZE
             PROT_READ_WRITE ::
           (if node.m = 0 then
             [Event.mm_logger (Int.tdiv si_addr cfg.PAGE_SIZE) 1 (-1) 0
               (to_unsigned (node.place_in_pm * cfg.PAGE_SIZE +
                 Int.tmod si_addr cfg.PAGE_SIZE))]
            else [])))
        htable.2.2.2.2.2.2 hi rfl rfl
        (by simp [coupled, hRWN])
        (fun k x hk hx => by rw [hpage]; exact hothers k x hk hx)
        hcp hfr hpr1 (fun pg hb hn _ => hpr2 pg hb hn)
        (by
          intro p
          have : protection_after cfg prot
              (Event.mprotect (cfg.PAGE_SIZE * Int.tdiv si_addr cfg.PAGE_SIZE)
                 cfg.PAGE_SIZE PROT_READ_WRITE ::
               (if node.m = 0 then
                 [Event.mm_logger (Int.tdiv si_addr cfg.PAGE_SIZE) 1 (-1) 0
                   (to_unsigned (node.place_in_pm * cfg.PAGE_SIZE +
                     Int.tmod si_addr cfg.PAGE_SIZE))]
                else [])) p =
              if p = Int.tdiv si_addr cfg.PAGE_SIZE then PROT_READ_WRITE else prot p := by
            by_cases hm : node.m = 0
            · simp only [if_pos hm, protection_after_cons, protection_after_nil,
                protect_record, protect_page cfg hP]
            · simp only [if_neg hm, protection_after_cons, protection_after_nil,
                protect_page cfg hP]
          rw [this]
          simp only [hpage]
          by_cases hpv : p = Int.tdiv si_addr cfg.PAGE_SIZE
          · simp only [hpv, if_true]
          · simp only [hpv, if_false])
      refine ⟨h1, h2, h3, ?_⟩
      intro vp c ev wb pa hmem
      by_cases hm : node.m = 0
      · simp only [if_pos hm, List.mem_cons, List.mem_singleton, List.not_mem_nil,
          or_false, Event.mm_logger.injEq, reduceCtorEq, false_or] at hmem
        obtain ⟨rfl, rfl, rfl, rfl, rfl⟩ := hmem
        exact ⟨rfl, by simp, _, h4, hpage, rfl,
          fun h => by rcases h with h | h <;> exact absurd h (by decide), fun _ => rfl⟩
      · simp only [if_neg hm, List.mem_cons, List.not_mem_nil, or_false,
          reduceCtorEq] at hmem
  · -- the table is empty
    rw [hh] at hcase
    simp only [Outcome.ok.injEq, Prod.mk.injEq] at hcase
    obtain ⟨hs1, hevs⟩ := hcase
    subst hs1 hevs hs
    have hprot1 : ∀ p, protection_after cfg prot
        [Event.mprotect (cfg.PAGE_SIZE * Int.tdiv si_addr cfg.PAGE_SIZE) cfg.PAGE_SIZE
           PROT_READ,
         Event.mm_logger (Int.tdiv si_addr cfg.PAGE_SIZE) 0 (-1) 0
           (to_unsigned (0 * cfg.PAGE_SIZE + Int.tmod si_addr cfg.PAGE_SIZE))] p =
        if p = Int.tdiv si_addr cfg.PAGE_SIZE then PROT_READ else prot p := by
      intro p
      simp only [protection_after_cons, protection_after_nil, protect_record,
        protect_page cfg hP]
    refine ⟨?_, ?_, ⟨?_, ?_⟩, ?_⟩
    · intro x hx
      simp only [List.mem_singleton] at hx
      subst hx
      simp [coupled, create_tc_page, hRN, hRRW]
    · intro k x hx
      cases k with
      | zero =>
        simp only [List.getElem?_cons_zero, Option.some.injEq] at hx
        subst hx
        simp [create_tc_page]
      | succ k => simp at hx
    · intro x hx
      simp only [List.mem_singleton] at hx
      subst hx
      rw [hprot1]
      simp [create_tc_page]
    · intro pg hb hnot
      rw [hprot1]
      have hne : pg ≠ Int.tdiv si_addr cfg.PAGE_SIZE := by
        intro h
        exact hnot (create_tc_page (Int.tdiv si_addr cfg.PAGE_SIZE) 0 PROT_READ 1 0)
          (by simp) (by simp [create_tc_page, h])
      rw [if_neg hne]
      exact hpr2 pg hb (by intro x hx; simp [tc_init] at hx)
    · intro vp c ev wb pa hmem
      simp only [List.mem_cons, List.mem_singleton, List.not_mem_nil, or_false,
        Event.mm_logger.injEq, reduceCtorEq, false_or] at hmem
      obtain ⟨rfl, rfl, rfl, rfl, rfl⟩ := hmem
      exact ⟨rfl, by simp, create_tc_page (Int.tdiv si_addr cfg.PAGE_SIZE) 0 PROT_READ 1 0,
        by simp, rfl, rfl, fun _ => rfl, fun h => absurd h (by decide)⟩
  · -- the table is below capacity
    rw [hh] at hcase
    simp only [Outcome.ok.injEq, Prod.mk.injEq] at hcase
    obtain ⟨hs1, hevs⟩ := hcase
    subst hs1 hevs
    have hprot1 : ∀ p, protection_after cfg prot
        [Event.mprotect (cfg.PAGE_SIZE * Int.tdiv si_addr cfg.PAGE_SIZE) cfg.PAGE_SIZE
           PROT_READ,
         Event.mm_logger (Int.tdiv si_addr cfg.PAGE_SIZE) 0 (-1) 0
           (to_unsigned (s.pages_in_queue_tc * cfg.PAGE_SIZE +
             Int.tmod si_addr cfg.PAGE_SIZE))] p =
        if p = Int.tdiv si_addr cfg.PAGE_SIZE then PROT_READ else prot p := by
      intro p
      simp only [protection_after_cons, protection_after_nil, protect_record,
        protect_page cfg hP]
    have hfields := fields_set_next s.heap (s.heap.length - 1) tail_node
      (some s.heap.length) htail
    simp only
    refine ⟨?_, ?_, ⟨?_, ?_⟩, ?_⟩
    · intro x hx
      rcases List.mem_append.mp hx with h | h
      · obtain ⟨y, hy, hf⟩ := fields_mem _ _ hfields x h
        exact coupled_of_fields x y hf (hcp y hy)
      · simp only [List.mem_singleton] at h
        subst h
        simp [coupled, create_tc_page, hRN, hRRW]
    · intro k x hx
      by_cases hk : k < s.heap.length
      · rw [List.getElem?_append_left (by rw [List.length_set]; exact hk)] at hx
        obtain ⟨y, hy, hf⟩ := fields_getElem? _ _ hfields k x hx
        rw [← (fields_eq x y hf).2.1]
        exact hfr k y hy
      · rw [List.getElem?_append_right (by rw [List.length_set]; omega),
          List.length_set] at hx
        have hk0 : k - s.heap.length = 0 := by
          by_contra hne
          rw [List.getElem?_eq_none (by simp; omega)] at hx
          cases hx
        rw [hk0] at hx
        simp only [List.getElem?_cons_zero, Option.some.injEq] at hx
        subst hx
        simp only [create_tc_page]
        rw [htable.2.1]
        have : k = s.heap.length := by omega
        rw [this]
    · intro x hx
      rw [hprot1]
      rcases List.mem_append.mp hx with h | h
      · obtain ⟨y, hy, hf⟩ := fields_mem _ _ hfields x h
        obtain ⟨f1, _, f3, _, _⟩ := fields_eq x y hf
        rw [if_neg (by rw [← f1]; exact hmiss y hy), ← f1, ← f3]
        exact hpr1 y hy
      · simp only [List.mem_singleton] at h
        subst h
        simp [create_tc_page]
    · intro pg hb hnot
      rw [hprot1]
      have hne : pg ≠ Int.tdiv si_addr cfg.PAGE_SIZE := by
        intro h
        exact hnot _ (List.mem_append_right _ (List.mem_singleton.mpr rfl))
          (by simp [create_tc_page, h])
      rw [if_neg hne]
      apply hpr2 pg hb
      intro y hy hyp
      obtain ⟨x, hx, hf⟩ := fields_mem _ _ hfields.symm y hy
      exact hnot x (List.mem_append_left _ hx) (by rw [(fields_eq y x hf).1]; exact hyp)
    · intro vp c ev wb pa hmem
      simp only [List.mem_cons, List.mem_singleton, List.not_mem_nil, or_false,
        Event.mm_logger.injEq, reduceCtorEq, false_or] at hmem
      obtain ⟨rfl, rfl, rfl, rfl, rfl⟩ := hmem
      exact ⟨rfl, by simp, _, List.mem_append_right _ (List.mem_singleton.mpr rfl),
        rfl, rfl, fun _ => rfl, fun h => absurd h (by decide)⟩
  · -- the table is full
    rw [hh] at hcase
    simp only [Outcome.ok.injEq, Prod.mk.injEq] at hcase
    obtain ⟨hs1, hevs⟩ := hcase
    subst hs1 hevs
    have hnd := htable.2.2.2.2.2.2
    have hpages := identity_pages s.heap t1 hid
    have hev_mem : evict ∈ t1 := List.mem_iff_getElem?.mpr ⟨e, hevict⟩
    have hev_ne : Int.tdiv si_addr cfg.PAGE_SIZE ≠ evict.page_number := by
      obtain ⟨y, hy, hyp⟩ := pages_mem s.heap t1 hpages evict hev_mem
      intro h
      exact hmiss y hy (by rw [hyp, h])
    have hpr0 : ∀ node ∈ s.heap,
        protect cfg prot (Event.mprotect (cfg.PAGE_SIZE * Int.tdiv si_addr cfg.PAGE_SIZE)
          cfg.PAGE_SIZE PROT_READ) node.page_number = node.flag := by
      intro node hm
      rw [protect_page cfg hP, if_neg (hmiss node hm)]
      exact hpr1 node hm
    obtain ⟨hsc1, hsc2⟩ := tc_scan_more cfg hP _ fuel s.heap c _ htable.2.2.2.2.2.1 hn h5s
      hc hnd hcp hpr0 hscan
    simp only at hsc1 hsc2
    obtain ⟨h1, h2, h3, h4⟩ := tc_more_set { s with heap := t1 }
      { s with
        heap := t1.set e { evict with
          page_number := Int.tdiv si_addr cfg.PAGE_SIZE, flag := PROT_READ, r := 1, m := 0 },
        clock_head := some ((e + 1) % s.heap.length) } e evict
      { evict with
        page_number := Int.tdiv si_addr cfg.PAGE_SIZE, flag := PROT_READ, r := 1, m := 0 }
      base
      (protection_after cfg
        (protect cfg prot (Event.mprotect (cfg.PAGE_SIZE * Int.tdiv si_addr cfg.PAGE_SIZE)
          cfg.PAGE_SIZE PROT_READ)) scan_events)
      (protection_after cfg prot
        (Event.mprotect (cfg.PAGE_SIZE * Int.tdiv si_addr cfg.PAGE_SIZE) cfg.PAGE_SIZE
            PROT_READ ::
          scan_events ++
          [Event.mprotect (cfg.PAGE_SIZE * evict.page_number) cfg.PAGE_SIZE PROT_NONE,
           Event.mm_logger (Int.tdiv si_addr cfg.PAGE_SIZE) 0 evict.page_number evict.m
             (to_unsigned (evict.place_in_pm * cfg.PAGE_SIZE +
               Int.tmod si_addr cfg.PAGE_SIZE))]))
      (by show (t1.map tc_page.page_number).Nodup; rw [hpages]; exact hnd)
      hevict rfl rfl
      (by simp [coupled, hRN, hRRW])
      (by
        intro k x _ hx
        obtain ⟨y, hy, hyp⟩ := pages_mem s.heap t1 hpages x
          (List.mem_iff_getElem?.mpr ⟨k, hx⟩)
        show x.page_number ≠ Int.tdiv si_addr cfg.PAGE_SIZE
        rw [← hyp]
        exact hmiss y hy)
      (fun x hx => (hsc1 x hx).1)
      (by
        intro k x hx
        obtain ⟨y, hy, hf⟩ := identity_getElem? s.heap t1 hid k x hx
        have : y.place_in_pm = x.place_in_pm := by
          have := congrArg (fun z => z.2.1) hf
          simpa [page_identity] using this
        rw [← this]
        exact hfr k y hy)
      (fun x hx => (hsc1 x hx).2)
      (by
        intro pg hb hnot hne
        have hnot2 : ∀ y ∈ s.heap, y.page_number ≠ pg := by
          intro y hy hyp
          obtain ⟨x, hx, hxp⟩ := pages_mem t1 s.heap hpages.symm y hy
          exact hnot x hx (by rw [hxp]; exact hyp)
        rw [hsc2 pg hnot2, protect_page cfg hP, if_neg hne]
        exact hpr2 pg hb hnot2)
      (by
        intro p
        rw [List.cons_append, protection_after_cons, protection_after_append]
        simp only [protection_after_cons, protection_after_nil, protect_record,
          protect_page cfg hP]
        by_cases hpv : p = Int.tdiv si_addr cfg.PAGE_SIZE
        · subst hpv
          rw [if_neg hev_ne, if_pos rfl, hsc2 _ hmiss, protect_page cfg hP, if_pos rfl]
        · rw [if_neg hpv])
    refine ⟨h1, h2, h3, ?_⟩
    intro vp c ev wb pa hmem
    simp only [List.mem_cons, List.mem_append, List.mem_singleton, List.not_mem_nil,
      or_false, Event.mm_logger.injEq, reduceCtorEq, false_or] at hmem
    rcases hmem with hmem | hmem
    · have := not_record_of_quiet scan_events hlog _ hmem
      simp [is_record] at this
    · obtain ⟨rfl, rfl, rfl, rfl, rfl⟩ := hmem
      exact ⟨rfl, by simp, _, h4, rfl, rfl, fun _ => rfl, fun h => absurd h (by decide)⟩

theorem tc_run_more (cfg : Config) (fuel : Nat) (base : Int → Int) (hN : 2 ≤ cfg.N_FRAMES)
    (hP : 0 < cfg.PAGE_SIZE) (hfuel : 2 * cfg.N_FRAMES < (fuel : Int)) (faults : List Int) :
    ∀ (s : TcState) (log : List Event) (prot : Int → Int), (∀ d ∈ faults, 0 ≤ d) →
      TcInv cfg s log → (∀ node ∈ s.heap, coupled node) → TcFrames s →
      TcProt base prot s →
      ∃ s1 evs, tc_run cfg fuel s faults = Outcome.ok (s1, evs) ∧
        TcInv cfg s1 (log ++ evs) ∧ (∀ node ∈ s1.heap, coupled node) ∧ TcFrames s1 ∧
        TcProt base (protection_after cfg prot evs) s1 := by
  induction faults with
  | nil =>
    intro s log prot _ hinv hcp hfr hpr
    exact ⟨s, [], rfl, by simpa using hinv, hcp, hfr, hpr⟩
  | cons d ds ih =>
    intro s log prot hds hinv hcp hfr hpr
    obtain ⟨s1, evs1, h1, hinv1, hcp1, hfr1, hpr1, _⟩ :=
      tc_step_more cfg fuel s log d base prot hN hP (hds d (List.mem_cons_self d ds)) hfuel
        hinv hcp hfr hpr
    obtain ⟨s2, evs2, h2, hinv2, hcp2, hfr2, hpr2⟩ :=
      ih s1 (log ++ evs1) _ (fun x hx => hds x (List.mem_cons_of_mem d hx)) hinv1 hcp1 hfr1
        hpr1
    refine ⟨s2, evs1 ++ evs2, ?_, by simpa [List.append_assoc] using hinv2, hcp2, hfr2, ?_⟩
    · simp [tc_run, h1, h2]
    · rw [protection_after_append]; exact hpr2

theorem tc_reach_more (cfg : Config) (fuel : Nat) (base : Int → Int)
    (hN : 2 ≤ cfg.N_FRAMES) (hP : 0 < cfg.PAGE_SIZE)
    (hfuel : 2 * cfg.N_FRAMES < (fuel : Int)) (faults : List Int)
    (hfaults : ∀ d ∈ faults, 0 ≤ d) :
    ∃ s evs, tc_run cfg fuel tc_init faults = Outcome.ok (s, evs) ∧ TcInv cfg s evs ∧
      (∀ node ∈ s.heap, coupled node) ∧ TcFrames s ∧
      TcProt base (protection_after cfg base evs) s := by
  have h := tc_run_more cfg fuel base hN hP hfuel faults tc_init [] base hfaults
    (tc_inv_init cfg (by omega)) (by simp [tc_init])
    (by intro i node h; simp [tc_init] at h)
    ⟨by simp [tc_init], fun pg hb _ => hb⟩
  simpa using h

theorem tc_frames_range (s : TcState) (hfr : TcFrames s) :
    s.heap.map tc_page.place_in_pm = (List.range s.heap.length).map (fun i : Nat => (i : Int)) := by
  apply List.ext_getElem?
  intro i
  rw [List.getElem?_map, List.getElem?_map]
  by_cases hi : i < s.heap.length
  · rw [List.getElem?_eq_getElem hi, List.getElem?_range hi]
    simp only [Option.map_some']
    rw [hfr i _ (List.getElem?_eq_getElem hi)]
  · rw [List.getElem?_eq_none (by omega), List.getElem?_eq_none (by simp; omega)]
    rfl

theorem tc_pages_nodup (cfg : Config) (s : TcState) (log : List Event)
    (hinv : TcInv cfg s log) : (s.heap.map tc_page.page_number).Nodup := by
  by_cases hnil : s.heap = []
  · rw [hnil]; exact List.nodup_nil
  · exact (hinv.2.2.1 hnil).2.2.2.2.2.2

/-- C12. Third-Chance table invariant: from the empty table, with at least two
frames, every run of faults is served and leaves a table with at most `N_FRAMES`
records, pairwise distinct page numbers and pairwise distinct frame indices; the
record at ring position `i` has frame index `i`, so the frame indices of a table of
`N_FRAMES` records are exactly `0, 1, ..., N_FRAMES - 1`. -/
theorem tc_table_invariant (cfg : Config) (fuel : Nat) (faults : List Int)
    (hN : 2 ≤ cfg.N_FRAMES) (hP : 0 < cfg.PAGE_SIZE)
    (hfuel : 2 * cfg.N_FRAMES < (fuel : Int)) (hfaults : ∀ d ∈ faults, 0 ≤ d) :
    ∃ s evs, tc_run cfg fuel tc_init faults = Outcome.ok (s, evs) ∧
      (s.heap.length : Int) ≤ cfg.N_FRAMES ∧
      (s.heap.map tc_page.page_number).Nodup ∧
      (s.heap.map tc_page.place_in_pm).Nodup ∧
      (∀ (i : Nat) (node : tc_page), s.heap[i]? = some node →
        node.place_in_pm = (i : Int)) ∧
      ((s.heap.length : Int) = cfg.N_FRAMES →
        s.heap.map tc_page.place_in_pm =
          (List.range cfg.N_FRAMES.toNat).map (fun i : Nat => (i : Int))) := by
  obtain ⟨s, evs, hrun, hinv, _, hfr, _⟩ :=
    tc_reach_more cfg fuel (fun _ => PROT_NONE) hN hP hfuel faults hfaults
  have hrange := tc_frames_range s hfr
  refine ⟨s, evs, hrun, hinv.1, tc_pages_nodup cfg s evs hinv, ?_, hfr, ?_⟩
  · rw [hrange]
    exact (List.nodup_range _).map (fun a b h => by simpa using h)
  · intro hfull
    rw [hrange, ← hfull]
    simp

/-- Witness for C12: two frames, faults on pages 0, 1, 0 (a write), 2 and 3. -/
theorem tc_table_invariant_witness :
    ∃ s evs, tc_run { VM_SIZE := 32768, N_FRAMES := 2, PAGE_SIZE := 4096, POLICY := 2 } 5
        tc_init [0, 4096, 5, 8199, 12288] = Outcome.ok (s, evs) ∧
      (s.heap.length : Int) ≤ 2 ∧
      (s.heap.map tc_page.page_number).Nodup ∧
      (s.heap.map tc_page.place_in_pm).Nodup ∧
      (∀ (i : Nat) (node : tc_page), s.heap[i]? = some node →
        node.place_in_pm = (i : Int)) ∧
      ((s.heap.length : Int) = 2 →
        s.heap.map tc_page.place_in_pm =
          (List.range (2 : Int).toNat).map (fun i : Nat => (i : Int))) :=
  tc_table_invariant
    { VM_SIZE := 32768, N_FRAMES := 2, PAGE_SIZE := 4096, POLICY := 2 } 5
    [0, 4096, 5, 8199, 12288] (by decide) (by decide) (by decide) (by decide)

/-- C19. Third-Chance bit coupling: from the empty table, with at least two frames,
every run of faults is served and every record of the table it leaves has its
(reference, modified) pair among (0,0), (1,0), (1,1), (0,1), (-1,1), has permission
NONE exactly when its reference is not 1, and has modified = 1 whenever its
permission is READ_WRITE. -/
theorem tc_bit_coupling (cfg : Config) (fuel : Nat) (faults : List Int)
    (hN : 2 ≤ cfg.N_FRAMES) (hP : 0 < cfg.PAGE_SIZE)
    (hfuel : 2 * cfg.N_FRAMES < (fuel : Int)) (hfaults : ∀ d ∈ faults, 0 ≤ d) :
    ∃ s evs, tc_run cfg fuel tc_init faults = Outcome.ok (s, evs) ∧
      ∀ node ∈ s.heap, five_state node ∧ (node.flag = PROT_NONE ↔ node.r ≠ 1) ∧
        (node.flag = PROT_READ_WRITE → node.m = 1) := by
  obtain ⟨s, evs, hrun, hinv, hcp, _, _⟩ :=
    tc_reach_more cfg fuel (fun _ => PROT_NONE) hN hP hfuel faults hfaults
  exact ⟨s, evs, hrun, fun node hm => ⟨(hinv.2.2.2.1 node hm).1, hcp node hm⟩⟩

/-- Witness for C19: two frames, faults on pages 0, 1, 0 (a write), 2 and 3. -/
theorem tc_bit_coupling_witness :
    ∃ s evs, tc_run { VM_SIZE := 32768, N_FRAMES := 2, PAGE_SIZE := 4096, POLICY := 2 } 5
        tc_init [0, 4096, 5, 8199, 12288] = Outcome.ok (s, evs) ∧
      ∀ node ∈ s.heap, five_state node ∧ (node.flag = PROT_NONE ↔ node.r ≠ 1) ∧
        (node.flag = PROT_READ_WRITE → node.m = 1) :=
  tc_bit_coupling
    { VM_SIZE := 32768, N_FRAMES := 2, PAGE_SIZE := 4096, POLICY := 2 } 5
    [0, 4096, 5, 8199, 12288] (by decide) (by decide) (by decide) (by decide)

theorem tc_admit_below (cfg : Config) (fuel : Nat) (s : TcState) (si_addr : Int)
    (hP : cfg.PAGE_SIZE ≠ 0) (hs : s = tc_init ∨ TcTable s)
    (hlt : (s.heap.length : Int) < cfg.N_FRAMES)
    (hmiss : ∀ node ∈ s.heap, node.page_number ≠ Int.tdiv si_addr cfg.PAGE_SIZE)
    (hfuel : s.heap.length ≤ fuel)
    (hfit0 : 0 ≤ (s.heap.length : Int) * cfg.PAGE_SIZE + Int.tmod si_addr cfg.PAGE_SIZE)
    (hfit1 : (s.heap.length : Int) * cfg.PAGE_SIZE + Int.tmod si_addr cfg.PAGE_SIZE
      < 4294967296) :
    ∃ s1, tc_handler cfg fuel s si_addr =
        Outcome.ok (s1,
          [Event.mprotect (cfg.PAGE_SIZE * Int.tdiv si_addr cfg.PAGE_SIZE) cfg.PAGE_SIZE
             PROT_READ,
           Event.mm_logger (Int.tdiv si_addr cfg.PAGE_SIZE) 0 (-1) 0
             ((s.heap.length : Int) * cfg.PAGE_SIZE + Int.tmod si_addr cfg.PAGE_SIZE)]) ∧
      s1.heap.map record_fields = s.heap.map record_fields ++
        [(Int.tdiv si_addr cfg.PAGE_SIZE, (s.heap.length : Int), PROT_READ, 1, 0)] ∧
      s1.pages_in_queue_tc = (s.heap.length : Int) + 1 ∧
      (s.heap = [] → s1.clock_head = some 0) ∧
      (s.heap ≠ [] → s1.clock_head = s.clock_head) := by
  rcases hs with hs | htable
  · subst hs
    have hN : 0 < cfg.N_FRAMES := by simpa [tc_init] using hlt
    have hh := tc_handler_miss cfg fuel tc_init si_addr hP (Or.inl rfl) hmiss
    rw [tc_miss_first cfg fuel _ _ hN] at hh
    have hfit0a : 0 ≤ 0 * cfg.PAGE_SIZE + Int.tmod si_addr cfg.PAGE_SIZE := by
      simpa [tc_init] using hfit0
    have hfit1a : 0 * cfg.PAGE_SIZE + Int.tmod si_addr cfg.PAGE_SIZE < 4294967296 := by
      simpa [tc_init] using hfit1
    rw [to_unsigned_of_fits _ hfit0a hfit1a] at hh
    refine ⟨_, hh, ?_, ?_, fun _ => rfl, fun h => absurd rfl h⟩
    · simp [tc_init, record_fields, create_tc_page]
    · simp [tc_init]
  · have hcount := htable.2.1
    have hh := tc_handler_miss cfg fuel s si_addr hP (Or.inr ⟨htable, hfuel⟩) hmiss
    obtain ⟨tail_node, htn, hmiss1⟩ :=
      tc_miss_below cfg fuel s (Int.tdiv si_addr cfg.PAGE_SIZE)
        (Int.tmod si_addr cfg.PAGE_SIZE) htable (by rw [hcount]; exact hlt)
    rw [hmiss1, hcount, to_unsigned_of_fits _ hfit0 hfit1] at hh
    have hne : s.heap ≠ [] := by
      intro h
      have := htable.1
      rw [h] at this
      simp at this
    refine ⟨_, hh, ?_, rfl, fun h => absurd h hne, fun _ => rfl⟩
    simp only [List.map_append, List.map_cons, List.map_nil]
    rw [fields_set_next s.heap _ tail_node _ htn]
    simp [record_fields, create_tc_page]

/-- C15. Admission below capacity, for both policies: on a table of `L` records,
`L < N_FRAMES`, that does not hold the faulting page, the handler appends the record
(page, frame index `L`, permission READ), for Third-Chance with reference 1 and
modified 0; the records already there keep their fields, the counter becomes
`L + 1`, the Third-Chance clock hand is set to the new record (address 0) when
`L = 0` and is left alone otherwise; the calls made are the grant of READ and the
one record `(virtual_page, 0, -1, 0, L * page_size + offset)`. -/
theorem admission_below_capacity (cfgF cfgT : Config) (fuel : Nat) (sF : FifoState)
    (sT : TcState) (dF dT : Int)
    (hPF : cfgF.PAGE_SIZE ≠ 0)
    (hcountF : sF.pages_in_queue_fifo = (sF.queue.length : Int))
    (hltF : (sF.queue.length : Int) < cfgF.N_FRAMES)
    (hmissF : ∀ p ∈ sF.queue, p.page_number ≠ Int.tdiv dF cfgF.PAGE_SIZE)
    (hfitF0 : 0 ≤ (sF.queue.length : Int) * cfgF.PAGE_SIZE + Int.tmod dF cfgF.PAGE_SIZE)
    (hfitF1 : (sF.queue.length : Int) * cfgF.PAGE_SIZE + Int.tmod dF cfgF.PAGE_SIZE
      < 4294967296)
    (hPT : cfgT.PAGE_SIZE ≠ 0) (hsT : sT = tc_init ∨ TcTable sT)
    (hltT : (sT.heap.length : Int) < cfgT.N_FRAMES)
    (hmissT : ∀ node ∈ sT.heap, node.page_number ≠ Int.tdiv dT cfgT.PAGE_SIZE)
    (hfuel : sT.heap.length ≤ fuel)
    (hfitT0 : 0 ≤ (sT.heap.length : Int) * cfgT.PAGE_SIZE + Int.tmod dT cfgT.PAGE_SIZE)
    (hfitT1 : (sT.heap.length : Int) * cfgT.PAGE_SIZE + Int.tmod dT cfgT.PAGE_SIZE
      < 4294967296) :
    fifo_handler cfgF sF dF =
      Outcome.ok
        ({ queue := sF.queue ++
             [{ page_number := Int.tdiv dF cfgF.PAGE_SIZE,
                place_in_pm := (sF.queue.length : Int), flag := PROT_READ }],
           pages_in_queue_fifo := (sF.queue.length : Int) + 1 },
         [Event.mprotect (cfgF.PAGE_SIZE * Int.tdiv dF cfgF.PAGE_SIZE) cfgF.PAGE_SIZE
            PROT_READ,
          Event.mm_logger (Int.tdiv dF cfgF.PAGE_SIZE) 0 (-1) 0
            ((sF.queue.length : Int) * cfgF.PAGE_SIZE + Int.tmod dF cfgF.PAGE_SIZE)]) ∧
    ∃ s1, tc_handler cfgT fuel sT dT =
        Outcome.ok (s1,
          [Event.mprotect (cfgT.PAGE_SIZE * Int.tdiv dT cfgT.PAGE_SIZE) cfgT.PAGE_SIZE
             PROT_READ,
           Event.mm_logger (Int.tdiv dT cfgT.PAGE_SIZE) 0 (-1) 0
             ((sT.heap.length : Int) * cfgT.PAGE_SIZE + Int.tmod dT cfgT.PAGE_SIZE)]) ∧
      s1.heap.map record_fields = sT.heap.map record_fields ++
        [(Int.tdiv dT cfgT.PAGE_SIZE, (sT.heap.length : Int), PROT_READ, 1, 0)] ∧
      s1.pages_in_queue_tc = (sT.heap.length : Int) + 1 ∧
      (sT.heap = [] → s1.clock_head = some 0) ∧
      (sT.heap ≠ [] → s1.clock_head = sT.clock_head) :=
  ⟨fifo_admit_below cfgF sF dF hPF hcountF hltF hmissF hfitF0 hfitF1,
   tc_admit_below cfgT fuel sT dT hPT hsT hltT hmissT hfuel hfitT0 hfitT1⟩

/-- Witness for C15: two frames; FIFO holds page 0 and page 1 faults at offset 4;
Third-Chance is empty and page 3 faults at offset 7. -/
theorem admission_below_capacity_witness :
    fifo_handler { VM_SIZE := 32768, N_FRAMES := 2, PAGE_SIZE := 4096, POLICY := 1 }
        { queue := [{ page_number := 0, place_in_pm := 0, flag := PROT_READ }],
          pages_in_queue_fifo := 1 } 4100 =
      Outcome.ok
        ({ queue := [{ page_number := 0, place_in_pm := 0, flag := PROT_READ },
                     { page_number := 1, place_in_pm := 1, flag := PROT_READ }],
           pages_in_queue_fifo := 2 },
         [Event.mprotect 4096 4096 PROT_READ, Event.mm_logger 1 0 (-1) 0 4100]) ∧
    ∃ s1, tc_handler { VM_SIZE := 32768, N_FRAMES := 2, PAGE_SIZE := 4096, POLICY := 2 } 5
          tc_init 12295 =
        Outcome.ok (s1,
          [Event.mprotect 12288 4096 PROT_READ, Event.mm_logger 3 0 (-1) 0 7]) ∧
      s1.heap.map record_fields = [(3, 0, PROT_READ, 1, 0)] ∧
      s1.pages_in_queue_tc = 1 ∧
      (tc_init.heap = [] → s1.clock_head = some 0) ∧
      (tc_init.heap ≠ [] → s1.clock_head = tc_init.clock_head) :=
  admission_below_capacity
    { VM_SIZE := 32768, N_FRAMES := 2, PAGE_SIZE := 4096, POLICY := 1 }
    { VM_SIZE := 32768, N_FRAMES := 2, PAGE_SIZE := 4096, POLICY := 2 } 5
    { queue := [{ page_number := 0, place_in_pm := 0, flag := PROT_READ }],
      pages_in_queue_fifo := 1 }
    tc_init 4100 12295
    (by decide) rfl (by decide) (by decide) (by decide) (by decide)
    (by decide) (Or.inl rfl) (by decide) (by decide) (by decide) (by decide) (by decide)

/-! ### Protection levels and physical addresses along a run -/

theorem traps_none (is_write : Bool) : traps PROT_NONE is_write = true := by
  cases is_write <;> decide

theorem traps_read : traps PROT_READ false = false := by decide

theorem traps_read_write (is_write : Bool) : traps PROT_READ_WRITE is_write = false := by
  cases is_write <;> decide

theorem fifo_access_quiet (cfg : Config) (s : FifoState) (prot : Int → Int) (a : Int)
    (is_write : Bool) (h : traps (prot (Int.tdiv a cfg.PAGE_SIZE)) is_write = false) :
    fifo_access cfg s prot a is_write = Outcome.ok (s, []) := by
  unfold fifo_access
  rw [h]
  simp

theorem tc_access_quiet (cfg : Config) (fuel : Nat) (s : TcState) (prot : Int → Int)
    (a : Int) (is_write : Bool)
    (h : traps (prot (Int.tdiv a cfg.PAGE_SIZE)) is_write = false) :
    tc_access cfg fuel s prot a is_write = Outcome.ok (s, []) := by
  unfold tc_access
  rw [h]
  simp

/-- C17. Repeated faults are suppressed by the granted permission, for both
policies.  The protection level of a page is what the calls of `mprotect` made so
far leave it at, and an access runs the handler only if it traps at that level.  In
the state reached by any run of faults, when the handler serves one more fault and
logs a record for page `p`: the cause is 0, 1 or 2; after cause 0 or 2 the level of
`p` is READ and a read of `p` runs no handler; after cause 1 the level of `p` is
READ_WRITE and neither a read nor a write of `p` runs a handler, so the access logs
nothing. -/
theorem granted_permission_suppresses_trap (cfgF cfgT : Config) (fuel : Nat)
    (protF protT : Int → Int) (faultsF faultsT : List Int) (dF dT : Int)
    (hNF : 1 ≤ cfgF.N_FRAMES) (hPF : 0 < cfgF.PAGE_SIZE)
    (hfF : ∀ d ∈ faultsF, 0 ≤ d) (hdF : 0 ≤ dF)
    (hNT : 2 ≤ cfgT.N_FRAMES) (hPT : 0 < cfgT.PAGE_SIZE)
    (hfuel : 2 * cfgT.N_FRAMES < (fuel : Int))
    (hfT : ∀ d ∈ faultsT, 0 ≤ d) (hdT : 0 ≤ dT) :
    (∃ s evs s1 evs1, fifo_run cfgF fifo_init faultsF = Outcome.ok (s, evs) ∧
      fifo_handler cfgF s dF = Outcome.ok (s1, evs1) ∧
      ∀ p cause evicted_page write_back phy_addr,
        Event.mm_logger p cause evicted_page write_back phy_addr ∈ evs1 →
        (cause = 0 ∨ cause = 1 ∨ cause = 2) ∧
        ((cause = 0 ∨ cause = 2) →
          protection_after cfgF protF (evs ++ evs1) p = PROT_READ ∧
          ∀ a, Int.tdiv a cfgF.PAGE_SIZE = p →
            fifo_access cfgF s1 (protection_after cfgF protF (evs ++ evs1)) a false =
              Outcome.ok (s1, [])) ∧
        (cause = 1 →
          protection_after cfgF protF (evs ++ evs1) p = PROT_READ_WRITE ∧
          ∀ a is_write, Int.tdiv a cfgF.PAGE_SIZE = p →
            fifo_access cfgF s1 (protection_after cfgF protF (evs ++ evs1)) a is_write =
              Outcome.ok (s1, []))) ∧
    (∃ s evs s1 evs1, tc_run cfgT fuel tc_init faultsT = Outcome.ok (s, evs) ∧
      tc_handler cfgT fuel s dT = Outcome.ok (s1, evs1) ∧
      ∀ p cause evicted_page write_back phy_addr,
        Event.mm_logger p cause evicted_page write_back phy_addr ∈ evs1 →
        (cause = 0 ∨ cause = 1 ∨ cause = 2) ∧
        ((cause = 0 ∨ cause = 2) →
          protection_after cfgT protT (evs ++ evs1) p = PROT_READ ∧
          ∀ a, Int.tdiv a cfgT.PAGE_SIZE = p →
            tc_access cfgT fuel s1 (protection_after cfgT protT (evs ++ evs1)) a false =
              Outcome.ok (s1, [])) ∧
        (cause = 1 →
          protection_after cfgT protT (evs ++ evs1) p = PROT_READ_WRITE ∧
          ∀ a is_write, Int.tdiv a cfgT.PAGE_SIZE = p →
            tc_access cfgT fuel s1 (protection_after cfgT protT (evs ++ evs1)) a is_write =
              Outcome.ok (s1, []))) := by
  constructor
  · obtain ⟨s, evs, hrun, hinv, hfr, hpr⟩ := fifo_reach_more cfgF protF hNF hPF faultsF hfF
    obtain ⟨s1, evs1, hh, _, _, hpr1, hserved⟩ :=
      fifo_step_more cfgF s evs dF protF _ hNF hPF hdF hinv hfr hpr
    rw [← protection_after_append] at hpr1
    refine ⟨s, evs, s1, evs1, hrun, hh, ?_⟩
    intro p cause ev wb pa hmem
    obtain ⟨_, hcause, record, hrec, hpage, _, hread, hwrite⟩ := hserved p cause ev wb pa hmem
    have hlevel := hpr1.1 record hrec
    rw [hpage] at hlevel
    refine ⟨hcause, ?_, ?_⟩
    · intro hc
      have hl : protection_after cfgF protF (evs ++ evs1) p = PROT_READ := by
        rw [hlevel]; exact hread hc
      refine ⟨hl, fun a ha => fifo_access_quiet cfgF s1 _ a false ?_⟩
      rw [ha, hl]; exact traps_read
    · intro hc
      have hl : protection_after cfgF protF (evs ++ evs1) p = PROT_READ_WRITE := by
        rw [hlevel]; exact hwrite hc
      refine ⟨hl, fun a is_write ha => fifo_access_quiet cfgF s1 _ a is_write ?_⟩
      rw [ha, hl]; exact traps_read_write is_write
  · obtain ⟨s, evs, hrun, hinv, hcp, hfr, hpr⟩ :=
      tc_reach_more cfgT fuel protT hNT hPT hfuel faultsT hfT
    obtain ⟨s1, evs1, hh, _, _, _, hpr1, hserved⟩ :=
      tc_step_more cfgT fuel s evs dT protT _ hNT hPT hdT hfuel hinv hcp hfr hpr
    rw [← protection_after_append] at hpr1
    refine ⟨s, evs, s1, evs1, hrun, hh, ?_⟩
    intro p cause ev wb pa hmem
    obtain ⟨_, hcause, record, hrec, hpage, _, hread, hwrite⟩ := hserved p cause ev wb pa hmem
    have hlevel := hpr1.1 record hrec
    rw [hpage] at hlevel
    refine ⟨hcause, ?_, ?_⟩
    · intro hc
      have hl : protection_after cfgT protT (evs ++ evs1) p = PROT_READ := by
        rw [hlevel]; exact hread hc
      refine ⟨hl, fun a ha => tc_access_quiet cfgT fuel s1 _ a false ?_⟩
      rw [ha, hl]; exact traps_read
    · intro hc
      have hl : protection_after cfgT protT (evs ++ evs1) p = PROT_READ_WRITE := by
        rw [hlevel]; exact hwrite hc
      refine ⟨hl, fun a is_write ha => tc_access_quiet cfgT fuel s1 _ a is_write ?_⟩
      rw [ha, hl]; exact traps_read_write is_write

theorem protect_range (cfg : Config) (hP : 0 < cfg.PAGE_SIZE) (prot : Int → Int)
    (pg : Int) (h : page_in_range cfg pg) :
    protect cfg prot (Event.mprotect 0 cfg.VM_SIZE PROT_NONE) pg = PROT_NONE := by
  unfold page_in_range at h
  simp only [protect]
  rw [if_pos ⟨by omega, h.1, by rw [zero_add]; exact h.2⟩]

/-- C18. The protection levels mirror the table, for both policies.  `mm_init`
installs the handler of the policy and puts the whole range at level NONE; after any
run of faults from there (at least one frame for FIFO, at least two for Third-Chance,
whose table starts empty), the level of every page that has a record is the flag of
that record, and every page of the range without a record is at level NONE, so a
read or a write of it traps. -/
theorem protection_mirrors_table (g : Globals) (prot0 : Int → Int)
    (vm_size page_size n_frames_fifo n_frames_tc : Int) (fuel : Nat)
    (faultsF faultsT : List Int)
    (hP : 0 < page_size) (hNF : 1 ≤ n_frames_fifo) (hNT : 2 ≤ n_frames_tc)
    (hfuel : 2 * n_frames_tc < (fuel : Int))
    (hfF : ∀ d ∈ faultsF, 0 ≤ d) (hfT : ∀ d ∈ faultsT, 0 ≤ d)
    (hfresh : g.tc.heap = []) :
    (∃ g1 calls s evs,
      mm_init g vm_size n_frames_fifo page_size 1 = (g1, Handler.fifo_handler, calls) ∧
      fifo_run g1.cfg g1.fifo faultsF = Outcome.ok (s, evs) ∧
      (∀ record ∈ s.queue,
        protection_after g1.cfg prot0 (calls ++ evs) record.page_number = record.flag) ∧
      (∀ pg, page_in_range g1.cfg pg → (∀ record ∈ s.queue, record.page_number ≠ pg) →
        protection_after g1.cfg prot0 (calls ++ evs) pg = PROT_NONE ∧
        ∀ is_write, traps (protection_after g1.cfg prot0 (calls ++ evs) pg) is_write
          = true)) ∧
    (∃ g1 calls s evs,
      mm_init g vm_size n_frames_tc page_size 2 = (g1, Handler.tc_handler, calls) ∧
      tc_run g1.cfg fuel g1.tc faultsT = Outcome.ok (s, evs) ∧
      (∀ record ∈ s.heap,
        protection_after g1.cfg prot0 (calls ++ evs) record.page_number = record.flag) ∧
      (∀ pg, page_in_range g1.cfg pg → (∀ record ∈ s.heap, record.page_number ≠ pg) →
        protection_after g1.cfg prot0 (calls ++ evs) pg = PROT_NONE ∧
        ∀ is_write, traps (protection_after g1.cfg prot0 (calls ++ evs) pg) is_write
          = true)) := by
  constructor
  · obtain ⟨s, evs, hrun, _, _, hpr⟩ := fifo_reach_more
      { VM_SIZE := vm_size, N_FRAMES := n_frames_fifo, PAGE_SIZE := page_size, POLICY := 1 }
      (protection_after
        { VM_SIZE := vm_size, N_FRAMES := n_frames_fifo, PAGE_SIZE := page_size,
          POLICY := 1 } prot0 [Event.mprotect 0 vm_size PROT_NONE])
      hNF hP faultsF hfF
    rw [← protection_after_append] at hpr
    refine ⟨{ cfg := { VM_SIZE := vm_size, N_FRAMES := n_frames_fifo,
                       PAGE_SIZE := page_size, POLICY := 1 },
              fifo := { queue := [], pages_in_queue_fifo := 0 }, tc := g.tc },
      [Event.mprotect 0 vm_size PROT_NONE], s, evs, by simp [mm_init], hrun, hpr.1, ?_⟩
    intro pg hrange hnot
    have := hpr.2 pg (protect_range _ hP prot0 pg hrange) hnot
    exact ⟨this, fun is_write => by rw [this]; exact traps_none is_write⟩
  · obtain ⟨s, evs, hrun, _, _, _, hpr⟩ := tc_reach_more
      { VM_SIZE := vm_size, N_FRAMES := n_frames_tc, PAGE_SIZE := page_size, POLICY := 2 }
      fuel
      (protection_after
        { VM_SIZE := vm_size, N_FRAMES := n_frames_tc, PAGE_SIZE := page_size,
          POLICY := 2 } prot0 [Event.mprotect 0 vm_size PROT_NONE])
      hNT hP hfuel faultsT hfT
    rw [← protection_after_append] at hpr
    refine ⟨{ cfg := { VM_SIZE := vm_size, N_FRAMES := n_frames_tc,
                       PAGE_SIZE := page_size, POLICY := 2 },
              fifo := g.fifo, tc := tc_init },
      [Event.mprotect 0 vm_size PROT_NONE], s, evs, ?_, hrun, hpr.1, ?_⟩
    · simp [mm_init, tc_init, hfresh]
    · intro pg hrange hnot
      have := hpr.2 pg (protect_range _ hP prot0 pg hrange) hnot
      exact ⟨this, fun is_write => by rw [this]; exact traps_none is_write⟩

theorem frame_address_bound (f n page_size offset : Int) (hf0 : 0 ≤ f) (hf1 : f < n)
    (ho0 : 0 ≤ offset) (ho1 : offset < page_size) :
    0 ≤ f * page_size + offset ∧ f * page_size + offset < n * page_size := by
  have hp : 0 < page_size := lt_of_le_of_lt ho0 ho1
  constructor
  · have := mul_nonneg hf0 (le_of_lt hp)
    omega
  · have h1 : f + 1 ≤ n := by omega
    have h2 : (f + 1) * page_size ≤ n * page_size := mul_le_mul_of_nonneg_right h1 (le_of_lt hp)
    have h3 : (f + 1) * page_size = f * page_size + page_size := by ring
    omega

/-- C20. Physical addresses stay inside the frame array, for both policies (at least
one frame for FIFO, at least two for Third-Chance), when `N_FRAMES * PAGE_SIZE` fits
the unsigned type: in the state reached by any run of faults, every record the
handler logs for one more fault, at an address at or above the base, carries the
physical address `f * PAGE_SIZE + offset`, where `f` is the frame index of the
record of the faulting page in the table the handler leaves, `0 ≤ f < N_FRAMES` and
`0 ≤ offset < PAGE_SIZE`; hence `0 ≤ phy_addr < N_FRAMES * PAGE_SIZE`. -/
theorem physical_address_in_frames (cfgF cfgT : Config) (fuel : Nat)
    (faultsF faultsT : List Int) (dF dT : Int)
    (hNF : 1 ≤ cfgF.N_FRAMES) (hPF : 0 < cfgF.PAGE_SIZE)
    (hfitF : cfgF.N_FRAMES * cfgF.PAGE_SIZE ≤ 4294967296)
    (hfF : ∀ d ∈ faultsF, 0 ≤ d) (hdF : 0 ≤ dF)
    (hNT : 2 ≤ cfgT.N_FRAMES) (hPT : 0 < cfgT.PAGE_SIZE)
    (hfitT : cfgT.N_FRAMES * cfgT.PAGE_SIZE ≤ 4294967296)
    (hfuel : 2 * cfgT.N_FRAMES < (fuel : Int))
    (hfT : ∀ d ∈ faultsT, 0 ≤ d) (hdT : 0 ≤ dT) :
    (∃ s evs s1 evs1, fifo_run cfgF fifo_init faultsF = Outcome.ok (s, evs) ∧
      fifo_handler cfgF s dF = Outcome.ok (s1, evs1) ∧
      ∀ virt_page cause evicted_page write_back phy_addr,
        Event.mm_logger virt_page cause evicted_page write_back phy_addr ∈ evs1 →
        ∃ record ∈ s1.queue, record.page_number = Int.tdiv dF cfgF.PAGE_SIZE ∧
          0 ≤ record.place_in_pm ∧ record.place_in_pm < cfgF.N_FRAMES ∧
          0 ≤ Int.tmod dF cfgF.PAGE_SIZE ∧ Int.tmod dF cfgF.PAGE_SIZE < cfgF.PAGE_SIZE ∧
          phy_addr = record.place_in_pm * cfgF.PAGE_SIZE + Int.tmod dF cfgF.PAGE_SIZE ∧
          0 ≤ phy_addr ∧ phy_addr < cfgF.N_FRAMES * cfgF.PAGE_SIZE) ∧
    (∃ s evs s1 evs1, tc_run cfgT fuel tc_init faultsT = Outcome.ok (s, evs) ∧
      tc_handler cfgT fuel s dT = Outcome.ok (s1, evs1) ∧
      ∀ virt_page cause evicted_page write_back phy_addr,
        Event.mm_logger virt_page cause evicted_page write_back phy_addr ∈ evs1 →
        ∃ record ∈ s1.heap, record.page_number = Int.tdiv dT cfgT.PAGE_SIZE ∧
          0 ≤ record.place_in_pm ∧ record.place_in_pm < cfgT.N_FRAMES ∧
          0 ≤ Int.tmod dT cfgT.PAGE_SIZE ∧ Int.tmod dT cfgT.PAGE_SIZE < cfgT.PAGE_SIZE ∧
          phy_addr = record.place_in_pm * cfgT.PAGE_SIZE + Int.tmod dT cfgT.PAGE_SIZE ∧
          0 ≤ phy_addr ∧ phy_addr < cfgT.N_FRAMES * cfgT.PAGE_SIZE) := by
  constructor
  · obtain ⟨s, evs, hrun, hinv, hfr, hpr⟩ :=
      fifo_reach_more cfgF (fun _ => PROT_NONE) hNF hPF faultsF hfF
    obtain ⟨s1, evs1, hh, hinv1, _, _, hserved⟩ :=
      fifo_step_more cfgF s evs dF _ _ hNF hPF hdF hinv hfr hpr
    refine ⟨s, evs, s1, evs1, hrun, hh, ?_⟩
    intro vp cause ev wb pa hmem
    obtain ⟨hvp, _, record, hrec, hpage, hpa, _, _⟩ := hserved vp cause ev wb pa hmem
    obtain ⟨hf0, hf1⟩ := hinv1.1.2.2 record hrec
    have ho0 : 0 ≤ Int.tmod dF cfgF.PAGE_SIZE := Int.tmod_nonneg _ hdF
    have ho1 : Int.tmod dF cfgF.PAGE_SIZE < cfgF.PAGE_SIZE := Int.tmod_lt_of_pos _ hPF
    obtain ⟨hb0, hb1⟩ := frame_address_bound _ _ _ _ hf0 hf1 ho0 ho1
    rw [to_unsigned_of_fits _ hb0 (lt_of_lt_of_le hb1 hfitF)] at hpa
    exact ⟨record, hrec, by rw [hpage, hvp], hf0, hf1, ho0, ho1, hpa, by rw [hpa]; exact hb0,
      by rw [hpa]; exact hb1⟩
  · obtain ⟨s, evs, hrun, hinv, hcp, hfr, hpr⟩ :=
      tc_reach_more cfgT fuel (fun _ => PROT_NONE) hNT hPT hfuel faultsT hfT
    obtain ⟨s1, evs1, hh, hinv1, _, hfr1, _, hserved⟩ :=
      tc_step_more cfgT fuel s evs dT _ _ hNT hPT hdT hfuel hinv hcp hfr hpr
    refine ⟨s, evs, s1, evs1, hrun, hh, ?_⟩
    intro vp cause ev wb pa hmem
    obtain ⟨hvp, _, record, hrec, hpage, hpa, _, _⟩ := hserved vp cause ev wb pa hmem
    obtain ⟨k, hk⟩ := List.mem_iff_getElem?.mp hrec
    have hklt : k < s1.heap.length := (List.getElem?_eq_some_iff.mp hk).1
    have hplace := hfr1 k record hk
    have hlen := hinv1.1
    have hf0 : 0 ≤ record.place_in_pm := by rw [hplace]; omega
    have hf1 : record.place_in_pm < cfgT.N_FRAMES := by rw [hplace]; omega
    have ho0 : 0 ≤ Int.tmod dT cfgT.PAGE_SIZE := Int.tmod_nonneg _ hdT
    have ho1 : Int.tmod dT cfgT.PAGE_SIZE < cfgT.PAGE_SIZE := Int.tmod_lt_of_pos _ hPT
    obtain ⟨hb0, hb1⟩ := frame_address_bound _ _ _ _ hf0 hf1 ho0 ho1
    rw [to_unsigned_of_fits _ hb0 (lt_of_lt_of_le hb1 hfitT)] at hpa
    exact ⟨record, hrec, by rw [hpage, hvp], hf0, hf1, ho0, ho1, hpa, by rw [hpa]; exact hb0,
      by rw [hpa]; exact hb1⟩

/-- Witness for C17: two frames; FIFO after faults on pages 0 and 1 serves a write to
page 0; Third-Chance after faults on pages 0, 1 and 2 serves a fault on page 1. -/
theorem granted_permission_suppresses_trap_witness :
    (∃ s evs s1 evs1, fifo_run
        { VM_SIZE := 32768, N_FRAMES := 2, PAGE_SIZE := 4096, POLICY := 1 } fifo_init [0, 4096] = Outcome.ok (s, evs) ∧
      fifo_handler
        { VM_SIZE := 32768, N_FRAMES := 2, PAGE_SIZE := 4096, POLICY := 1 } s 5 = Outcome.ok (s1, evs1) ∧
      ∀ p cause evicted_page write_back phy_addr,
        Event.mm_logger p cause evicted_page write_back phy_addr ∈ evs1 →
        (cause = 0 ∨ cause = 1 ∨ cause = 2) ∧
        ((cause = 0 ∨ cause = 2) →
          protection_after
        { VM_SIZE := 32768, N_FRAMES := 2, PAGE_SIZE := 4096, POLICY := 1 } (fun _ => PROT_NONE) (evs ++ evs1) p = PROT_READ ∧
          ∀ a, Int.tdiv a 4096 = p →
            fifo_access
        { VM_SIZE := 32768, N_FRAMES := 2, PAGE_SIZE := 4096, POLICY := 1 } s1 (protection_after
        { VM_SIZE := 32768, N_FRAMES := 2, PAGE_SIZE := 4096, POLICY := 1 } (fun _ => PROT_NONE) (evs ++ evs1)) a false =
              Outcome.ok (s1, [])) ∧
        (cause = 1 →
          protection_after
        { VM_SIZE := 32768, N_FRAMES := 2, PAGE_SIZE := 4096, POLICY := 1 } (fun _ => PROT_NONE) (evs ++ evs1) p = PROT_READ_WRITE ∧
          ∀ a is_write, Int.tdiv a 4096 = p →
            fifo_access
        { VM_SIZE := 32768, N_FRAMES := 2, PAGE_SIZE := 4096, POLICY := 1 } s1 (protection_after
        { VM_SIZE := 32768, N_FRAMES := 2, PAGE_SIZE := 4096, POLICY := 1 } (fun _ => PROT_NONE) (evs ++ evs1)) a is_write =
              Outcome.ok (s1, []))) ∧
    (∃ s evs s1 evs1, tc_run
        { VM_SIZE := 32768, N_FRAMES := 2, PAGE_SIZE := 4096, POLICY := 2 } 5 tc_init [0, 4096, 8192] = Outcome.ok (s, evs) ∧
      tc_handler
        { VM_SIZE := 32768, N_FRAMES := 2, PAGE_SIZE := 4096, POLICY := 2 } 5 s 4100 = Outcome.ok (s1, evs1) ∧
      ∀ p cause evicted_page write_back phy_addr,
        Event.mm_logger p cause evicted_page write_back phy_addr ∈ evs1 →
        (cause = 0 ∨ cause = 1 ∨ cause = 2) ∧
        ((cause = 0 ∨ cause = 2) →
          protection_after
        { VM_SIZE := 32768, N_FRAMES := 2, PAGE_SIZE := 4096, POLICY := 2 } (fun _ => PROT_NONE) (evs ++ evs1) p = PROT_READ ∧
          ∀ a, Int.tdiv a 4096 = p →
            tc_access
        { VM_SIZE := 32768, N_FRAMES := 2, PAGE_SIZE := 4096, POLICY := 2 } 5 s1 (protection_after
        { VM_SIZE := 32768, N_FRAMES := 2, PAGE_SIZE := 4096, POLICY := 2 } (fun _ => PROT_NONE) (evs ++ evs1)) a false =
              Outcome.ok (s1, [])) ∧
        (cause = 1 →
          protection_after
        { VM_SIZE := 32768, N_FRAMES := 2, PAGE_SIZE := 4096, POLICY := 2 } (fun _ => PROT_NONE) (evs ++ evs1) p = PROT_READ_WRITE ∧
          ∀ a is_write, Int.tdiv a 4096 = p →
            tc_access
        { VM_SIZE := 32768, N_FRAMES := 2, PAGE_SIZE := 4096, POLICY := 2 } 5 s1 (protection_after
        { VM_SIZE := 32768, N_FRAMES := 2, PAGE_SIZE := 4096, POLICY := 2 } (fun _ => PROT_NONE) (evs ++ evs1)) a is_write =
              Outcome.ok (s1, []))) :=
  granted_permission_suppresses_trap
    { VM_SIZE := 32768, N_FRAMES := 2, PAGE_SIZE := 4096, POLICY := 1 }
    { VM_SIZE := 32768, N_FRAMES := 2, PAGE_SIZE := 4096, POLICY := 2 } 5
    (fun _ => PROT_NONE) (fun _ => PROT_NONE) [0, 4096] [0, 4096, 8192] 5 4100
    (by decide) (by decide) (by decide) (by decide)
    (by decide) (by decide) (by decide) (by decide) (by decide)

/-- Witness for C20: two frames of 4096 bytes; FIFO after faults on pages 0 and 1
serves a fault at offset 7 of page 2; Third-Chance after faults on pages 0, 1 and 2
serves a fault at offset 7 of page 3. -/
theorem physical_address_in_frames_witness :
    (∃ s evs s1 evs1, fifo_run
        { VM_SIZE := 32768, N_FRAMES := 2, PAGE_SIZE := 4096, POLICY := 1 } fifo_init [0, 4096] = Outcome.ok (s, evs) ∧
      fifo_handler
        { VM_SIZE := 32768, N_FRAMES := 2, PAGE_SIZE := 4096, POLICY := 1 } s 8199 = Outcome.ok (s1, evs1) ∧
      ∀ virt_page cause evicted_page write_back phy_addr,
        Event.mm_logger virt_page cause evicted_page write_back phy_addr ∈ evs1 →
        ∃ record ∈ s1.queue, record.page_number = Int.tdiv 8199 4096 ∧
          0 ≤ record.place_in_pm ∧ record.place_in_pm < 2 ∧
          0 ≤ Int.tmod 8199 4096 ∧ Int.tmod 8199 4096 < 4096 ∧
          phy_addr = record.place_in_pm * 4096 + Int.tmod 8199 4096 ∧
          0 ≤ phy_addr ∧ phy_addr < 2 * 4096) ∧
    (∃ s evs s1 evs1, tc_run
        { VM_SIZE := 32768, N_FRAMES := 2, PAGE_SIZE := 4096, POLICY := 2 } 5 tc_init [0, 4096, 8192] = Outcome.ok (s, evs) ∧
      tc_handler
        { VM_SIZE := 32768, N_FRAMES := 2, PAGE_SIZE := 4096, POLICY := 2 } 5 s 12295 = Outcome.ok (s1, evs1) ∧
      ∀ virt_page cause evicted_page write_back phy_addr,
        Event.mm_logger virt_page cause evicted_page write_back phy_addr ∈ evs1 →
        ∃ record ∈ s1.heap, record.page_number = Int.tdiv 12295 4096 ∧
          0 ≤ record.place_in_pm ∧ record.place_in_pm < 2 ∧
          0 ≤ Int.tmod 12295 4096 ∧ Int.tmod 12295 4096 < 4096 ∧
          phy_addr = record.place_in_pm * 4096 + Int.tmod 12295 4096 ∧
          0 ≤ phy_addr ∧ phy_addr < 2 * 4096) :=
  physical_address_in_frames
    { VM_SIZE := 32768, N_FRAMES := 2, PAGE_SIZE := 4096, POLICY := 1 }
    { VM_SIZE := 32768, N_FRAMES := 2, PAGE_SIZE := 4096, POLICY := 2 } 5
    [0, 4096] [0, 4096, 8192] 8199 12295
    (by decide) (by decide) (by decide) (by decide) (by decide)
    (by decide) (by decide) (by decide) (by decide) (by decide) (by decide)

/-- Witness for C18: a range of 8 pages of 4096 bytes, all readable and writable
before `mm_init`, two frames, faults on pages 0, 1 and 2 under each policy. -/
theorem protection_mirrors_table_witness :
    (∃ g1 calls s evs,
      mm_init globals_zero 32768 2 4096 1 = (g1, Handler.fifo_handler, calls) ∧
      fifo_run g1.cfg g1.fifo [0, 4096, 8192] = Outcome.ok (s, evs) ∧
      (∀ record ∈ s.queue,
        protection_after g1.cfg (fun _ => PROT_READ_WRITE) (calls ++ evs) record.page_number = record.flag) ∧
      (∀ pg, page_in_range g1.cfg pg → (∀ record ∈ s.queue, record.page_number ≠ pg) →
        protection_after g1.cfg (fun _ => PROT_READ_WRITE) (calls ++ evs) pg = PROT_NONE ∧
        ∀ is_write, traps (protection_after g1.cfg (fun _ => PROT_READ_WRITE) (calls ++ evs) pg) is_write
          = true)) ∧
    (∃ g1 calls s evs,
      mm_init globals_zero 32768 2 4096 2 = (g1, Handler.tc_handler, calls) ∧
      tc_run g1.cfg 5 g1.tc [0, 4096, 8192] = Outcome.ok (s, evs) ∧
      (∀ record ∈ s.heap,
        protection_after g1.cfg (fun _ => PROT_READ_WRITE) (calls ++ evs) record.page_number = record.flag) ∧
      (∀ pg, page_in_range g1.cfg pg → (∀ record ∈ s.heap, record.page_number ≠ pg) →
        protection_after g1.cfg (fun _ => PROT_READ_WRITE) (calls ++ evs) pg = PROT_NONE ∧
        ∀ is_write, traps (protection_after g1.cfg (fun _ => PROT_READ_WRITE) (calls ++ evs) pg) is_write
          = true)) :=
  protection_mirrors_table globals_zero (fun _ => PROT_READ_WRITE) 32768 4096 2 2 5
    [0, 4096, 8192] [0, 4096, 8192]
    (by decide) (by decide) (by decide) (by decide) (by decide) (by decide) rfl

/-! ### Third-Chance: the passes of the clock hand over a modified page -/

theorem chances_of_fields (x y : tc_page) (h : record_fields y = record_fields x) :
    chances y = chances x := by
  obtain ⟨_, _, _, h4, h5⟩ := fields_eq x y h
  simp [chances, h4, h5]

theorem chances_dirty (node : tc_page) (h5 : five_state node) (hm : node.m = 1) :
    (chances node = 2 ∧ node.r = 1) ∨ (chances node = 1 ∧ node.r = 0) ∨
      (chances node = 0 ∧ node.r = -1) := by
  unfold five_state at h5
  rcases h5 with ⟨_, h2⟩ | ⟨_, h2⟩ | ⟨h1, _⟩ | ⟨h1, _⟩ | ⟨h1, _⟩
  · rw [hm] at h2; exact absurd h2 (by decide)
  · rw [hm] at h2; exact absurd h2 (by decide)
  · left; simp [chances, h1, hm]
  · right; left; simp [chances, h1, hm]
  · right; right; simp [chances, h1, hm]

theorem chances_evictable_dirty (node : tc_page) (hev : evictable node) (hm : node.m = 1) :
    chances node = 0 := by
  unfold evictable at hev
  rcases hev with ⟨_, h2⟩ | ⟨h1, _⟩
  · rw [hm] at h2; exact absurd h2 (by decide)
  · simp [chances, h1, hm]

theorem no_record_about_nil (p : Int) : NoRecordAbout p [] := by
  intro _ _ _ _ _ h
  simp at h

theorem no_record_about_append (p : Int) (l1 l2 : List Event) (h1 : NoRecordAbout p l1)
    (h2 : NoRecordAbout p l2) : NoRecordAbout p (l1 ++ l2) := by
  intro vp c ev wb pa h
  rcases List.mem_append.mp h with h | h
  · exact h1 vp c ev wb pa h
  · exact h2 vp c ev wb pa h

theorem tc_passes_cons (cfg : Config) (fuel : Nat) (i : Nat) (s s1 : TcState)
    (evs : List Event) (d : Int) (ds : List Int)
    (h : tc_handler cfg fuel s d = Outcome.ok (s1, evs)) :
    tc_passes_run cfg fuel i s (d :: ds) =
      (tc_hand_passes cfg fuel s d).count i + tc_passes_run cfg fuel i s1 ds := by
  simp [tc_passes_run, h]

/-- One fault on another page, seen from a modified record at address `i`: either the
record stays, with as many chances fewer as the hand passed over it and no record
logged about its page, or the hand used up its chances and it is evicted with
`write_back = 1`. -/
theorem tc_step_passes (cfg : Config) (fuel : Nat) (s : TcState) (log : List Event)
    (d : Int) (i : Nat) (node : tc_page) (p : Int)
    (hN : 2 ≤ cfg.N_FRAMES) (hP : 0 < cfg.PAGE_SIZE) (haddr : 0 ≤ d)
    (hfuel : 2 * cfg.N_FRAMES < (fuel : Int)) (hinv : TcInv cfg s log)
    (hi : s.heap[i]? = some node) (hpage : node.page_number = p) (hm : node.m = 1)
    (hd : Int.tdiv d cfg.PAGE_SIZE ≠ p) :
    ∃ s1 evs, tc_handler cfg fuel s d = Outcome.ok (s1, evs) ∧ TcInv cfg s1 (log ++ evs) ∧
      ((∃ node1, s1.heap[i]? = some node1 ∧ node1.page_number = p ∧ node1.m = 1 ∧
          (tc_hand_passes cfg fuel s d).count i + chances node1 = chances node ∧
          NoRecordAbout p evs) ∨
       ((tc_hand_passes cfg fuel s d).count i = chances node ∧
          (∃ vp pa, logged_records evs = [Event.mm_logger vp 0 p 1 pa]) ∧
          ∀ x ∈ s1.heap, x.page_number ≠ p)) := by
  obtain ⟨s1, evs, hh, hinv1, _⟩ := tc_step cfg fuel s log d hN hP haddr hfuel hinv
  refine ⟨s1, evs, hh, hinv1, ?_⟩
  have hnmem : node ∈ s.heap := List.mem_iff_getElem?.mpr ⟨i, hi⟩
  have hp0 : 0 ≤ p := by rw [← hpage]; exact (hinv.2.2.2.1 node hnmem).2.1
  have hpm : (-1 : Int) ≠ p := by omega
  have hilt : i < s.heap.length := (List.getElem?_eq_some_iff.mp hi).1
  rcases tc_step_cases cfg fuel s log d hN (ne_of_gt hP) hfuel hinv with
    ⟨j, node_j, htable, hj, hpj, _, hpass, hcase⟩ | ⟨hs, _, _⟩ |
    ⟨htable, hmiss, hlt, hpass, tail_node, htail, hcase⟩ |
    ⟨htable, hmiss, hn, hfull, c, t1, e, evict, scan_events, visited, hclock, hc, hspec,
      hevict, hevictable, hid, h5, hlog, hcount, hscan, hpass, hcase⟩
  · -- the faulting page is resident, at another address
    rw [hh] at hcase
    simp only [Outcome.ok.injEq, Prod.mk.injEq] at hcase
    obtain ⟨hs1, hevs⟩ := hcase
    subst hs1 hevs
    have hji : j ≠ i := by
      intro h
      subst h
      rw [hi] at hj
      cases hj
      exact hd (by rw [← hpj, hpage])
    left
    refine ⟨node, ?_, hpage, hm, by rw [hpass]; simp, ?_⟩
    · unfold tc_hit
      by_cases hflag : node_j.flag = PROT_NONE
      · simp only [if_pos hflag]
        rw [List.getElem?_set, if_neg hji]; exact hi
      · simp only [if_neg hflag]
        rw [List.getElem?_set, if_neg hji]; exact hi
    · intro vp c ev wb pa hmem
      unfold tc_hit at hmem
      by_cases hflag : node_j.flag = PROT_NONE
      · simp only [if_pos hflag, List.mem_cons, List.mem_singleton, List.not_mem_nil,
          or_false, Event.mm_logger.injEq, reduceCtorEq, false_or] at hmem
        obtain ⟨rfl, _, rfl, _, _⟩ := hmem
        exact ⟨hd, hpm⟩
      · by_cases hmj : node_j.m = 0
        · simp only [if_neg hflag, if_pos hmj, List.mem_cons, List.mem_singleton,
            List.not_mem_nil, or_false, Event.mm_logger.injEq, reduceCtorEq, false_or]
            at hmem
          obtain ⟨rfl, _, rfl, _, _⟩ := hmem
          exact ⟨hd, hpm⟩
        · simp only [if_neg hflag, if_neg hmj, List.mem_cons, List.not_mem_nil, or_false,
            reduceCtorEq] at hmem
  · -- the table is empty: there is no record at `i`
    subst hs
    simp [tc_init] at hi
  · -- the table is below capacity
    rw [hh] at hcase
    simp only [Outcome.ok.injEq, Prod.mk.injEq] at hcase
    obtain ⟨hs1, hevs⟩ := hcase
    subst hs1 hevs
    have hfields := fields_set_next s.heap (s.heap.length - 1) tail_node
      (some s.heap.length) htail
    have hilt1 : i < (s.heap.set (s.heap.length - 1)
        { tail_node with next := some s.heap.length }).length := by
      rw [List.length_set]; exact hilt
    obtain ⟨x, hx, hf⟩ := fields_getElem? _ _ hfields i _ (List.getElem?_eq_getElem hilt1)
    rw [hi] at hx
    cases hx
    obtain ⟨f1, _, _, _, f5⟩ := fields_eq _ _ hf
    left
    refine ⟨_, ?_, by rw [← f1]; exact hpage, by rw [← f5]; exact hm, ?_, ?_⟩
    · simp only
      rw [List.getElem?_append_left hilt1]
      exact List.getElem?_eq_getElem hilt1
    · rw [hpass, ← chances_of_fields _ _ hf]
      simp
    · intro vp c ev wb pa hmem
      simp only [List.mem_cons, List.mem_singleton, List.not_mem_nil, or_false,
        Event.mm_logger.injEq, reduceCtorEq, false_or] at hmem
      obtain ⟨rfl, _, rfl, _, _⟩ := hmem
      exact ⟨hd, hpm⟩
  · -- the table is full
    rw [hh] at hcase
    simp only [Outcome.ok.injEq, Prod.mk.injEq] at hcase
    obtain ⟨hs1, hevs⟩ := hcase
    subst hs1 hevs
    have hnd := htable.2.2.2.2.2.2
    have hpages := identity_pages s.heap t1 hid
    have hnd1 : (t1.map tc_page.page_number).Nodup := by rw [hpages]; exact hnd
    obtain ⟨y, hy, hfy⟩ := identity_getElem? t1 s.heap hid.symm i node hi
    have hyp : y.page_number = p := by
      have := congrArg (fun z => z.1) hfy
      simp only [page_identity] at this
      rw [this]; exact hpage
    have hym : y.m = 1 := by
      have := congrArg (fun z => z.2.2.1) hfy
      simp only [page_identity] at this
      rw [this]; exact hm
    have hci := hcount i
    have hc1 : chances_at t1 i = chances y := by simp [chances_at, hy]
    have hc2 : chances_at s.heap i = chances node := by simp [chances_at, hi]
    rw [hc1, hc2] at hci
    have hq : logged_records
        (Event.mprotect (cfg.PAGE_SIZE * Int.tdiv d cfg.PAGE_SIZE) cfg.PAGE_SIZE
            PROT_READ ::
          scan_events ++
          [Event.mprotect (cfg.PAGE_SIZE * evict.page_number) cfg.PAGE_SIZE PROT_NONE,
           Event.mm_logger (Int.tdiv d cfg.PAGE_SIZE) 0 evict.page_number evict.m
             (to_unsigned (evict.place_in_pm * cfg.PAGE_SIZE +
               Int.tmod d cfg.PAGE_SIZE))]) =
        [Event.mm_logger (Int.tdiv d cfg.PAGE_SIZE) 0 evict.page_number evict.m
           (to_unsigned (evict.place_in_pm * cfg.PAGE_SIZE +
             Int.tmod d cfg.PAGE_SIZE))] := by
      unfold logged_records at hlog ⊢
      rw [List.cons_append, List.filter_cons, List.filter_append, hlog]
      simp [is_record]
    by_cases hei : e = i
    · right
      subst hei
      have hye : y = evict := Option.some.inj (hy.symm.trans hevict)
      rw [hye] at hyp hym hci
      have h0 := chances_evictable_dirty evict hevictable hym
      refine ⟨by rw [hpass]; omega, ⟨_, _, by rw [hq, hyp, hym]⟩, ?_⟩
      intro x hx
      rcases mem_set_cases t1 e _ x hx with ⟨k, hk, hxk⟩ | hx
      · intro hxp
        exact hk (pages_index_inj t1 hnd1 k e x evict hxk hevict (by rw [hxp, hyp]))
      · rw [hx]
        exact hd
    · left
      refine ⟨y, ?_, hyp, hym, by rw [hpass]; exact hci, ?_⟩
      · simp only
        rw [List.getElem?_set, if_neg hei]
        exact hy
      · intro vp c ev wb pa hmem
        simp only [List.mem_cons, List.mem_append, List.mem_singleton, List.not_mem_nil,
          or_false, Event.mm_logger.injEq, reduceCtorEq, false_or] at hmem
        rcases hmem with hmem | hmem
        · have := not_record_of_quiet scan_events hlog _ hmem
          simp [is_record] at this
        · obtain ⟨rfl, _, rfl, _, _⟩ := hmem
          refine ⟨hd, ?_⟩
          intro hep
          exact hei (pages_index_inj t1 hnd1 e i evict y hevict hy (by rw [hep, hyp]))

theorem tc_reprieve_run (cfg : Config) (fuel : Nat) (i : Nat) (p : Int)
    (hN : 2 ≤ cfg.N_FRAMES) (hP : 0 < cfg.PAGE_SIZE)
    (hfuel : 2 * cfg.N_FRAMES < (fuel : Int)) (faults : List Int) :
    ∀ (s : TcState) (log : List Event) (node : tc_page),
      (∀ d ∈ faults, 0 ≤ d ∧ Int.tdiv d cfg.PAGE_SIZE ≠ p) → TcInv cfg s log →
      s.heap[i]? = some node → node.page_number = p → node.m = 1 →
      ∃ s1 evs, tc_run cfg fuel s faults = Outcome.ok (s1, evs) ∧
        ((∃ node1, s1.heap[i]? = some node1 ∧ node1.page_number = p ∧ node1.m = 1 ∧
            tc_passes_run cfg fuel i s faults + chances node1 = chances node ∧
            NoRecordAbout p evs) ∨
         (∃ f1 d f2 s2 evs2 s3 evs3 vp pa, faults = f1 ++ d :: f2 ∧
            tc_run cfg fuel s f1 = Outcome.ok (s2, evs2) ∧
            tc_handler cfg fuel s2 d = Outcome.ok (s3, evs3) ∧
            tc_passes_run cfg fuel i s (f1 ++ [d]) = chances node ∧
            NoRecordAbout p evs2 ∧
            logged_records evs3 = [Event.mm_logger vp 0 p 1 pa] ∧
            ∀ x ∈ s3.heap, x.page_number ≠ p)) := by
  induction faults with
  | nil =>
    intro s log node _ _ hi hpage hm
    exact ⟨s, [], rfl, Or.inl ⟨node, hi, hpage, hm, by simp [tc_passes_run],
      no_record_about_nil p⟩⟩
  | cons d ds ih =>
    intro s log node hds hinv hi hpage hm
    have hd := hds d (List.mem_cons_self d ds)
    have hds1 : ∀ x ∈ ds, 0 ≤ x ∧ Int.tdiv x cfg.PAGE_SIZE ≠ p :=
      fun x hx => hds x (List.mem_cons_of_mem d hx)
    obtain ⟨s1, evs1, h1, hinv1, hstep⟩ :=
      tc_step_passes cfg fuel s log d i node p hN hP hd.1 hfuel hinv hi hpage hm hd.2
    rcases hstep with ⟨node1, hi1, hpage1, hm1, hcount1, hquiet1⟩ | ⟨hcount1, hrec, hgone⟩
    · obtain ⟨s2, evs2, h2, hrest⟩ := ih s1 (log ++ evs1) node1 hds1 hinv1 hi1 hpage1 hm1
      refine ⟨s2, evs1 ++ evs2, by simp [tc_run, h1, h2], ?_⟩
      rcases hrest with ⟨node2, hi2, hpage2, hm2, hcount2, hquiet2⟩ |
        ⟨f1, d1, f2, s3, evs3, s4, evs4, vp, pa, hsplit, hrun3, hh4, hcount2, hquiet2, hrec,
          hgone⟩
      · left
        refine ⟨node2, hi2, hpage2, hm2, ?_, no_record_about_append p _ _ hquiet1 hquiet2⟩
        rw [tc_passes_cons cfg fuel i s s1 evs1 d ds h1]
        omega
      · right
        refine ⟨d :: f1, d1, f2, s3, evs1 ++ evs3, s4, evs4, vp, pa, by rw [hsplit]; rfl,
          by simp [tc_run, h1, hrun3], hh4, ?_,
          no_record_about_append p _ _ hquiet1 hquiet2, hrec, hgone⟩
        rw [List.cons_append, tc_passes_cons cfg fuel i s s1 evs1 d _ h1]
        omega
    · obtain ⟨s2, evs2, h2, _⟩ :=
        tc_run_inv cfg fuel hN hP hfuel ds s1 (log ++ evs1) (fun x hx => (hds1 x hx).1) hinv1
      obtain ⟨vp, pa, hrec⟩ := hrec
      refine ⟨s2, evs1 ++ evs2, by simp [tc_run, h1, h2], Or.inr ⟨[], d, ds, s, [], s1, evs1,
        vp, pa, rfl, rfl, h1, ?_, no_record_about_nil p, hrec, hgone⟩⟩
      rw [List.nil_append, tc_passes_cons cfg fuel i s s1 evs1 d [] h1]
      simp only [tc_passes_run]
      omega

/-- C16. Third-Chance dirty reprieve, with at least two frames.  Take any state
reached by a run of faults in which page `p` has a record, at address `i`, in state
(reference 1, modified 1), and any further faults, none on `p`.  They are all
served, and, counting the times the clock hand advances over address `i`: either
`p` is still resident, the hand has passed over it at most twice, no record about
`p` was logged, and its state is (1,1) after no pass, (0,1) with permission NONE
after one pass, (-1,1) with permission NONE after two; or at some fault the hand
arrived a third time: the passes up to and including that fault are exactly two,
no record about `p` was logged before it, and that fault logs the one record that
evicts `p` with `write_back = 1`, after which `p` has no record. -/
theorem tc_dirty_reprieve (cfg : Config) (fuel : Nat) (faults0 faults : List Int)
    (p : Int) (s0 : TcState) (evs0 : List Event) (i : Nat) (node : tc_page)
    (hN : 2 ≤ cfg.N_FRAMES) (hP : 0 < cfg.PAGE_SIZE)
    (hfuel : 2 * cfg.N_FRAMES < (fuel : Int)) (hfaults0 : ∀ d ∈ faults0, 0 ≤ d)
    (hrun0 : tc_run cfg fuel tc_init faults0 = Outcome.ok (s0, evs0))
    (hi : s0.heap[i]? = some node) (hpage : node.page_number = p)
    (hr : node.r = 1) (hm : node.m = 1)
    (hfaults : ∀ d ∈ faults, 0 ≤ d ∧ Int.tdiv d cfg.PAGE_SIZE ≠ p) :
    ∃ s1 evs, tc_run cfg fuel s0 faults = Outcome.ok (s1, evs) ∧
      ((∃ node1, s1.heap[i]? = some node1 ∧ node1.page_number = p ∧
          NoRecordAbout p evs ∧
          tc_passes_run cfg fuel i s0 faults ≤ 2 ∧
          (tc_passes_run cfg fuel i s0 faults = 0 → node1.r = 1 ∧ node1.m = 1) ∧
          (tc_passes_run cfg fuel i s0 faults = 1 →
            node1.r = 0 ∧ node1.m = 1 ∧ node1.flag = PROT_NONE) ∧
          (tc_passes_run cfg fuel i s0 faults = 2 →
            node1.r = -1 ∧ node1.m = 1 ∧ node1.flag = PROT_NONE)) ∨
       (∃ f1 d f2 s2 evs2 s3 evs3 vp pa, faults = f1 ++ d :: f2 ∧
          tc_run cfg fuel s0 f1 = Outcome.ok (s2, evs2) ∧
          tc_handler cfg fuel s2 d = Outcome.ok (s3, evs3) ∧
          tc_passes_run cfg fuel i s0 (f1 ++ [d]) = 2 ∧
          NoRecordAbout p evs2 ∧
          logged_records evs3 = [Event.mm_logger vp 0 p 1 pa] ∧
          ∀ x ∈ s3.heap, x.page_number ≠ p)) := by
  obtain ⟨s0', evs0', hrun0', hinv0, hcp0, hfr0, hpr0⟩ :=
    tc_reach_more cfg fuel (fun _ => PROT_NONE) hN hP hfuel faults0 hfaults0
  rw [hrun0] at hrun0'
  simp only [Outcome.ok.injEq, Prod.mk.injEq] at hrun0'
  obtain ⟨hs0, hevs0⟩ := hrun0'
  subst hs0 hevs0
  have hch : chances node = 2 := by simp [chances, hr, hm]
  obtain ⟨s1, evs, hrun, hrest⟩ :=
    tc_reprieve_run cfg fuel i p hN hP hfuel faults s0 evs0 node hfaults hinv0 hi hpage hm
  obtain ⟨s1', evs', hrun', hinv1, hcp1, _, _⟩ :=
    tc_run_more cfg fuel (fun _ => PROT_NONE) hN hP hfuel faults s0 evs0 _
      (fun x hx => (hfaults x hx).1) hinv0 hcp0 hfr0 hpr0
  rw [hrun] at hrun'
  simp only [Outcome.ok.injEq, Prod.mk.injEq] at hrun'
  obtain ⟨hs, hevs⟩ := hrun'
  subst hs hevs
  refine ⟨s1, evs, hrun, ?_⟩
  rcases hrest with ⟨node1, hi1, hpage1, hm1, hcount, hquiet⟩ |
    ⟨f1, d, f2, s2, evs2, s3, evs3, vp, pa, hsplit, hrun2, hh3, hcount, hquiet, hrec, hgone⟩
  · left
    have hmem1 : node1 ∈ s1.heap := List.mem_iff_getElem?.mpr ⟨i, hi1⟩
    have h5 : five_state node1 := (hinv1.2.2.2.1 node1 hmem1).1
    have hcoupled := hcp1 node1 hmem1
    rw [hch] at hcount
    refine ⟨node1, hi1, hpage1, hquiet, by omega, ?_, ?_, ?_⟩
    · intro h0
      rcases chances_dirty node1 h5 hm1 with ⟨hc, hr1⟩ | ⟨hc, _⟩ | ⟨hc, _⟩
      · exact ⟨hr1, hm1⟩
      · omega
      · omega
    · intro h0
      rcases chances_dirty node1 h5 hm1 with ⟨hc, _⟩ | ⟨hc, hr1⟩ | ⟨hc, _⟩
      · omega
      · exact ⟨hr1, hm1, hcoupled.1.mpr (by rw [hr1]; decide)⟩
      · omega
    · intro h0
      rcases chances_dirty node1 h5 hm1 with ⟨hc, _⟩ | ⟨hc, _⟩ | ⟨hc, hr1⟩
      · omega
      · omega
      · exact ⟨hr1, hm1, hcoupled.1.mpr (by rw [hr1]; decide)⟩
  · right
    rw [hch] at hcount
    exact ⟨f1, d, f2, s2, evs2, s3, evs3, vp, pa, hsplit, hrun2, hh3, hcount, hquiet, hrec,
      hgone⟩

/-- Witness for C16: two frames; page 0 is admitted and written, page 1 is admitted;
then pages 2 and 3 fault: serving the first the hand passes twice over page 0,
serving the second it arrives a third time. -/
theorem tc_dirty_reprieve_witness :
    ∃ s1 evs,
      tc_run { VM_SIZE := 32768, N_FRAMES := 2, PAGE_SIZE := 4096, POLICY := 2 } 5
        { heap := [{ page_number := 0, place_in_pm := 0, flag := PROT_READ_WRITE, r := 1,
                     m := 1, next := some 1 },
                   { page_number := 1, place_in_pm := 1, flag := PROT_READ, r := 1,
                     m := 0, next := some 0 }],
          tc_head := some 0, tc_tail := some 1, clock_head := some 0,
          pages_in_queue_tc := 2 }
        [8192, 12288] = Outcome.ok (s1, evs) ∧
      ((∃ node1, s1.heap[0]? = some node1 ∧ node1.page_number = 0 ∧
          NoRecordAbout 0 evs ∧
          tc_passes_run { VM_SIZE := 32768, N_FRAMES := 2, PAGE_SIZE := 4096,
                          POLICY := 2 } 5 0
            { heap := [{ page_number := 0, place_in_pm := 0, flag := PROT_READ_WRITE,
                         r := 1, m := 1, next := some 1 },
                       { page_number := 1, place_in_pm := 1, flag := PROT_READ, r := 1,
                         m := 0, next := some 0 }],
              tc_head := some 0, tc_tail := some 1, clock_head := some 0,
              pages_in_queue_tc := 2 }
            [8192, 12288] ≤ 2 ∧
          (tc_passes_run { VM_SIZE := 32768, N_FRAMES := 2, PAGE_SIZE := 4096,
                           POLICY := 2 } 5 0
            { heap := [{ page_number := 0, place_in_pm := 0, flag := PROT_READ_WRITE,
                         r := 1, m := 1, next := some 1 },
                       { page_number := 1, place_in_pm := 1, flag := PROT_READ, r := 1,
                         m := 0, next := some 0 }],
              tc_head := some 0, tc_tail := some 1, clock_head := some 0,
              pages_in_queue_tc := 2 }
            [8192, 12288] = 0 → node1.r = 1 ∧ node1.m = 1) ∧
          (tc_passes_run { VM_SIZE := 32768, N_FRAMES := 2, PAGE_SIZE := 4096,
                           POLICY := 2 } 5 0
            { heap := [{ page_number := 0, place_in_pm := 0, flag := PROT_READ_WRITE,
                         r := 1, m := 1, next := some 1 },
                       { page_number := 1, place_in_pm := 1, flag := PROT_READ, r := 1,
                         m := 0, next := some 0 }],
              tc_head := some 0, tc_tail := some 1, clock_head := some 0,
              pages_in_queue_tc := 2 }
            [8192, 12288] = 1 → node1.r = 0 ∧ node1.m = 1 ∧ node1.flag = PROT_NONE) ∧
          (tc_passes_run { VM_SIZE := 32768, N_FRAMES := 2, PAGE_SIZE := 4096,
                           POLICY := 2 } 5 0
            { heap := [{ page_number := 0, place_in_pm := 0, flag := PROT_READ_WRITE,
                         r := 1, m := 1, next := some 1 },
                       { page_number := 1, place_in_pm := 1, flag := PROT_READ, r := 1,
                         m := 0, next := some 0 }],
              tc_head := some 0, tc_tail := some 1, clock_head := some 0,
              pages_in_queue_tc := 2 }
            [8192, 12288] = 2 → node1.r = -1 ∧ node1.m = 1 ∧ node1.flag = PROT_NONE)) ∨
       (∃ f1 d f2 s2 evs2 s3 evs3 vp pa, [8192, 12288] = f1 ++ d :: f2 ∧
          tc_run { VM_SIZE := 32768, N_FRAMES := 2, PAGE_SIZE := 4096, POLICY := 2 } 5
            { heap := [{ page_number := 0, place_in_pm := 0, flag := PROT_READ_WRITE,
                         r := 1, m := 1, next := some 1 },
                       { page_number := 1, place_in_pm := 1, flag := PROT_READ, r := 1,
                         m := 0, next := some 0 }],
              tc_head := some 0, tc_tail := some 1, clock_head := some 0,
              pages_in_queue_tc := 2 }
            f1 = Outcome.ok (s2, evs2) ∧
          tc_handler { VM_SIZE := 32768, N_FRAMES := 2, PAGE_SIZE := 4096,
                       POLICY := 2 } 5 s2 d = Outcome.ok (s3, evs3) ∧
          tc_passes_run { VM_SIZE := 32768, N_FRAMES := 2, PAGE_SIZE := 4096,
                          POLICY := 2 } 5 0
            { heap := [{ page_number := 0, place_in_pm := 0, flag := PROT_READ_WRITE,
                         r := 1, m := 1, next := some 1 },
                       { page_number := 1, place_in_pm := 1, flag := PROT_READ, r := 1,
                         m := 0, next := some 0 }],
              tc_head := some 0, tc_tail := some 1, clock_head := some 0,
              pages_in_queue_tc := 2 }
            (f1 ++ [d]) = 2 ∧
          NoRecordAbout 0 evs2 ∧
          logged_records evs3 = [Event.mm_logger vp 0 0 1 pa] ∧
          ∀ x ∈ s3.heap, x.page_number ≠ 0)) :=
  tc_dirty_reprieve
    { VM_SIZE := 32768, N_FRAMES := 2, PAGE_SIZE := 4096, POLICY := 2 } 5
    [0, 5, 4096] [8192, 12288] 0
    { heap := [{ page_number := 0, place_in_pm := 0, flag := PROT_READ_WRITE, r := 1,
                 m := 1, next := some 1 },
               { page_number := 1, place_in_pm := 1, flag := PROT_READ, r := 1,
                 m := 0, next := some 0 }],
      tc_head := some 0, tc_tail := some 1, clock_head := some 0,
      pages_in_queue_tc := 2 }
    [Event.mprotect 0 4096 PROT_READ, Event.mm_logger 0 0 (-1) 0 0,
     Event.mprotect 0 4096 PROT_READ_WRITE, Event.mm_logger 0 1 (-1) 0 5,
     Event.mprotect 4096 4096 PROT_READ, Event.mm_logger 1 0 (-1) 0 4096]
    0 { page_number := 0, place_in_pm := 0, flag := PROT_READ_WRITE, r := 1, m := 1,
        next := some 1 }
    (by decide) (by decide) (by decide) (by decide) (by decide) rfl rfl rfl rfl
    (by decide)

/-! ### Initialization -/

end MM
